import Mathlib

/-! rayscan: the discovery pipeline

A shallow embedding of `onchain/paircollector.go`, `onchain/swap.go`,
`onchain/raydium/amm.go`, `onchain/serum/market.go`, `onchain/logobserver.go`,
`onchain/txanalyzer.go` and `connection/connection.go`.

Conventions of the embedding:

* `solana.PublicKey` (`[32]byte`) and `solana.Signature` (`[64]byte`) are wrapped
  natural numbers (the number their bytes spell); only equality is ever used.
* `time.Time` is the triple the Go struct compares with `==`; `IsZero` looks at the
  seconds and nanoseconds only.
* `float64` is the IEEE 754 double: a finite value (written as the rational it
  denotes), negative zero, an infinity or NaN; division rounds to nearest, ties to even.
* A Go map from keys to record pointers is an association list with at most one
  entry per key; a pointer into the map is the key it is stored under.
* A function that can return an error or fault (nil dereference, index out of range)
  returns a three-way result.
-/

namespace Rayscan

/-! ## Primitive types -/

/-- The type solana.PublicKey, a 32-byte array, as the number its bytes spell. -/
structure PublicKey where
  val : Nat
deriving DecidableEq, Repr

/-- The zero value `solana.PublicKey{}`. -/
def PublicKey.zero : PublicKey := ⟨0⟩

/-- The type solana.Signature, a 64-byte array, as the number its bytes spell. -/
structure Signature where
  val : Nat
deriving DecidableEq, Repr

/-- The zero value `solana.Signature{}`. -/
def Signature.zero : Signature := ⟨0⟩

/-- The method `Signature.IsZero`: comparison with the zero value. -/
def Signature.IsZero (s : Signature) : Bool := decide (s = Signature.zero)

/-- The type time.Time: seconds and nanoseconds of the instant and the location pointer
(`0` is the nil pointer of the zero value). Struct equality compares all three. -/
structure Time where
  sec : Int
  nsec : Nat
  loc : Nat
deriving DecidableEq, Repr

/-- The zero value `time.Time{}`. -/
def Time.zero : Time := ⟨0, 0, 0⟩

/-- The method `Time.IsZero`: the instant is January 1, year 1, 00:00:00 UTC. -/
def Time.IsZero (t : Time) : Bool := decide (t.sec = 0) && decide (t.nsec = 0)

/-- Seconds between year 1 and 1970 (`unixToInternal` of package time). -/
def unixToInternal : Int := 62135596800

/-- The location pointer `time.Local` (not nil). -/
def localLoc : Nat := 1

/-- The function `time.Unix(sec, 0)`. -/
def Time.Unix (sec : Int) : Time := ⟨sec + unixToInternal, 0, localLoc⟩

/-- The constant solana.WrappedSol, base58 `So11111111111111111111111111111111111111112`. -/
def WrappedSol : PublicKey :=
  ⟨2988679396378646993494765771507681406623014513651778753134412041978399162369⟩

/-- The variable serum.OpenBookDex, base58 `srmqPvymJeFKQ4zGQed1GFppgkRHL9kaELCbyksJtPX`. -/
def OpenBookDex : PublicKey :=
  ⟨5892998535992312320273939463098742690380379153466629796432626046054420903662⟩

/-- The constant solana.SysVarClockPubkey, base58
`SysvarC1ock11111111111111111111111111111111`. -/
def SysVarClockPubkey : PublicKey :=
  ⟨3010411245977774767103551433779408434046391008353408711474217313814305570816⟩

/-- The variable raydium.Raydium_Liquidity_Program_V4, base58
`675kPX9MHTjS2zt1qfr1NYHuzeLXfQM9H24wFSUt1Mp8`. -/
def Raydium_Liquidity_Program_V4 : PublicKey :=
  ⟨34307378574122751251753648456821433629702160761243254248185250197633836157645⟩

/-- The variable raydium.Raydium_Authority_Program_V4, base58
`5Q544fKrFoe6tsEbD7S8EmxGTJYAKtTVhAW5Q5pge4j1`. -/
def Raydium_Authority_Program_V4 : PublicKey :=
  ⟨29555267933980536489500274975650497092513243748647118716558015509797207118600⟩

/-! ## serum.MarketInfo -/

/-- The struct serum.MarketInfo. -/
structure MarketInfo where
  ProgramID : PublicKey
  Market : PublicKey
  RequestQueue : PublicKey
  EventQueue : PublicKey
  Bids : PublicKey
  Asks : PublicKey
  BaseMint : PublicKey
  QuoteMint : PublicKey
  BaseVault : PublicKey
  QuoteVault : PublicKey
  Sysvar : PublicKey
  Caller : PublicKey
  TxID : Signature
  Slot : Nat
  TxTime : Time
  Timestamp : Time
  Swapped : Bool
  VaultSigner : PublicKey
deriving DecidableEq, Repr

/-- The zero value `MarketInfo{}`. -/
def MarketInfo.zero : MarketInfo :=
  { ProgramID := PublicKey.zero, Market := PublicKey.zero, RequestQueue := PublicKey.zero,
    EventQueue := PublicKey.zero, Bids := PublicKey.zero, Asks := PublicKey.zero,
    BaseMint := PublicKey.zero, QuoteMint := PublicKey.zero, BaseVault := PublicKey.zero,
    QuoteVault := PublicKey.zero, Sysvar := PublicKey.zero, Caller := PublicKey.zero,
    TxID := Signature.zero, Slot := 0, TxTime := Time.zero, Timestamp := Time.zero,
    Swapped := false, VaultSigner := PublicKey.zero }

/-- The function serum.NewMarketInfo. -/
def NewMarketInfo : MarketInfo :=
  { MarketInfo.zero with ProgramID := OpenBookDex, Sysvar := SysVarClockPubkey }

/-- The method `MarketInfo.Ready`. -/
def MarketInfo.Ready (m : MarketInfo) : Bool :=
  decide (m.Market ≠ PublicKey.zero) && decide (m.EventQueue ≠ PublicKey.zero) &&
  decide (m.Bids ≠ PublicKey.zero) && decide (m.Asks ≠ PublicKey.zero) &&
  decide (m.BaseMint ≠ PublicKey.zero) && decide (m.QuoteMint ≠ PublicKey.zero) &&
  decide (m.BaseVault ≠ PublicKey.zero) && decide (m.QuoteVault ≠ PublicKey.zero) &&
  decide (m.Caller ≠ PublicKey.zero) && decide (m.TxID ≠ Signature.zero) &&
  decide (m.Slot ≠ 0) && decide (m.TxTime ≠ Time.zero) && decide (m.Timestamp ≠ Time.zero) &&
  decide (m.VaultSigner ≠ PublicKey.zero)

/-- The method `MarketInfo.TokenAddress`. -/
def MarketInfo.TokenAddress (m : MarketInfo) : PublicKey := m.BaseMint

/-! ## float64 -/

/-- The type float64: a finite value as the rational number it denotes (`finite 0` is
positive zero), negative zero, the two infinities, and NaN. -/
inductive Float64 where
  | finite (value : ℚ)
  | negZero
  | posInf
  | negInf
  | nan
deriving DecidableEq, Repr

namespace Float64

/-- The value is NaN. -/
def isNaN : Float64 → Bool
  | nan => true
  | _ => false

/-- The value is an infinity. -/
def isInf : Float64 → Bool
  | posInf => true
  | negInf => true
  | _ => false

/-- The value is positive or negative zero. -/
def isZero : Float64 → Bool
  | finite q => decide (q = 0)
  | negZero => true
  | _ => false

/-- The sign bit. -/
def signbit : Float64 → Bool
  | finite q => decide (q < 0)
  | negZero => true
  | negInf => true
  | _ => false

/-- The rational a finite value denotes (zero for the others). -/
def value : Float64 → ℚ
  | finite q => q
  | _ => 0

/-- The zero with the given sign bit. -/
def zeroOf (negative : Bool) : Float64 := if negative then negZero else finite 0

/-- The infinity with the given sign bit. -/
def infOf (negative : Bool) : Float64 := if negative then negInf else posInf

/-- The power `2 ^ e` for an integer exponent. -/
def pow2 (e : Int) : ℚ := if 0 ≤ e then (2 : ℚ) ^ e.toNat else 1 / (2 : ℚ) ^ (-e).toNat

/-- The position of the leading binary digit of `n`, by halving at most `fuel` times. -/
def log2Fuel : Nat → Nat → Nat
  | 0, _ => 0
  | fuel + 1, n => if 2 ≤ n then log2Fuel fuel (n / 2) + 1 else 0

/-- The position of the leading binary digit: `2 ^ log2 n ≤ n < 2 ^ (log2 n + 1)` for
positive `n`. -/
def log2 (n : Nat) : Nat := log2Fuel n n

/-- Rounding of an exact result to float64, to nearest with ties to even: 53 significant
binary digits from exponent -1022 up, multiples of `2 ^ -1074` below (subnormal values),
an infinity from `2 ^ 1024` on, a signed zero when the result rounds to nothing. -/
def round (q : ℚ) : Float64 :=
  if q = 0 then finite 0
  else
    let n := q.num.natAbs
    let d := q.den
    let negative := decide (q < 0)
    let e0 : Int := (log2 n : Int) - (log2 d : Int)
    let below : Bool :=
      if 0 ≤ e0 then decide (n < d * 2 ^ e0.toNat) else decide (n * 2 ^ (-e0).toNat < d)
    let e : Int := if below then e0 - 1 else e0
    let u : Int := max e (-1022) - 52
    let N : Nat := if u < 0 then n * 2 ^ (-u).toNat else n
    let D : Nat := if u < 0 then d else d * 2 ^ u.toNat
    let m0 := N / D
    let r := N % D
    let m := if D < 2 * r ∨ (2 * r = D ∧ m0 % 2 = 1) then m0 + 1 else m0
    if m = 0 then zeroOf negative
    else if 0 ≤ u ∧ 2 ^ 1024 ≤ m * 2 ^ u.toNat then infOf negative
    else finite ((if negative then -1 else 1) * (m : ℚ) * pow2 u)

/-- The operator `x / y` on float64. -/
def div (x y : Float64) : Float64 :=
  if x.isNaN || y.isNaN then nan
  else if x.isInf then (if y.isInf then nan else infOf (x.signbit != y.signbit))
  else if y.isInf then zeroOf (x.signbit != y.signbit)
  else if y.isZero then (if x.isZero then nan else infOf (x.signbit != y.signbit))
  else if x.isZero then zeroOf (x.signbit != y.signbit)
  else round (x.value / y.value)

/-- The operator `-x` on float64. -/
def neg : Float64 → Float64
  | finite q => if q = 0 then negZero else finite (-q)
  | negZero => finite 0
  | posInf => negInf
  | negInf => posInf
  | nan => nan

/-- The operator `x == y` on float64: NaN equals nothing, the two zeros are equal. -/
def eq (x y : Float64) : Bool :=
  !x.isNaN && !y.isNaN && ((x.isZero && y.isZero) || decide (x = y))

/-- The operator `x != y` on float64. -/
def ne (x y : Float64) : Bool := !x.eq y

end Float64

/-- A float64 constant written as a natural number. -/
instance instOfNatFloat64 (n : Nat) : OfNat Float64 n := ⟨.finite n⟩

/-- The operator `/` on float64. -/
instance instDivFloat64 : Div Float64 := ⟨Float64.div⟩

/-- The operator `-` on float64. -/
instance instNegFloat64 : Neg Float64 := ⟨Float64.neg⟩

/-! ## raydium.AmmInfo -/

/-- The struct raydium.AmmLiveInfo. -/
structure AmmLiveInfo where
  UpdateTime : Time
  PooledLamports : Float64
  PooledToken : Float64
  Price : Float64
  LPTokenBurned : Bool
  MintDisabled : Bool
deriving DecidableEq, Repr

/-- The zero value `AmmLiveInfo{}`. -/
def AmmLiveInfo.zero : AmmLiveInfo :=
  { UpdateTime := Time.zero, PooledLamports := 0, PooledToken := 0, Price := 0,
    LPTokenBurned := false, MintDisabled := false }

/-- The method `AmmLiveInfo.Ready`. -/
def AmmLiveInfo.Ready (a : AmmLiveInfo) : Bool :=
  decide (a.UpdateTime ≠ Time.zero) && a.PooledLamports.ne 0 &&
  a.PooledToken.ne 0 && a.Price.ne 0

/-- The struct raydium.AmmInfo. -/
structure AmmInfo where
  ProgramID : PublicKey
  AmmID : PublicKey
  AmmAuthority : PublicKey
  AmmOpenOrders : PublicKey
  LPTokenAddress : PublicKey
  TokenMintAddress : PublicKey
  CurrencyAddress : PublicKey
  PoolCoinTokenAccount : PublicKey
  PoolPcTokenAccount : PublicKey
  AmmTargetOrders : PublicKey
  AmmLiquidityCreator : PublicKey
  Calculated : Bool
  Caller : PublicKey
  TxID : Signature
  Slot : Nat
  TxTime : Time
  Timestamp : Time
  InitialLiveInfo : AmmLiveInfo
  CurrentLiveInfo : AmmLiveInfo
deriving DecidableEq, Repr

/-- The zero value `AmmInfo{}`. -/
def AmmInfo.zero : AmmInfo :=
  { ProgramID := PublicKey.zero, AmmID := PublicKey.zero, AmmAuthority := PublicKey.zero,
    AmmOpenOrders := PublicKey.zero, LPTokenAddress := PublicKey.zero,
    TokenMintAddress := PublicKey.zero, CurrencyAddress := PublicKey.zero,
    PoolCoinTokenAccount := PublicKey.zero, PoolPcTokenAccount := PublicKey.zero,
    AmmTargetOrders := PublicKey.zero, AmmLiquidityCreator := PublicKey.zero,
    Calculated := false, Caller := PublicKey.zero, TxID := Signature.zero, Slot := 0,
    TxTime := Time.zero, Timestamp := Time.zero, InitialLiveInfo := AmmLiveInfo.zero,
    CurrentLiveInfo := AmmLiveInfo.zero }

/-- The function raydium.NewAmmInfo. -/
def NewAmmInfo : AmmInfo :=
  { AmmInfo.zero with ProgramID := Raydium_Liquidity_Program_V4,
                      AmmAuthority := Raydium_Authority_Program_V4,
                      CurrencyAddress := WrappedSol }

/-- The method `AmmInfo.Ready`. -/
def AmmInfo.Ready (a : AmmInfo) : Bool :=
  decide (a.AmmID ≠ PublicKey.zero) && decide (a.AmmOpenOrders ≠ PublicKey.zero) &&
  decide (a.LPTokenAddress ≠ PublicKey.zero) && decide (a.TokenMintAddress ≠ PublicKey.zero) &&
  decide (a.PoolCoinTokenAccount ≠ PublicKey.zero) &&
  decide (a.PoolPcTokenAccount ≠ PublicKey.zero) &&
  decide (a.AmmTargetOrders ≠ PublicKey.zero) &&
  decide (a.AmmLiquidityCreator ≠ PublicKey.zero) && decide (a.Caller ≠ PublicKey.zero) &&
  decide (a.TxID ≠ Signature.zero) && decide (a.Slot ≠ 0) && !a.TxTime.IsZero &&
  !a.Timestamp.IsZero && a.InitialLiveInfo.Ready && a.CurrentLiveInfo.Ready

/-- The method `AmmInfo.initializeCurrent`. -/
def AmmInfo.initializeCurrent (a : AmmInfo) : AmmInfo :=
  { a with CurrentLiveInfo := a.InitialLiveInfo }

/-- The method `AmmInfo.UpdateSwap`: the three exchanges and the price inversion when
`ammSwapped`, then the deferred `initializeCurrent`. -/
def AmmInfo.UpdateSwap (a : AmmInfo) (ammSwapped : Bool) : AmmInfo :=
  if !ammSwapped then
    a.initializeCurrent
  else
    AmmInfo.initializeCurrent
      { a with
        TokenMintAddress := a.CurrencyAddress
        CurrencyAddress := a.TokenMintAddress
        PoolCoinTokenAccount := a.PoolPcTokenAccount
        PoolPcTokenAccount := a.PoolCoinTokenAccount
        InitialLiveInfo :=
          { a.InitialLiveInfo with
            PooledToken := a.InitialLiveInfo.PooledLamports
            PooledLamports := a.InitialLiveInfo.PooledToken
            Price := 1 / a.InitialLiveInfo.Price } }

/-- The method `AmmInfo.TokenAddress`. -/
def AmmInfo.TokenAddress (a : AmmInfo) : PublicKey := a.TokenMintAddress

/-! ## onchain.TokenInfo, onchain.PairInfo, onchain.Info -/

/-- The struct onchain.TokenInfo (`TimeToSerumMarket` is a `time.Duration`). -/
structure TokenInfo where
  TimeToSerumMarket : Int
  TxCountToSerumMarket : Nat
  TotalSupply : Nat
  Decimals : Nat
  TxID : Signature
  TxTime : Time
  Address : PublicKey
deriving DecidableEq, Repr

/-- The zero value `TokenInfo{}`. -/
def TokenInfo.zero : TokenInfo :=
  { TimeToSerumMarket := 0, TxCountToSerumMarket := 0, TotalSupply := 0, Decimals := 0,
    TxID := Signature.zero, TxTime := Time.zero, Address := PublicKey.zero }

/-- The method `TokenInfo.TokenAddress`. -/
def TokenInfo.TokenAddress (t : TokenInfo) : PublicKey := t.Address

/-- The method `TokenInfo.Ready`. -/
def TokenInfo.Ready (t : TokenInfo) : Bool := decide (t.TimeToSerumMarket ≠ 0)

/-- The struct onchain.PairInfo (the mutex is left out). -/
structure PairInfo where
  MarketInfo : Rayscan.MarketInfo
  TokenInfo : Rayscan.TokenInfo
  AmmInfo : Rayscan.AmmInfo
  CalculatedAmmInfo : Rayscan.AmmInfo
  Readiness : Time
deriving DecidableEq, Repr

/-- The method `PairInfo.Ready`. -/
def PairInfo.Ready (p : PairInfo) : Bool :=
  p.MarketInfo.Ready && p.AmmInfo.Ready && p.TokenInfo.Ready

/-- The interface onchain.Info with its three implementations. -/
inductive Info where
  | market (m : MarketInfo)
  | amm (a : AmmInfo)
  | token (t : TokenInfo)
deriving DecidableEq, Repr

/-- The interface method `Info.TokenAddress`. -/
def Info.TokenAddress : Info → PublicKey
  | .market m => m.TokenAddress
  | .amm a => a.TokenAddress
  | .token t => t.TokenAddress

/-- The interface method `Info.Ready`. -/
def Info.Ready : Info → Bool
  | .market m => m.Ready
  | .amm a => a.Ready
  | .token t => t.Ready

/-! ## Transactions and the two extractions that feed the collector -/

/-- A function result: a value, a returned error, or a runtime fault (nil dereference,
index or slice bound out of range). -/
inductive Res (α : Type) where
  | ok (a : α)
  | err (msg : String)
  | fault
deriving DecidableEq, Repr

/-- A Go byte slice: the `len` elements, and the elements of the backing array between
`len` and `cap` that a re-slice can reach. -/
structure ByteSlice where
  elems : List Nat
  spare : List Nat
deriving DecidableEq, Repr

/-- The slice expression `s[lo:hi]` for constant `lo ≤ hi`: in range when `hi ≤ cap(s)`. -/
def ByteSlice.slice (s : ByteSlice) (lo hi : Nat) : Option (List Nat) :=
  if hi ≤ s.elems.length + s.spare.length then
    some (((s.elems ++ s.spare).take hi).drop lo)
  else none

/-- The struct solana.CompiledInstruction (indices are `uint16`). -/
structure CompiledInstruction where
  ProgramIDIndex : Nat
  Accounts : List Nat
  Data : ByteSlice
deriving DecidableEq, Repr

/-- The fields of solana.Message the extraction reads. -/
structure Message where
  AccountKeys : List PublicKey
  Instructions : List CompiledInstruction
deriving DecidableEq, Repr

/-- The fields of solana.Transaction the extraction reads. -/
structure Transaction where
  Signatures : List Signature
  Message : Rayscan.Message
deriving DecidableEq, Repr

/-- The fields of rpc.GetTransactionResult the extraction reads; `BlockTime` is a pointer
to Unix seconds, `none` is nil. -/
structure GetTransactionResult where
  Slot : Nat
  BlockTime : Option Int
deriving DecidableEq, Repr

/-- The library method `Message.Program`: the account key at the index, an error when the
index is out of range. -/
def Message.Program (m : Message) (programIDIndex : Nat) : Option PublicKey :=
  if programIDIndex < m.AccountKeys.length then m.AccountKeys.get? programIDIndex else none

/-- The closure `safeIndex` of both extractions: the zero key when the index is not below
`uint16(len(tx.Message.AccountKeys))`. -/
def safeIndex (tx : Transaction) (idx : Nat) : PublicKey :=
  if idx ≥ tx.Message.AccountKeys.length % 65536 then PublicKey.zero
  else (tx.Message.AccountKeys.get? idx).getD PublicKey.zero

/-- The method `PublicKey.Bytes`: the 32 bytes, most significant first. -/
def PublicKey.Bytes (k : PublicKey) : List Nat :=
  (List.range 32).map fun i => k.val / 256 ^ (31 - i) % 256

/-- The index expression `instr.Accounts[i]` for an instruction with at least ten
accounts. -/
def CompiledInstruction.account (instr : CompiledInstruction) (i : Nat) : Nat :=
  (instr.Accounts.get? i).getD 0

/-- The body of the loop of serum.MarketInfoFromTransaction from the point where the
instruction is known to target the order-book program with at least ten accounts.
`createProgramAddress` is the library function solana.CreateProgramAddress (`none` is its
error) and `now` the reading of `time.Now()`. -/
def marketInfoFromInstruction (createProgramAddress : List (List Nat) → PublicKey → Option PublicKey)
    (now : Time) (rpcTx : GetTransactionResult) (tx : Transaction)
    (instr : CompiledInstruction) : Res MarketInfo :=
  if safeIndex tx (instr.account 8) ≠ WrappedSol ∧ safeIndex tx (instr.account 7) ≠ WrappedSol then
    .err "found serum market, but not with SOL currency"
  else
    let minfo : MarketInfo :=
      { NewMarketInfo with
        Market := safeIndex tx (instr.account 0)
        EventQueue := safeIndex tx (instr.account 2)
        Bids := safeIndex tx (instr.account 3)
        Asks := safeIndex tx (instr.account 4)
        BaseVault := safeIndex tx (instr.account 5)
        QuoteVault := safeIndex tx (instr.account 6)
        BaseMint := safeIndex tx (instr.account 7)
        QuoteMint := safeIndex tx (instr.account 8) }
    let minfo : MarketInfo :=
      if minfo.BaseMint = WrappedSol then
        { minfo with
          BaseVault := minfo.QuoteVault
          QuoteVault := minfo.BaseVault
          BaseMint := minfo.QuoteMint
          QuoteMint := minfo.BaseMint
          Swapped := true }
      else minfo
    match tx.Message.AccountKeys.head? with
    | none => .fault
    | some caller =>
      match tx.Signatures.head? with
      | none => .fault
      | some txid =>
        let minfo := { minfo with Caller := caller, TxID := txid }
        match instr.Data.slice 23 31 with
        | none => .fault
        | some vaultSignerNonce =>
          match createProgramAddress [minfo.Market.Bytes, vaultSignerNonce] OpenBookDex with
          | none => .err "Error creating vault signer"
          | some vaultsigner =>
            match rpcTx.BlockTime with
            | none => .fault
            | some blockTime =>
              let minfo :=
                { minfo with
                  VaultSigner := vaultsigner
                  Slot := rpcTx.Slot
                  TxTime := Time.Unix blockTime
                  Timestamp := now }
              if !minfo.Ready then .err "market info not ready" else .ok minfo

/-- The loop of serum.MarketInfoFromTransaction over the instructions: the first
instruction whose program resolves to the order-book program and that has at least ten
accounts decides the result. -/
def marketInfoLoop (createProgramAddress : List (List Nat) → PublicKey → Option PublicKey)
    (now : Time) (rpcTx : GetTransactionResult) (tx : Transaction) :
    List CompiledInstruction → Res MarketInfo
  | [] => .err "no InitializeMarket instruction found"
  | instr :: rest =>
    match tx.Message.Program instr.ProgramIDIndex with
    | none => marketInfoLoop createProgramAddress now rpcTx tx rest
    | some program =>
      if program ≠ OpenBookDex then marketInfoLoop createProgramAddress now rpcTx tx rest
      else if instr.Accounts.length < 10 then
        marketInfoLoop createProgramAddress now rpcTx tx rest
      else marketInfoFromInstruction createProgramAddress now rpcTx tx instr

/-- The function serum.MarketInfoFromTransaction. -/
def MarketInfoFromTransaction
    (createProgramAddress : List (List Nat) → PublicKey → Option PublicKey)
    (now : Time) (rpcTx : GetTransactionResult) (tx : Transaction) : Res MarketInfo :=
  marketInfoLoop createProgramAddress now rpcTx tx tx.Message.Instructions

/-- The bytes of an ASCII seed literal, `[]byte("...")`. -/
def seedBytes (s : String) : List Nat := s.toList.map Char.toNat

/-- One call of solana.FindProgramAddress in raydium.DeriveAmmInfoFromMarket, with the
seeds program id, market and literal, under the liquidity program. -/
def ammAssociated (findProgramAddress : List (List Nat) → PublicKey → Option (PublicKey × Nat))
    (minfo : MarketInfo) (seed : String) : Option PublicKey :=
  (findProgramAddress
    [Raydium_Liquidity_Program_V4.Bytes, minfo.Market.Bytes, seedBytes seed]
    Raydium_Liquidity_Program_V4).map Prod.fst

/-- The function raydium.DeriveAmmInfoFromMarket; `findProgramAddress` is the library
function solana.FindProgramAddress (`none` is its error). -/
def DeriveAmmInfoFromMarket
    (findProgramAddress : List (List Nat) → PublicKey → Option (PublicKey × Nat))
    (minfo : MarketInfo) : Res AmmInfo :=
  match ammAssociated findProgramAddress minfo "amm_associated_seed" with
  | none => .err "amm_associated_seed error"
  | some ammId =>
  match ammAssociated findProgramAddress minfo "coin_vault_associated_seed" with
  | none => .err "coin_vault_associated_seed error"
  | some ammPoolCoinTokenAccount =>
  match ammAssociated findProgramAddress minfo "pc_vault_associated_seed" with
  | none => .err "pc_vault_associated_seed error"
  | some ammPoolPcTokenAccount =>
  match ammAssociated findProgramAddress minfo "lp_mint_associated_seed" with
  | none => .err "lp_mint_associated_seed error"
  | some ammPoolTokenMint =>
  match ammAssociated findProgramAddress minfo "target_associated_seed" with
  | none => .err "target_associated_seed error"
  | some ammTargetOrders =>
  match ammAssociated findProgramAddress minfo "open_order_associated_seed" with
  | none => .err "open_order_associated_seed error"
  | some ammOpenOrders =>
    .ok { AmmInfo.zero with
          AmmID := ammId
          PoolCoinTokenAccount := ammPoolCoinTokenAccount
          PoolPcTokenAccount := ammPoolPcTokenAccount
          LPTokenAddress := ammPoolTokenMint
          AmmTargetOrders := ammTargetOrders
          AmmOpenOrders := ammOpenOrders
          TokenMintAddress := minfo.BaseMint
          CurrencyAddress := minfo.QuoteMint
          Calculated := true
          TxID := minfo.TxID
          TxTime := minfo.TxTime }

/-! ## The maps of the collector -/

/-- The map `pairs`: token address to the record the stored pointer refers to. Every
pointer is stored under exactly one key, so a record is identified by its key. -/
abbrev PairMap := List (PublicKey × PairInfo)

/-- The map read `pair, ok := m[k]`; `none` is the nil pointer with `ok = false`. -/
def PairMap.get : PairMap → PublicKey → Option PairInfo
  | [], _ => none
  | (k1, p) :: rest, k => if k1 = k then some p else PairMap.get rest k

/-- A write through the pointer stored under `k`, or the map write `m[k] = p` when the key
is absent. -/
def PairMap.set : PairMap → PublicKey → PairInfo → PairMap
  | [], k, p => [(k, p)]
  | (k1, p1) :: rest, k, p =>
    if k1 = k then (k1, p) :: rest else (k1, p1) :: PairMap.set rest k p

/-- The builtin `delete(m, k)`. -/
def PairMap.delete : PairMap → PublicKey → PairMap
  | [], _ => []
  | (k1, p1) :: rest, k =>
    if k1 = k then PairMap.delete rest k else (k1, p1) :: PairMap.delete rest k

/-- The set `createdPairs` (a map to the empty struct): the write `m[k] = struct{}{}`. -/
def createdInsert (s : List PublicKey) (k : PublicKey) : List PublicKey :=
  if k ∈ s then s else k :: s

/-- The mutable state of onchain.PairCollector owned by the join loop. -/
structure PairCollector where
  pairs : PairMap
  createdPairs : List PublicKey
deriving DecidableEq, Repr

/-- The function onchain.NewPairCollector: both maps empty. -/
def NewPairCollector : PairCollector := { pairs := [], createdPairs := [] }

/-- A downstream sender `chan<- *PairInfo`, as the list of records sent on it so far. -/
abbrev PairChan := List PairInfo

/-- The errors the handlers return (the `fmt.Errorf` texts with their token argument). -/
inductive CollectorError where
  | pairAlreadyExists (tokenAddress : PublicKey)
  | ammNoPair (tokenAddress : PublicKey)
  | tokenNoPair (tokenAddress : PublicKey)
deriving DecidableEq, Repr

/-- What a handler does: it returns the pointer to a record of the map (the key it is
stored under, and the record as it is after the handler wrote to it) together with the
collector after the writes; or it returns an error, having written nothing; or the
goroutine faults on a nil pointer. -/
inductive HandleResult where
  | ok (c : PairCollector) (key : PublicKey) (pair : PairInfo)
  | err (e : CollectorError)
  | fault
deriving DecidableEq, Repr

/-- The composite literal `&PairInfo{MarketInfo: *market}` of `handleMarketInfo`: every
other field has its zero value. -/
def PairInfo.ofMarket (market : Rayscan.MarketInfo) : PairInfo :=
  { MarketInfo := market, TokenInfo := TokenInfo.zero, AmmInfo := AmmInfo.zero,
    CalculatedAmmInfo := AmmInfo.zero, Readiness := Time.zero }

/-- The method `PairCollector.handleMarketInfo`. -/
def handleMarketInfo (c : PairCollector) (market : MarketInfo) : HandleResult :=
  let tokenAddress := market.TokenAddress
  match c.pairs.get tokenAddress with
  | some _ => .err (.pairAlreadyExists tokenAddress)
  | none =>
    let pair := PairInfo.ofMarket market
    .ok { c with pairs := c.pairs.set tokenAddress pair } tokenAddress pair

/-- The vault reconciliation at the end of `handleAmmInfo`: when the observed coin vault
differs from the derived one, both observed vaults are overwritten by the derived ones. -/
def reconcileVaults (pair : PairInfo) : PairInfo :=
  if pair.AmmInfo.PoolCoinTokenAccount ≠ pair.CalculatedAmmInfo.PoolCoinTokenAccount then
    { pair with
      AmmInfo :=
        { pair.AmmInfo with
          PoolCoinTokenAccount := pair.CalculatedAmmInfo.PoolCoinTokenAccount
          PoolPcTokenAccount := pair.CalculatedAmmInfo.PoolPcTokenAccount } }
  else pair

/-- The method `PairCollector.handleAmmInfo`. With `Calculated` set the record pointer is
written through before `ok` is looked at, which faults when no record exists. -/
def handleAmmInfo (c : PairCollector) (amm : AmmInfo) : HandleResult :=
  let tokenAddress := amm.TokenAddress
  if amm.Calculated then
    match c.pairs.get tokenAddress with
    | none => .fault
    | some pair =>
      let pair := { pair with CalculatedAmmInfo := amm }
      .ok { c with pairs := c.pairs.set tokenAddress pair } tokenAddress pair
  else
    let ammSwapped := decide (tokenAddress = WrappedSol)
    let tokenAddress := if ammSwapped then amm.CurrencyAddress else tokenAddress
    match c.pairs.get tokenAddress with
    | none => .err (.ammNoPair tokenAddress)
    | some pair =>
      let amm := amm.UpdateSwap ammSwapped
      let pair := reconcileVaults { pair with AmmInfo := amm }
      .ok { c with pairs := c.pairs.set tokenAddress pair } tokenAddress pair

/-- The method `PairCollector.handleTokenInfo`. -/
def handleTokenInfo (c : PairCollector) (token : TokenInfo) : HandleResult :=
  let tokenAddress := token.TokenAddress
  match c.pairs.get tokenAddress with
  | none => .err (.tokenNoPair tokenAddress)
  | some pair =>
    let pair := { pair with TokenInfo := token }
    .ok { c with pairs := c.pairs.set tokenAddress pair } tokenAddress pair

/-- The method `PairCollector.handleInfo`: the type switch; the senders are passed in and
not used. The `default` branch cannot be reached, `Info` has three implementations. -/
def handleInfo (c : PairCollector) (genericInfo : Info) (_pairPublishC : List PairChan) :
    HandleResult :=
  match genericInfo with
  | .market info => handleMarketInfo c info
  | .amm info => handleAmmInfo c info
  | .token info => handleTokenInfo c info

/-- What one iteration of the join loop did, by the statement that ended it. -/
inductive LoopEvent where
  /-- Line 54: the token is in `createdPairs`; `continue`. -/
  | alreadyCreated (tokenAddress : PublicKey)
  /-- Line 60: the handler returned an error; `continue`. -/
  | handleError (e : CollectorError)
  /-- Line 65: the observed AMM transaction id of the record is zero; `continue`. -/
  | waiting
  /-- Line 69: the record is not ready; `delete(c.pairs, tokenAddress)`; `continue`. -/
  | notReady (tokenAddress : PublicKey) (pair : PairInfo)
  /-- Line 75: the emission step. `pair` is the record with `Readiness` set; `created`
  tells whether line 78 let the token into `createdPairs`. -/
  | emitted (tokenAddress : PublicKey) (pair : PairInfo) (created : Bool)
deriving DecidableEq, Repr

/-- The outcome of one iteration: the collector and the senders afterwards and the
event, or a fault of the goroutine. -/
inductive StepResult where
  | next (c : PairCollector) (pairPublishC : List PairChan) (ev : LoopEvent)
  | crash
deriving DecidableEq, Repr

/-- The body of the `for genericInfo := range c.infoC` loop of `PairCollector.Start`;
`now` is the reading of `time.Now()` at line 75. -/
def step (now : Time) (c : PairCollector) (pairPublishC : List PairChan) (genericInfo : Info) :
    StepResult :=
  let tokenAddress := genericInfo.TokenAddress
  if tokenAddress ∈ c.createdPairs then
    .next c pairPublishC (.alreadyCreated tokenAddress)
  else
    match handleInfo c genericInfo pairPublishC with
    | .fault => .crash
    | .err e => .next c pairPublishC (.handleError e)
    | .ok c key pair =>
      if pair.AmmInfo.TxID.IsZero then
        .next c pairPublishC .waiting
      else if !pair.Ready then
        .next { c with pairs := c.pairs.delete tokenAddress } pairPublishC
          (.notReady tokenAddress pair)
      else
        let pair := { pair with Readiness := now }
        let c := { c with pairs := c.pairs.set key pair }
        if tokenAddress ≠ WrappedSol then
          .next { pairs := c.pairs.delete tokenAddress,
                  createdPairs := createdInsert c.createdPairs tokenAddress }
            pairPublishC (.emitted tokenAddress pair true)
        else
          .next c pairPublishC (.emitted tokenAddress pair false)

/-- The result of running the join loop over the facts the channel delivered: the
collector and the senders at the end, the events in order (each with the fact that was
handled), and whether the goroutine faulted (the run stops there). -/
structure RunResult where
  final : PairCollector
  published : List PairChan
  trace : List (Info × LoopEvent)
  crashed : Bool
deriving DecidableEq, Repr

/-- The join loop from iteration `i` on; `clock i` is the reading of `time.Now()` in
iteration `i`. -/
def loop (clock : Nat → Time) :
    Nat → PairCollector → List PairChan → List Info → RunResult
  | _, c, chans, [] => { final := c, published := chans, trace := [], crashed := false }
  | i, c, chans, genericInfo :: rest =>
    match step (clock i) c chans genericInfo with
    | .crash => { final := c, published := chans, trace := [], crashed := true }
    | .next c1 chans1 ev =>
      let r := loop clock (i + 1) c1 chans1 rest
      { r with trace := (genericInfo, ev) :: r.trace }

/-- The method `PairCollector.Start` on a new collector, with the facts the input channel
delivers until it is closed. -/
def Start (clock : Nat → Time) (pairPublishC : List PairChan) (facts : List Info) :
    RunResult :=
  loop clock 0 NewPairCollector pairPublishC facts

/-! ## Properties of runs -/

/-- The invariant of the join loop: a created token has no in-flight record. -/
def CreatedNotInFlight (c : PairCollector) : Prop :=
  ∀ t, t ∈ c.createdPairs → PairMap.get c.pairs t = none

/-- The iteration ended in the emission step with `tokenAddress = t`. -/
def emittedFor (t : PublicKey) (e : Info × LoopEvent) : Bool :=
  match e.2 with
  | .emitted k _ _ => decide (k = t)
  | _ => false

/-! ## Concrete facts: one token, its market, the derived AMM, the token metadata and the
observed AMM (the happy path of the end-to-end scenarios) -/

/-- A token mint. -/
def exToken : PublicKey := ⟨7⟩

/-- A ready market for `exToken` against the wrapped-native mint. -/
def exMarket : MarketInfo :=
  { NewMarketInfo with
    Market := ⟨11⟩, EventQueue := ⟨12⟩, Bids := ⟨13⟩, Asks := ⟨14⟩, BaseMint := exToken,
    QuoteMint := WrappedSol, BaseVault := ⟨15⟩, QuoteVault := ⟨16⟩, Caller := ⟨17⟩,
    TxID := ⟨18⟩, Slot := 5, TxTime := Time.Unix 100, Timestamp := Time.Unix 101,
    VaultSigner := ⟨19⟩ }

/-- A derived AMM fact for `exMarket`. -/
def exDerived : AmmInfo :=
  { AmmInfo.zero with
    AmmID := ⟨21⟩, PoolCoinTokenAccount := ⟨22⟩, PoolPcTokenAccount := ⟨23⟩,
    LPTokenAddress := ⟨24⟩, AmmTargetOrders := ⟨25⟩, AmmOpenOrders := ⟨26⟩,
    TokenMintAddress := exToken, CurrencyAddress := WrappedSol, Calculated := true,
    TxID := ⟨18⟩, TxTime := Time.Unix 100 }

/-- A ready token fact for `exToken`. -/
def exTokenInfo : TokenInfo :=
  { TokenInfo.zero with
    TimeToSerumMarket := 90, TxCountToSerumMarket := 15, TotalSupply := 1000000,
    Decimals := 6, TxID := ⟨29⟩, TxTime := Time.Unix 10, Address := exToken }

/-- Initial reserves: 1000 native, 500000 token, price 500. -/
def exLive : AmmLiveInfo :=
  { UpdateTime := Time.Unix 150, PooledLamports := 1000, PooledToken := 500000, Price := 500,
    LPTokenBurned := false, MintDisabled := false }

/-- A ready observed AMM fact for `exToken`, vaults as derived. -/
def exObserved : AmmInfo :=
  { NewAmmInfo with
    AmmID := ⟨21⟩, AmmOpenOrders := ⟨26⟩, LPTokenAddress := ⟨24⟩, TokenMintAddress := exToken,
    PoolCoinTokenAccount := ⟨22⟩, PoolPcTokenAccount := ⟨23⟩, AmmTargetOrders := ⟨25⟩,
    AmmLiquidityCreator := ⟨27⟩, Caller := ⟨17⟩, TxID := ⟨28⟩, Slot := 6,
    TxTime := Time.Unix 140, Timestamp := Time.Unix 141, InitialLiveInfo := exLive,
    CurrentLiveInfo := exLive }

/-- A clock: iteration `i` reads Unix second `200 + i`. -/
def exClock : Nat → Time := fun i => Time.Unix (200 + i)

/-- The facts in pipeline order with the observed AMM last. -/
def exFacts : List Info := [.market exMarket, .amm exDerived, .token exTokenInfo, .amm exObserved]


/-- The record the happy path emits: at iteration 3, with all four parts. -/
def exEmitted : PairInfo :=
  { MarketInfo := exMarket, TokenInfo := exTokenInfo, AmmInfo := exObserved,
    CalculatedAmmInfo := exDerived, Readiness := exClock 3 }

/-! ## Orientation of an observed AMM fact -/

/-- The orientation flag `ammSwapped` that `handleAmmInfo` computes for an observed fact. -/
def ammSwappedOf (amm : AmmInfo) : Bool := decide (amm.TokenAddress = WrappedSol)

/-- The observed fact as `handleAmmInfo` stores it: after `UpdateSwap(ammSwapped)`. -/
def AmmInfo.oriented (amm : AmmInfo) : AmmInfo := amm.UpdateSwap (ammSwappedOf amm)

/-- A fact in swapped orientation, in the words of the second end-to-end scenario: token
and currency mint exchanged, coin and pc vault exchanged, pooled amounts exchanged, price
inverted. -/
def AmmInfo.swappedOrientation (a : AmmInfo) : AmmInfo :=
  { a with
    TokenMintAddress := a.CurrencyAddress
    CurrencyAddress := a.TokenMintAddress
    PoolCoinTokenAccount := a.PoolPcTokenAccount
    PoolPcTokenAccount := a.PoolCoinTokenAccount
    InitialLiveInfo :=
      { a.InitialLiveInfo with
        PooledToken := a.InitialLiveInfo.PooledLamports
        PooledLamports := a.InitialLiveInfo.PooledToken
        Price := 1 / a.InitialLiveInfo.Price } }

/-! ## More concrete facts -/

/-- An observed AMM fact whose two vaults both differ from the derived ones. -/
def exObservedOff : AmmInfo :=
  { exObserved with PoolCoinTokenAccount := ⟨32⟩, PoolPcTokenAccount := ⟨33⟩ }

/-- An observed AMM fact whose pc vault alone differs from the derived one. -/
def exObservedPcOff : AmmInfo := { exObserved with PoolPcTokenAccount := ⟨33⟩ }

/-- The record emitted for `exObservedPcOff`: the pc vault is still the observed one. -/
def exEmittedPcOff : PairInfo := { exEmitted with AmmInfo := exObservedPcOff }

/-- The derived AMM fact of a second market for the same token. -/
def exDerived2 : AmmInfo :=
  { exDerived with AmmID := ⟨41⟩, PoolCoinTokenAccount := ⟨42⟩, PoolPcTokenAccount := ⟨43⟩ }

/-- The record emitted when `exDerived2` arrives after a swapped observed fact. -/
def exEmittedLate : PairInfo :=
  { exEmitted with CalculatedAmmInfo := exDerived2, Readiness := exClock 4 }

/-- A stand-in for solana.FindProgramAddress that answers the six seeds of
`DeriveAmmInfoFromMarket` with the addresses of `exDerived`. -/
def exFindProgramAddress : List (List Nat) → PublicKey → Option (PublicKey × Nat)
  | [_, _, s], _ =>
    if s = seedBytes "amm_associated_seed" then some (⟨21⟩, 255)
    else if s = seedBytes "coin_vault_associated_seed" then some (⟨22⟩, 255)
    else if s = seedBytes "pc_vault_associated_seed" then some (⟨23⟩, 254)
    else if s = seedBytes "lp_mint_associated_seed" then some (⟨24⟩, 255)
    else if s = seedBytes "target_associated_seed" then some (⟨25⟩, 253)
    else if s = seedBytes "open_order_associated_seed" then some (⟨26⟩, 255)
    else none
  | _, _ => none

/-- The record the handlers build from a market, a derived AMM fact, a token fact and an
observed AMM fact in the market's orientation, before `Readiness` is set. -/
def joined (m : MarketInfo) (d : AmmInfo) (t : TokenInfo) (a : AmmInfo) : PairInfo :=
  reconcileVaults
    { MarketInfo := m, TokenInfo := t, AmmInfo := a.UpdateSwap false, CalculatedAmmInfo := d,
      Readiness := Time.zero }

/-- The collector after the market, derived AMM and token facts of the happy path. -/
def exInFlight : PairCollector :=
  { pairs := [(exToken, { PairInfo.ofMarket exMarket with
                          CalculatedAmmInfo := exDerived, TokenInfo := exTokenInfo })],
    createdPairs := [] }

/-- The collector at the end of the happy path. -/
def exCreated : PairCollector := { pairs := [], createdPairs := [exToken] }

/-! ## The instruction `MarketInfoFromTransaction` decides on -/

/-- The three tests of the loop of `MarketInfoFromTransaction` that an instruction passes
before it is read as InitializeMarket: the program index resolves, the program is the
order-book program, and there are at least ten accounts. -/
def qualifies (tx : Transaction) (instr : CompiledInstruction) : Bool :=
  match tx.Message.Program instr.ProgramIDIndex with
  | none => false
  | some program => decide (program = OpenBookDex) && decide (10 ≤ instr.Accounts.length)

/-! ## Concrete transactions -/

/-- A stand-in for solana.CreateProgramAddress that answers every seed list with the vault
signer of `exMarket`. -/
def exCreateProgramAddress : List (List Nat) → PublicKey → Option PublicKey :=
  fun _ _ => some ⟨19⟩

/-- The account keys of the concrete InitializeMarket transaction. -/
def exAccountKeys : List PublicKey :=
  [⟨17⟩, ⟨11⟩, ⟨10⟩, ⟨12⟩, ⟨13⟩, ⟨14⟩, ⟨15⟩, ⟨16⟩, exToken, WrappedSol, ⟨9⟩, OpenBookDex]

/-- Instruction data of 34 bytes with no spare capacity. -/
def exData : ByteSlice := { elems := List.replicate 34 1, spare := [] }

/-- An InitializeMarket transaction for `exToken` against the wrapped-native mint, the
accounts in canonical order. -/
def exTx : Transaction :=
  { Signatures := [⟨18⟩],
    Message :=
      { AccountKeys := exAccountKeys,
        Instructions :=
          [{ ProgramIDIndex := 11, Accounts := [1, 2, 3, 4, 5, 6, 7, 8, 9, 10], Data := exData }] } }

/-- The same transaction with the wrapped-native mint in both mint positions. -/
def exTxBothSol : Transaction :=
  { Signatures := [⟨18⟩],
    Message :=
      { AccountKeys := exAccountKeys,
        Instructions :=
          [{ ProgramIDIndex := 11, Accounts := [1, 2, 3, 4, 5, 6, 7, 9, 9, 10], Data := exData }] } }

/-- The RPC envelope of the concrete transactions: slot 5, block time 100. -/
def exRpcTx : GetTransactionResult := { Slot := 5, BlockTime := some 100 }

/-- The market extracted from `exTxBothSol`: both mints are the wrapped-native mint. -/
def exMarketBothSol : MarketInfo :=
  { exMarket with
    BaseMint := WrappedSol, QuoteMint := WrappedSol, BaseVault := ⟨16⟩, QuoteVault := ⟨15⟩,
    Swapped := true }

/-! ## More concrete transactions and live infos -/

/-- The InitializeMarket transaction with five bytes of instruction data and no spare
capacity behind them. -/
def exTxShortData : Transaction :=
  { Signatures := [⟨18⟩],
    Message :=
      { AccountKeys := exAccountKeys,
        Instructions :=
          [{ ProgramIDIndex := 11, Accounts := [1, 2, 3, 4, 5, 6, 7, 8, 9, 10],
             Data := { elems := [0, 0, 0, 0, 0], spare := [] } }] } }

/-- The same five bytes of instruction data, sliced out of a longer buffer: thirty more
bytes of the buffer lie within the capacity of the slice. -/
def exTxShortDataSpare : Transaction :=
  { Signatures := [⟨18⟩],
    Message :=
      { AccountKeys := exAccountKeys,
        Instructions :=
          [{ ProgramIDIndex := 11, Accounts := [1, 2, 3, 4, 5, 6, 7, 8, 9, 10],
             Data := { elems := [0, 0, 0, 0, 0], spare := List.replicate 30 1 } }] } }

/-- An RPC envelope without a block time (`blockTime` null). -/
def exRpcTxNoBlockTime : GetTransactionResult := { Slot := 5, BlockTime := none }

/-- Initial reserves with a negative native amount. -/
def exLiveNegative : AmmLiveInfo := { exLive with PooledLamports := -1000, Price := -500 }

/-! ## onchain.LogObserver: the two log classifiers

A Go string is the list of its bytes, each byte written as the character with that code;
for ASCII text this is the text itself. -/

/-- A Go string as the list of its bytes. -/
abbrev GoString := List Char

/-- The library function strings.Contains. -/
def strContains : GoString → GoString → Bool
  | [], substr => substr.isEmpty
  | c :: s, substr => substr.isPrefixOf (c :: s) || strContains s substr

/-- The library function strings.Cut, third and second result: the text after the first
occurrence of `sep`, `none` when `sep` does not occur. -/
def stringsCut : GoString → GoString → Option GoString
  | [], sep => if sep.isEmpty then some [] else none
  | c :: s, sep =>
    if sep.isPrefixOf (c :: s) then some ((c :: s).drop sep.length) else stringsCut s sep

/-- The library function strings.Split for a separator of one byte. -/
def stringsSplit (sep : Char) : GoString → List GoString
  | [] => [[]]
  | c :: s =>
    if c = sep then [] :: stringsSplit sep s
    else
      match stringsSplit sep s with
      | [] => [[c]]
      | piece :: pieces => (c :: piece) :: pieces

/-- The library function strings.Join. -/
def stringsJoin (elems : List GoString) (sep : GoString) : GoString :=
  List.intercalate sep elems

/-- The struct onchain.TxCandidate; `Metadata` is a pointer to the raw JSON, `none` is
nil. -/
structure TxCandidate where
  Signature : Rayscan.Signature
  clientName : String
  Metadata : Option GoString
deriving DecidableEq, Repr

/-- The fields of ws.LogResult the observer reads: `Value.Signature`, `Value.Err` and
`Value.Logs` (`none` is the nil slice). -/
structure LogResult where
  Signature : Rayscan.Signature
  Err : Option String
  Logs : Option (List GoString)
deriving DecidableEq, Repr

/-- Ranging over `log.Value.Logs`: a nil slice has no elements. -/
def LogResult.lines (log : LogResult) : List GoString := log.Logs.getD []

/-- What the classifiers write to: the candidates sent on `txCandidatePublishC` so far, and
the package-level set `logset.logs`. -/
structure ObserverState where
  txCandidatePublishC : List TxCandidate
  logset : List Rayscan.Signature
deriving DecidableEq, Repr

/-- The map write `logset.logs[sig] = struct{}{}`. -/
def logsetInsert (s : List Signature) (sig : Signature) : List Signature :=
  if sig ∈ s then s else sig :: s

/-- The log line of a successful system program call. -/
def systemProgramSuccess : GoString :=
  "Program 11111111111111111111111111111111 success".toList

/-- The log line of a top-level call of the order-book program. -/
def openBookInvoke : GoString :=
  "Program srmqPvymJeFKQ4zGQed1GFppgkRHL9kaELCbyksJtPX invoke [1]".toList

/-- The loop of `analyzeOpenBookLogs` from index `i` on, the argument being
`log.Value.Logs[i:]`; the result tells whether the candidate is sent. -/
def openBookLoop : List GoString → Bool
  | [] => false
  | curLog :: rest =>
    if !strContains curLog systemProgramSuccess then openBookLoop rest
    else
      match rest with
      | [] => false
      | nextLog :: _ =>
        if !strContains nextLog openBookInvoke then openBookLoop rest else true

/-- The method `LogObserver.analyzeOpenBookLogs`. -/
def analyzeOpenBookLogs (connName : String) (log : LogResult) (st : ObserverState) :
    ObserverState :=
  let sent :=
    if openBookLoop log.lines then
      st.txCandidatePublishC ++ [{ Signature := log.Signature, clientName := connName,
                                   Metadata := none }]
    else st.txCandidatePublishC
  { txCandidatePublishC := sent, logset := logsetInsert st.logset log.Signature }

/-- The separator of `analyzeRaydiumLogs`. -/
def initializeInstruction2 : GoString := " InitializeInstruction2 ".toList

/-- The body of the inner loop of `analyzeRaydiumLogs`: a piece that contains a colon is
replaced by the piece without its last byte, in quotes, followed by a colon. -/
def quoteKey (s : GoString) : GoString :=
  if strContains s [':'] then ['"'] ++ s.dropLast ++ ['"', ':'] else s

/-- The text `analyzeRaydiumLogs` builds from the text after the separator: split on
spaces, quote the keys, join with spaces. -/
def rewriteMetadata (after : GoString) : GoString :=
  stringsJoin ((stringsSplit ' ' after).map quoteKey) [' ']

/-- The loop of `analyzeRaydiumLogs` over the log lines; the result is the metadata of
the candidate that is sent, if one is. `jsonValid` is the library function json.Valid. -/
def raydiumLoop (jsonValid : GoString → Bool) : List GoString → Option GoString
  | [] => none
  | curLog :: rest =>
    match stringsCut curLog initializeInstruction2 with
    | none => raydiumLoop jsonValid rest
    | some after =>
      let metadata := rewriteMetadata after
      if !jsonValid metadata then raydiumLoop jsonValid rest else some metadata

/-- The method `LogObserver.analyzeRaydiumLogs`. -/
def analyzeRaydiumLogs (jsonValid : GoString → Bool) (connName : String) (log : LogResult)
    (st : ObserverState) : ObserverState :=
  let sent :=
    match raydiumLoop jsonValid log.lines with
    | some metadata =>
      st.txCandidatePublishC ++ [{ Signature := log.Signature, clientName := connName,
                                   Metadata := some metadata }]
    | none => st.txCandidatePublishC
  { txCandidatePublishC := sent, logset := logsetInsert st.logset log.Signature }

/-- The rewrite of one piece in the words of the specification: a key token `k:` becomes
`"k":`, every other token stays as it is. -/
def specQuoteKey (s : GoString) : GoString :=
  if s.getLast? = some ':' then ['"'] ++ s.dropLast ++ ['"', ':'] else s

/-- The rewrite in the words of the specification. -/
def specRewrite (after : GoString) : GoString :=
  stringsJoin ((stringsSplit ' ' after).map specQuoteKey) [' ']

/-- The log lines carry an InitializeMarket call: some line contains the system program
success text and the line right after it contains the order-book invoke text. -/
def openBookHit (lines : List GoString) : Prop :=
  ∃ (i : Nat) (l1 l2 : GoString), lines[i]? = some l1 ∧ strContains l1 systemProgramSuccess = true ∧
    lines[i + 1]? = some l2 ∧ strContains l2 openBookInvoke = true

/-- A log record of an InitializeMarket transaction. -/
def exOpenBookLog : LogResult :=
  { Signature := ⟨18⟩, Err := none,
    Logs := some
      ["Program ComputeBudget111111111111111111111111111111 invoke [1]".toList,
       "Program 11111111111111111111111111111111 invoke [1]".toList,
       "Program 11111111111111111111111111111111 success".toList,
       "Program srmqPvymJeFKQ4zGQed1GFppgkRHL9kaELCbyksJtPX invoke [1]".toList,
       "Program srmqPvymJeFKQ4zGQed1GFppgkRHL9kaELCbyksJtPX success".toList] }

/-- A log record in which the system program success is the last line. -/
def exOpenBookLogLast : LogResult :=
  { Signature := ⟨38⟩, Err := none,
    Logs := some
      ["Program srmqPvymJeFKQ4zGQed1GFppgkRHL9kaELCbyksJtPX invoke [1]".toList,
       "Program 11111111111111111111111111111111 success".toList] }

/-- An observer state with nothing sent and nothing seen. -/
def exObserverState : ObserverState := { txCandidatePublishC := [], logset := [] }

/-- The test the loop of `analyzeRaydiumLogs` applies to a line: the separator occurs and
the rewrite of the text after it is valid JSON. -/
def raydiumQualifies (jsonValid : GoString → Bool) (line : GoString) : Bool :=
  match stringsCut line initializeInstruction2 with
  | none => false
  | some after => jsonValid (rewriteMetadata after)

/-- The line suffix of the pool initialisation log of the specification. -/
def exIdoSuffix : GoString :=
  "\x7b nonce: 254, open_time: 1700000000, init_pc_amount: 1000, init_coin_amount: 500000 \x7d".toList

/-- The payload the specification gives for `exIdoSuffix`. -/
def exIdoPayload : GoString :=
  "\x7b \"nonce\": 254, \"open_time\": 1700000000, \"init_pc_amount\": 1000, \"init_coin_amount\": 500000 \x7d".toList

/-- A line suffix with a colon inside a token. -/
def exColonSuffix : GoString := "\x7b a:b 1 \x7d".toList

/-- What `analyzeRaydiumLogs` makes of `exColonSuffix`. -/
def exColonPayload : GoString := "\x7b \"a:\": 1 \x7d".toList

/-- A stand-in for json.Valid that agrees with it on the texts of the examples: the two
payloads are valid JSON, every other text of the examples is not. -/
def exJsonValid (data : GoString) : Bool := data = exIdoPayload || data = exColonPayload

/-- A log record of a pool initialisation. -/
def exRaydiumLog : LogResult :=
  { Signature := ⟨28⟩, Err := none,
    Logs := some
      ["Program 675kPX9MHTjS2zt1qfr1NYHuzeLXfQM9H24wFSUt1Mp8 invoke [1]".toList,
       "Program log: initialize2: InitializeInstruction2 ".toList ++ exIdoSuffix,
       "Program 675kPX9MHTjS2zt1qfr1NYHuzeLXfQM9H24wFSUt1Mp8 success".toList] }

/-- A log record whose line after the separator is `exColonSuffix`. -/
def exRaydiumLogColon : LogResult :=
  { Signature := ⟨48⟩, Err := none,
    Logs := some ["Program log: initialize2: InitializeInstruction2 ".toList ++ exColonSuffix] }

/-! ## onchain.TxAnalyzer: the dispatch loop and the market-init path -/

/-- The state of onchain.TxAnalyzer the dispatch loop owns: the set `gotCandidates`. -/
structure TxAnalyzer where
  gotCandidates : List Signature
deriving DecidableEq, Repr

/-- The function onchain.NewTxAnalyzer: the set is empty. -/
def NewTxAnalyzer : TxAnalyzer := { gotCandidates := [] }

/-- The loop `for txCandidate := range a.txCandidateC` of `TxAnalyzer.Start`: the analyzer
at the end and the candidates for which `go a.analyze(...)` was executed, in order. -/
def dispatchLoop (a : TxAnalyzer) : List TxCandidate → TxAnalyzer × List TxCandidate
  | [] => (a, [])
  | txCandidate :: rest =>
    if txCandidate.Signature ∈ a.gotCandidates then dispatchLoop a rest
    else
      let r := dispatchLoop { gotCandidates := txCandidate.Signature :: a.gotCandidates } rest
      (r.1, txCandidate :: r.2)

/-- The workers `TxAnalyzer.Start` spawns on a new analyzer for the candidates the input
channel delivers. -/
def spawnedWorkers (candidates : List TxCandidate) : List TxCandidate :=
  (dispatchLoop NewTxAnalyzer candidates).2

/-- The candidates that are the first occurrence of their signature, in the words of the
specification: a candidate counts when no candidate delivered before it carries its
signature. -/
def firstOccurrencesFrom (earlier : List TxCandidate) : List TxCandidate → List TxCandidate
  | [] => []
  | c :: rest =>
    if earlier.any (fun e => decide (e.Signature = c.Signature)) then
      firstOccurrencesFrom (earlier ++ [c]) rest
    else c :: firstOccurrencesFrom (earlier ++ [c]) rest

/-- The first occurrences in a delivery sequence. -/
def firstOccurrences (candidates : List TxCandidate) : List TxCandidate :=
  firstOccurrencesFrom [] candidates

/-- Candidates from two observers: signature 18 three times (once with a payload),
signature 28 twice. -/
def exCandidates : List TxCandidate :=
  [{ Signature := ⟨18⟩, clientName := "node-a", Metadata := none },
   { Signature := ⟨28⟩, clientName := "node-a", Metadata := some exIdoPayload },
   { Signature := ⟨18⟩, clientName := "node-b", Metadata := none },
   { Signature := ⟨28⟩, clientName := "node-b", Metadata := some exIdoPayload },
   { Signature := ⟨18⟩, clientName := "node-b", Metadata := some exIdoPayload }]

/-- The fields of rpc.TransactionSignature that `TokenInfoFromMarket` reads; `BlockTime` is
a pointer to Unix seconds, `none` is nil. -/
structure TransactionSignature where
  Signature : Rayscan.Signature
  BlockTime : Option Int
deriving DecidableEq, Repr

/-- The struct rpc.UiTokenAmount, the fields read: the amount as a decimal string and the
decimals (a `uint8`). -/
structure UiTokenAmount where
  Amount : GoString
  Decimals : Nat
deriving DecidableEq, Repr

/-- The struct rpc.GetTokenSupplyResult: `Value` is a pointer, `none` is nil. -/
structure GetTokenSupplyResult where
  Value : Option UiTokenAmount
deriving DecidableEq, Repr

/-- What the two RPC calls of `TokenInfoFromMarket` return: the signatures with the error
of `GetSignaturesForAddressWithOpts`, and the result pointer with the error of
`GetTokenSupply` (`none` is a nil error, a nil pointer). -/
structure TokenRpc where
  sigs : List TransactionSignature
  sigsErr : Option String
  supply : Option GetTokenSupplyResult
  supplyErr : Option String
deriving DecidableEq, Repr

/-- The library function `strconv.ParseUint(s, 10, 64)`: decimal digits only, at least
one, the value below `2^64`. -/
def parseUint64 (s : GoString) : Option Nat :=
  if s.isEmpty || !s.all Char.isDigit then none
  else
    let v := s.foldl (fun acc c => 10 * acc + (c.toNat - '0'.toNat)) 0
    if v < 2 ^ 64 then some v else none

/-- The library method `Time.Sub` on times without monotonic reading: the difference in
nanoseconds, saturated to the range of `time.Duration` (an `int64`). -/
def Time.Sub (t u : Time) : Int :=
  let d := (t.sec - u.sec) * 1000000000 + ((t.nsec : Int) - (u.nsec : Int))
  if d < -(2 ^ 63) then -(2 ^ 63) else if d > 2 ^ 63 - 1 then 2 ^ 63 - 1 else d

/-- The method `TxAnalyzer.TokenInfoFromMarket`, the two RPC answers given. `.ok` is a
return with a nil error, `.err` a return with an error. -/
def TokenInfoFromMarket (rpc : TokenRpc) (market : MarketInfo) : Res TokenInfo :=
  if rpc.sigsErr.isSome || rpc.sigs.length = 0 then
    match rpc.sigsErr with
    | some err => .err err
    | none => .ok TokenInfo.zero
  else
    match rpc.sigs.getLast? with
    | none => .fault
    | some lastSig =>
      match lastSig.BlockTime with
      | none => .err "no block time in signature"
      | some blockTime =>
        let createTime := Time.Unix blockTime
        match rpc.supplyErr with
        | some err => .err err
        | none =>
          match rpc.supply with
          | none => .fault
          | some rpcTokenSupply =>
            match rpcTokenSupply.Value with
            | none => .err "no token supply"
            | some value =>
              match parseUint64 value.Amount with
              | none => .err "strconv.ParseUint: parsing error"
              | some uval =>
                .ok { Address := market.TokenAddress
                      TxID := lastSig.Signature
                      TxTime := createTime
                      TimeToSerumMarket := market.TxTime.Sub createTime
                      TxCountToSerumMarket := rpc.sigs.length
                      TotalSupply := uval
                      Decimals := value.Decimals }

/-- What `analyzeInitMarket` leaves behind: the facts sent on `infoPublishC` so far and its
return value (`.ok` is a nil error). -/
structure AnalyzeResult where
  infoPublishC : List Info
  result : Res Unit
deriving DecidableEq, Repr

/-- The method `TxAnalyzer.analyzeInitMarket`: extract the market and send it, derive the
AMM fact and send it, gather the token fact and send it; an error or fault ends it. -/
def analyzeInitMarket
    (createProgramAddress : List (List Nat) → PublicKey → Option PublicKey)
    (findProgramAddress : List (List Nat) → PublicKey → Option (PublicKey × Nat))
    (now : Time) (rpc : TokenRpc) (rpcTx : GetTransactionResult) (tx : Transaction)
    (infoPublishC : List Info) : AnalyzeResult :=
  match MarketInfoFromTransaction createProgramAddress now rpcTx tx with
  | .fault => { infoPublishC := infoPublishC, result := .fault }
  | .err e => { infoPublishC := infoPublishC, result := .err ("error getting market info: " ++ e) }
  | .ok minfo =>
    let infoPublishC := infoPublishC ++ [.market minfo]
    match DeriveAmmInfoFromMarket findProgramAddress minfo with
    | .fault => { infoPublishC := infoPublishC, result := .fault }
    | .err e =>
      { infoPublishC := infoPublishC,
        result := .err ("error deriving amm info from market: " ++ e) }
    | .ok ainfo =>
      let infoPublishC := infoPublishC ++ [.amm ainfo]
      match TokenInfoFromMarket rpc minfo with
      | .fault => { infoPublishC := infoPublishC, result := .fault }
      | .err e =>
        { infoPublishC := infoPublishC,
          result := .err ("error getting token info from market: " ++ e) }
      | .ok tinfo => { infoPublishC := infoPublishC ++ [.token tinfo], result := .ok () }

/-- The RPC answers for a token mint with no visible signature: an empty list and no
error; the supply call would answer 1000000 with 6 decimals. -/
def exTokenRpcEmpty : TokenRpc :=
  { sigs := [], sigsErr := none,
    supply := some { Value := some { Amount := "1000000".toList, Decimals := 6 } },
    supplyErr := none }

/-- The RPC answers of the happy path: fifteen signatures, the oldest at block time 10. -/
def exTokenRpc : TokenRpc :=
  { sigs := List.replicate 14 { Signature := ⟨30⟩, BlockTime := some 50 } ++
            [{ Signature := ⟨29⟩, BlockTime := some 10 }],
    sigsErr := none,
    supply := some { Value := some { Amount := "1000000".toList, Decimals := 6 } },
    supplyErr := none }

/-! ## connection.RPCPool -/

/-- The struct config.RPCNode. -/
structure RPCNode where
  Name : String
  RPCEndpoint : String
  WSEndpoint : String
  Observer : Bool
deriving DecidableEq, Repr

/-- The struct connection.Connection; the client pointer `rpc.New(endpoint)` is identified
by the endpoint it was made for. -/
structure Connection where
  ConnectionInfo : RPCNode
  RPCClient : String
  CooldownUntil : Time
deriving DecidableEq, Repr

/-- The struct connection.RPCPool (the mutex is left out). -/
structure RPCPool where
  Connections : List Connection
  CurrentIdx : Nat
deriving DecidableEq, Repr

/-- The library method `Time.After` on times without monotonic reading. -/
def Time.After (t u : Time) : Bool :=
  decide (t.sec > u.sec) || (decide (t.sec = u.sec) && decide (t.nsec > u.nsec))

/-- What a call of `RPCPool.Client` returns and leaves: the pool with the new `CurrentIdx`,
the index and client of the connection handed out, and how often the loop slept. -/
structure ClientReturn where
  pool : RPCPool
  index : Nat
  client : String
  sleeps : Nat
deriving DecidableEq, Repr

/-- The `for` loop of `RPCPool.Client`, `fuel` bounding the number of condition tests:
`oldIdx` and `i` are the loop variables, `k` counts the readings of `time.Now()` and
`sleeps` the executions of `time.Sleep`. The result is the final `oldIdx` with the number
of sleeps; `none` when the fuel runs out, a fault when `Connections[oldIdx]` is out of
range. -/
def clientLoop (clock : Nat → Time) (conns : List Connection) :
    Nat → Nat → Nat → Nat → Nat → Option (Res (Nat × Nat))
  | 0, _, _, _, _ => none
  | fuel + 1, oldIdx, i, k, sleeps =>
    match conns[oldIdx]? with
    | none => some .fault
    | some conn =>
      if conn.CooldownUntil.After (clock k) then
        if i = conns.length then
          clientLoop clock conns fuel ((oldIdx + 1) % conns.length) (0 + 1) (k + 1) (sleeps + 1)
        else
          clientLoop clock conns fuel ((oldIdx + 1) % conns.length) (i + 1) (k + 1) sleeps
      else some (.ok (oldIdx, sleeps))

/-- The method `RPCPool.Client`; `clock k` is the `k`-th reading of `time.Now()`. -/
def RPCPool.Client (clock : Nat → Time) (fuel : Nat) (r : RPCPool) : Option (Res ClientReturn) :=
  match clientLoop clock r.Connections fuel r.CurrentIdx 0 0 0 with
  | none => none
  | some .fault => some .fault
  | some (.err e) => some (.err e)
  | some (.ok (oldIdx, sleeps)) =>
    match r.Connections[oldIdx]? with
    | none => some .fault
    | some conn =>
      some (.ok { pool := { r with CurrentIdx := (oldIdx + 1) % r.Connections.length },
                  index := oldIdx, client := conn.RPCClient, sleeps := sleeps })

/-- Successive calls of `RPCPool.Client`, `count` of them, all at the clock reading `now`:
the indices handed out in order and the pool at the end; `none` when a call does not
return a client. -/
def clientCalls (now : Time) (fuel : Nat) : Nat → RPCPool → Option (List Nat × RPCPool)
  | 0, r => some ([], r)
  | count + 1, r =>
    match r.Client (fun _ => now) fuel with
    | some (.ok ret) =>
      match clientCalls now fuel count ret.pool with
      | some (idxs, r2) => some (ret.index :: idxs, r2)
      | none => none
    | _ => none

/-- The connection is in cooldown at the clock reading `now`. -/
def inCooldown (now : Time) (conns : List Connection) (idx : Nat) : Bool :=
  match conns[idx]? with
  | some conn => conn.CooldownUntil.After now
  | none => false

/-- The outcome of `rpcClient.GetHealth`: an error, or a health string with a nil error. -/
inductive HealthProbe where
  | failed (reason : String)
  | answered (health : String)
deriving DecidableEq, Repr

/-- The loop `for k, v := range nodes` of `NewRPCClientPool`, the nodes in the order the
map iteration visits them; `probe` is the health probe of a node. The branch for an
unhealthy node starts with `reason := err.Error()`, which faults when the probe returned a
string other than "ok" with a nil error. -/
def newPoolLoop (probe : String → RPCNode → HealthProbe) :
    List (String × RPCNode) → List Connection → Res (List Connection)
  | [], conns => .ok conns
  | (k, v) :: rest, conns =>
    match probe k v with
    | .failed _ => newPoolLoop probe rest conns
    | .answered health =>
      if health ≠ "ok" then .fault
      else
        newPoolLoop probe rest
          (conns ++ [{ ConnectionInfo := { v with Name := k }, RPCClient := v.RPCEndpoint,
                       CooldownUntil := Time.zero }])

/-- The function connection.NewRPCClientPool. -/
def NewRPCClientPool (probe : String → RPCNode → HealthProbe)
    (nodes : List (String × RPCNode)) : Res RPCPool :=
  match newPoolLoop probe nodes [] with
  | .fault => .fault
  | .err e => .err e
  | .ok conns =>
    if conns.length = 0 then .err "No healthy connections found!"
    else .ok { Connections := conns, CurrentIdx := 0 }

/-- Three endpoints, the second in cooldown until Unix second 500. -/
def exPool : RPCPool :=
  { Connections :=
      [{ ConnectionInfo := { Name := "a", RPCEndpoint := "http://a", WSEndpoint := "ws://a",
                             Observer := true },
         RPCClient := "http://a", CooldownUntil := Time.zero },
       { ConnectionInfo := { Name := "b", RPCEndpoint := "http://b", WSEndpoint := "ws://b",
                             Observer := false },
         RPCClient := "http://b", CooldownUntil := Time.Unix 500 },
       { ConnectionInfo := { Name := "c", RPCEndpoint := "http://c", WSEndpoint := "ws://c",
                             Observer := false },
         RPCClient := "http://c", CooldownUntil := Time.zero }],
    CurrentIdx := 1 }

/-- The same three endpoints with none in cooldown. -/
def exPoolFree : RPCPool :=
  { exPool with
    Connections := exPool.Connections.map fun c => { c with CooldownUntil := Time.zero } }

/-- Two configured nodes. -/
def exNodes : List (String × RPCNode) :=
  [("a", { Name := "", RPCEndpoint := "http://a", WSEndpoint := "ws://a", Observer := true }),
   ("b", { Name := "", RPCEndpoint := "http://b", WSEndpoint := "ws://b", Observer := false })]

/-- A probe: node "a" answers "ok", every other node answers "behind" without an error. -/
def exProbeBehind : String → RPCNode → HealthProbe :=
  fun k _ => if k = "a" then .answered "ok" else .answered "behind"

/-- A probe: node "a" answers "ok", every other node fails with an error. -/
def exProbeError : String → RPCNode → HealthProbe :=
  fun k _ => if k = "a" then .answered "ok" else .failed "node is behind"

/-- The connection `NewRPCClientPool` appends for a healthy node: the node named by its map
key, the client made for its RPC endpoint, no cooldown. -/
def healthyConnection (kv : String × RPCNode) : Connection :=
  { ConnectionInfo := { kv.2 with Name := kv.1 }, RPCClient := kv.2.RPCEndpoint,
    CooldownUntil := Time.zero }

/-- The probe of the node answered "ok" without an error. -/
def answeredOk (probe : String → RPCNode → HealthProbe) (kv : String × RPCNode) : Bool :=
  decide (probe kv.1 kv.2 = .answered "ok")

/-- The account key an instruction names in position `i`:
`tx.Message.AccountKeys[instr.Accounts[i]]`, `none` when an index is out of range. -/
def accountKey (tx : Transaction) (instr : CompiledInstruction) (i : Nat) : Option PublicKey :=
  (instr.Accounts.get? i).bind fun idx => tx.Message.AccountKeys.get? idx

/-- The concrete InitializeMarket transaction with the mints in reverse order: the
wrapped-native mint in position 7, the token in position 8. -/
def exTxSwapped : Transaction :=
  { Signatures := [⟨18⟩],
    Message :=
      { AccountKeys := exAccountKeys,
        Instructions :=
          [{ ProgramIDIndex := 11, Accounts := [1, 2, 3, 4, 5, 6, 7, 9, 8, 10], Data := exData }] } }

/-- The market extracted from `exTxSwapped`: mints and vaults exchanged, `Swapped` set. -/
def exMarketSwapped : MarketInfo :=
  { exMarket with BaseVault := ⟨16⟩, QuoteVault := ⟨15⟩, Swapped := true }

/-! ## onchain.LogObserver: the reconnect routines and the consumer loops -/

/-- A ws.LogSubscription, identified by a number. -/
structure LogSubscription where
  id : Nat
deriving DecidableEq, Repr

/-- What one call of `subscribeForOpenBookLogs` or `subscribeForRaydiumLogs` returns: an
error with a nil subscription, or a subscription with a nil error. -/
inductive SubscribeOutcome where
  | failed (err : String)
  | subscribed (sub : LogSubscription)
deriving DecidableEq, Repr

/-- What a reconnect routine leaves when it returns: the subscription now stored in
`*subID`, the number of subscribe calls made and the number of five-second sleeps. -/
structure ReconnectResult where
  handle : LogSubscription
  attempts : Nat
  sleeps : Nat
deriving DecidableEq, Repr

/-- The loop `for err != nil` of `reconnectOpenBookSubscription`: `outcome` is the result
of the latest subscribe call, `rest` the results of the calls still to come. `none` when
the results run out while the loop is still retrying. -/
def reconnectOpenBookLoop :
    SubscribeOutcome → List SubscribeOutcome → Nat → Nat → Option ReconnectResult
  | .subscribed sub, _, attempts, sleeps =>
    some { handle := sub, attempts := attempts, sleeps := sleeps }
  | .failed _, [], _, _ => none
  | .failed _, next :: rest, attempts, sleeps =>
    reconnectOpenBookLoop next rest (attempts + 1) (sleeps + 1)

/-- The method `LogObserver.reconnectOpenBookSubscription`; `outcomes` are the results of
the successive subscribe calls, `subID` the handle on entry (it is unsubscribed and then
overwritten). -/
def reconnectOpenBookSubscription (outcomes : List SubscribeOutcome) (_subID : LogSubscription) :
    Option (Res ReconnectResult) :=
  match outcomes with
  | [] => none
  | first :: rest => (reconnectOpenBookLoop first rest 1 0).map Res.ok

/-- The method `LogObserver.reconnecRaydiumSubscription`: the retry is an `if`, not a
loop, so after a second failure `raydiumSubID` is nil and `*subID = *raydiumSubID`
faults. -/
def reconnecRaydiumSubscription (outcomes : List SubscribeOutcome) (_subID : LogSubscription) :
    Option (Res ReconnectResult) :=
  match outcomes with
  | [] => none
  | .subscribed sub :: _ => some (.ok { handle := sub, attempts := 1, sleeps := 0 })
  | .failed _ :: [] => none
  | .failed _ :: .subscribed sub :: _ =>
    some (.ok { handle := sub, attempts := 2, sleeps := 1 })
  | .failed _ :: .failed _ :: _ => some .fault

/-- Attempt outcomes: `k` failures followed by a success. -/
def failuresThenSuccess (k : Nat) (sub : LogSubscription) : List SubscribeOutcome :=
  List.replicate k (.failed "dial failed") ++ [.subscribed sub]

/-- The two log streams of an observer. -/
inductive LogStream where
  | openBook
  | raydium
deriving DecidableEq, Repr

/-- A record delivered by `Recv` to one of the consumer loops: the observer's connection
name, the stream, and the record. -/
structure Received where
  connName : String
  stream : LogStream
  log : LogResult
deriving Repr

/-- The classifier a consumer loop starts for a record: `analyzeOpenBookLogs` in
`consumeOpenBookLogs`, `analyzeRaydiumLogs` in `consumeRaydiumLogs`. -/
def Received.analyze (jsonValid : GoString → Bool) (r : Received) (st : ObserverState) :
    ObserverState :=
  match r.stream with
  | .openBook => analyzeOpenBookLogs r.connName r.log st
  | .raydium => analyzeRaydiumLogs jsonValid r.connName r.log st

/-- One turn of the loop of `consumeOpenBookLogs` or `consumeRaydiumLogs` on a record that
`Recv` delivered without error: a record with nil logs or an error is skipped, a record
whose signature is in the log set is skipped, any other record goes to the stream's
classifier, which is run to its end before the next record is taken. -/
def consumeStep (jsonValid : GoString → Bool) (r : Received) (st : ObserverState) :
    ObserverState :=
  if r.log.Logs.isNone || r.log.Err.isSome then st
  else if r.log.Signature ∈ st.logset then st
  else r.analyze jsonValid st

/-- A sequential run of the consumer loops over the records in the order of delivery. -/
def consumeRun (jsonValid : GoString → Bool) : List Received → ObserverState → ObserverState
  | [], st => st
  | r :: rest, st => consumeRun jsonValid rest (consumeStep jsonValid r st)

/-! ## Prices after two inversions -/

/-- The fact with its initial price `p` replaced by the float64 value `1.0 / (1.0 / p)`,
what the inversion of the swapped orientation followed by the inversion of `UpdateSwap`
makes of it. -/
def AmmInfo.reinverted (a : AmmInfo) : AmmInfo :=
  { a with
    InitialLiveInfo :=
      { a.InitialLiveInfo with Price := 1 / (1 / a.InitialLiveInfo.Price) } }

/-- Initial reserves with price 49. -/
def exLive49 : AmmLiveInfo := { exLive with PooledToken := 49000, Price := 49 }

/-- A ready observed AMM fact for `exToken` with price 49. -/
def exObserved49 : AmmInfo :=
  { exObserved with InitialLiveInfo := exLive49, CurrentLiveInfo := exLive49 }

/-- The float64 value next above 49, `49.00000000000001`. -/
def exPrice49Up : Float64 := .finite (6896136929411073 / 140737488355328)

/-- Initial reserves with the smallest positive price, `5e-324`. -/
def exLiveTiny : AmmLiveInfo := { exLive with Price := .finite (1 / 2 ^ 1074) }

/-- A ready observed AMM fact for `exToken` with the smallest positive price. -/
def exObservedTiny : AmmInfo :=
  { exObserved with InitialLiveInfo := exLiveTiny, CurrentLiveInfo := exLiveTiny }

/-- The invariant behind the vault reconciliation: a record kept in flight under a key
other than the wrapped-native mint, once it carries an observed AMM fact with a
transaction id, has its observed coin vault equal to the derived one. -/
def CoinSettled (c : PairCollector) : Prop :=
  ∀ k p, k ≠ WrappedSol → PairMap.get c.pairs k = some p →
    p.AmmInfo.TxID.IsZero = false →
    p.AmmInfo.PoolCoinTokenAccount = p.CalculatedAmmInfo.PoolCoinTokenAccount

/-- The derived AMM fact of `exMarketBothSol`: its token address is the wrapped-native
mint. -/
def exDerivedSol : AmmInfo := { exDerived with TokenMintAddress := WrappedSol }

/-- A ready token fact for the wrapped-native mint. -/
def exTokenInfoSol : TokenInfo := { exTokenInfo with Address := WrappedSol }

/-- A ready observed AMM fact with the wrapped-native mint on both sides, its vaults in the
reverse order of the derived ones. -/
def exObservedSol : AmmInfo :=
  { exObserved with
    TokenMintAddress := WrappedSol, PoolCoinTokenAccount := ⟨23⟩, PoolPcTokenAccount := ⟨22⟩ }

/-- A second derived AMM fact with the wrapped-native mint as token address. -/
def exDerivedSol2 : AmmInfo := { exDerived2 with TokenMintAddress := WrappedSol }

/-- The record emitted when the token fact for the wrapped-native mint arrives once more
after `exDerivedSol2`. -/
def exEmittedSol : PairInfo :=
  { MarketInfo := exMarketBothSol, TokenInfo := exTokenInfoSol,
    AmmInfo := exObservedSol.UpdateSwap true, CalculatedAmmInfo := exDerivedSol2,
    Readiness := exClock 5 }


/-! ## Lemmas on the maps -/

theorem PairMap.get_set_self (m : PairMap) (k : PublicKey) (p : PairInfo) :
    PairMap.get (PairMap.set m k p) k = some p := by
  induction m with
  | nil => simp [PairMap.set, PairMap.get]
  | cons e rest ih =>
    obtain ⟨k1, p1⟩ := e
    by_cases h : k1 = k
    · simp [PairMap.set, PairMap.get, h]
    · simp [PairMap.set, PairMap.get, h, ih]

theorem PairMap.get_set_ne (m : PairMap) (k k2 : PublicKey) (p : PairInfo) (h : k ≠ k2) :
    PairMap.get (PairMap.set m k p) k2 = PairMap.get m k2 := by
  induction m with
  | nil => simp [PairMap.set, PairMap.get, h]
  | cons e rest ih =>
    obtain ⟨k1, p1⟩ := e
    by_cases h1 : k1 = k
    · subst h1; simp [PairMap.set, PairMap.get, h]
    · by_cases h2 : k1 = k2
      · subst h2; simp [PairMap.set, PairMap.get, h1]
      · simp [PairMap.set, PairMap.get, h1, h2, ih]

theorem PairMap.get_delete_self (m : PairMap) (k : PublicKey) :
    PairMap.get (PairMap.delete m k) k = none := by
  induction m with
  | nil => simp [PairMap.delete, PairMap.get]
  | cons e rest ih =>
    obtain ⟨k1, p1⟩ := e
    by_cases h : k1 = k
    · simp [PairMap.delete, h, ih]
    · simp [PairMap.delete, PairMap.get, h, ih]

theorem PairMap.get_delete_ne (m : PairMap) (k k2 : PublicKey) (h : k ≠ k2) :
    PairMap.get (PairMap.delete m k) k2 = PairMap.get m k2 := by
  induction m with
  | nil => simp [PairMap.delete, PairMap.get]
  | cons e rest ih =>
    obtain ⟨k1, p1⟩ := e
    by_cases h1 : k1 = k
    · subst h1; simp [PairMap.delete, PairMap.get, h, ih]
    · by_cases h2 : k1 = k2
      · subst h2; simp [PairMap.delete, PairMap.get, h1]
      · simp [PairMap.delete, PairMap.get, h1, h2, ih]

theorem PairMap.get_delete_of_none (m : PairMap) (k k2 : PublicKey)
    (h : PairMap.get m k2 = none) : PairMap.get (PairMap.delete m k) k2 = none := by
  by_cases hk : k = k2
  · subst hk; exact PairMap.get_delete_self m k
  · rw [PairMap.get_delete_ne m k k2 hk]; exact h

theorem mem_createdInsert (s : List PublicKey) (k t : PublicKey) :
    t ∈ createdInsert s k ↔ t = k ∨ t ∈ s := by
  unfold createdInsert
  split
  · constructor
    · intro h; exact Or.inr h
    · rintro (h | h)
      · subst h; assumption
      · exact h
  · simp

/-! ## The join loop: created tokens are not in flight -/

/-- What a handler that returns a record did to the collector: `createdPairs` is the same,
the record is stored under the returned key, and every other key is as before; a key that
was absent before is the token address of a market fact. -/
theorem handleInfo_ok (c c1 : PairCollector) (f : Info) (chans : List PairChan)
    (key : PublicKey) (pair : PairInfo) (h : handleInfo c f chans = .ok c1 key pair) :
    c1.createdPairs = c.createdPairs ∧ PairMap.get c1.pairs key = some pair ∧
    (∀ k, k ≠ key → PairMap.get c1.pairs k = PairMap.get c.pairs k) ∧
    (PairMap.get c.pairs key = none → key = f.TokenAddress) := by
  cases f with
  | market m =>
    simp only [handleInfo, handleMarketInfo] at h
    split at h
    · cases h
    · injection h with h1 h2 h3
      subst h1 h2 h3
      refine ⟨rfl, PairMap.get_set_self _ _ _, ?_, fun _ => rfl⟩
      intro k hk
      exact PairMap.get_set_ne _ _ _ _ (Ne.symm hk)
  | amm a =>
    simp only [handleInfo, handleAmmInfo] at h
    split at h
    · split at h
      · cases h
      · injection h with h1 h2 h3
        subst h1 h2 h3
        refine ⟨rfl, PairMap.get_set_self _ _ _, ?_, ?_⟩
        · intro k hk
          exact PairMap.get_set_ne _ _ _ _ (Ne.symm hk)
        · intro hn; simp_all
    · split at h
      · cases h
      · injection h with h1 h2 h3
        subst h1 h2 h3
        refine ⟨rfl, PairMap.get_set_self _ _ _, ?_, ?_⟩
        · intro k hk
          exact PairMap.get_set_ne _ _ _ _ (Ne.symm hk)
        · intro hn; simp_all
  | token t =>
    simp only [handleInfo, handleTokenInfo] at h
    split at h
    · cases h
    · injection h with h1 h2 h3
      subst h1 h2 h3
      refine ⟨rfl, PairMap.get_set_self _ _ _, ?_, ?_⟩
      · intro k hk
        exact PairMap.get_set_ne _ _ _ _ (Ne.symm hk)
      · intro hn; simp_all


theorem handleInfo_ok_inv (c c1 : PairCollector) (f : Info) (chans : List PairChan)
    (key : PublicKey) (pair : PairInfo) (hc : CreatedNotInFlight c)
    (hf : f.TokenAddress ∉ c.createdPairs)
    (h : handleInfo c f chans = .ok c1 key pair) :
    key ∉ c1.createdPairs ∧ ∀ t, t ∈ c1.createdPairs → PairMap.get c1.pairs t = none := by
  obtain ⟨h1, _, h3, h4⟩ := handleInfo_ok c c1 f chans key pair h
  have hkey : key ∉ c.createdPairs := by
    intro hk
    have := h4 (hc key hk)
    rw [this] at hk
    exact hf hk
  rw [h1]
  refine ⟨hkey, ?_⟩
  intro t ht
  have hne : t ≠ key := fun e => hkey (e ▸ ht)
  rw [h3 t hne]
  exact hc t ht

theorem step_inv (now : Time) (c c1 : PairCollector) (chans chans1 : List PairChan)
    (f : Info) (ev : LoopEvent) (hc : CreatedNotInFlight c)
    (h : step now c chans f = .next c1 chans1 ev) : CreatedNotInFlight c1 := by
  simp only [step] at h
  split at h
  · injection h with h1 _ _
    subst h1; exact hc
  · rename_i hf
    split at h
    · cases h
    · injection h with h1 _ _
      subst h1; exact hc
    · rename_i c2 key pair hh
      obtain ⟨hkey, hinv⟩ := handleInfo_ok_inv c c2 f chans key pair hc hf hh
      split at h
      · injection h with h1 _ _
        subst h1; exact hinv
      · split at h
        · injection h with h1 _ _
          subst h1
          intro t ht
          exact PairMap.get_delete_of_none _ _ _ (hinv t ht)
        · have hset : ∀ t, t ∈ c2.createdPairs →
              PairMap.get (PairMap.set c2.pairs key { pair with Readiness := now }) t = none := by
            intro t ht
            have hne : key ≠ t := fun e => hkey (e ▸ ht)
            rw [PairMap.get_set_ne _ _ _ _ hne]
            exact hinv t ht
          split at h
          · injection h with h1 _ _
            subst h1
            intro t ht
            simp only [mem_createdInsert] at ht
            rcases ht with ht | ht
            · subst ht; exact PairMap.get_delete_self _ _
            · exact PairMap.get_delete_of_none _ _ _ (hset t ht)
          · injection h with h1 _ _
            subst h1
            exact hset

theorem loop_inv (clock : Nat → Time) (facts : List Info) :
    ∀ (i : Nat) (c : PairCollector) (chans : List PairChan), CreatedNotInFlight c →
      CreatedNotInFlight (loop clock i c chans facts).final := by
  induction facts with
  | nil => intro i c chans hc; simpa [loop] using hc
  | cons f rest ih =>
    intro i c chans hc
    simp only [loop]
    split
    · exact hc
    · rename_i c1 chans1 ev hstep
      exact ih (i + 1) c1 chans1 (step_inv _ _ _ _ _ _ _ hc hstep)

/-- Claim C1. In every state the join loop reaches from the empty collector on a finite
sequence of facts (the state after any prefix of the sequence), no token is both a member
of `createdPairs` and a key of the in-flight map `pairs`. -/
theorem created_pairs_not_in_flight (clock : Nat → Time) (pairPublishC : List PairChan)
    (facts : List Info) (n : Nat) (t : PublicKey)
    (ht : t ∈ (Start clock pairPublishC (facts.take n)).final.createdPairs) :
    PairMap.get (Start clock pairPublishC (facts.take n)).final.pairs t = none := by
  have hinit : CreatedNotInFlight NewPairCollector := by
    intro t ht; simp [NewPairCollector] at ht
  exact loop_inv clock (facts.take n) 0 NewPairCollector pairPublishC hinit t ht


/-- Witness of C1 on the happy path: the token is created and not in flight. -/
theorem created_pairs_not_in_flight_witness :
    exToken ∈ (Start exClock [] (exFacts.take 4)).final.createdPairs ∧
    PairMap.get (Start exClock [] (exFacts.take 4)).final.pairs exToken = none :=
  ⟨by decide, created_pairs_not_in_flight exClock [] exFacts 4 exToken (by decide)⟩

/-! ## The join loop: at most one emission per token -/

theorem step_created_mono (now : Time) (c c1 : PairCollector) (chans chans1 : List PairChan)
    (f : Info) (ev : LoopEvent) (h : step now c chans f = .next c1 chans1 ev)
    (t : PublicKey) (ht : t ∈ c.createdPairs) : t ∈ c1.createdPairs := by
  simp only [step] at h
  split at h
  · injection h with h1 _ _
    subst h1; exact ht
  · split at h
    · cases h
    · injection h with h1 _ _
      subst h1; exact ht
    · rename_i c2 key pair hh
      have hcr := (handleInfo_ok c c2 f chans key pair hh).1
      split at h
      · injection h with h1 _ _
        subst h1; rw [hcr]; exact ht
      · split at h
        · injection h with h1 _ _
          subst h1; simp only; rw [hcr]; exact ht
        · split at h
          · injection h with h1 _ _
            subst h1
            simp only [mem_createdInsert]
            right; rw [hcr]; exact ht
          · injection h with h1 _ _
            subst h1; simp only; rw [hcr]; exact ht

/-- An iteration that ends in the emission step: it was not stopped by `createdPairs`, the
handler returned the record, the record has an observed AMM transaction id and is ready,
the event carries the fact's token address and the record with `Readiness` set, and the
token went into `createdPairs` exactly when it is not the wrapped-native mint. -/
theorem step_emitted (now : Time) (c c1 : PairCollector) (chans chans1 : List PairChan)
    (f : Info) (k : PublicKey) (p : PairInfo) (b : Bool)
    (h : step now c chans f = .next c1 chans1 (.emitted k p b)) :
    k = f.TokenAddress ∧ k ∉ c.createdPairs ∧ chans1 = chans ∧
    (b = true ↔ k ≠ WrappedSol) ∧ (b = true → k ∈ c1.createdPairs) ∧
    ∃ c2 key pair, handleInfo c f chans = .ok c2 key pair ∧ pair.AmmInfo.TxID.IsZero = false ∧
      pair.Ready = true ∧ p = { pair with Readiness := now } := by
  simp only [step] at h
  split at h
  · injection h with _ _ h3; cases h3
  · rename_i hf
    split at h
    · cases h
    · injection h with _ _ h3; cases h3
    · rename_i c2 key pair hh
      split at h
      · injection h with _ _ h3; cases h3
      · rename_i hz
        split at h
        · injection h with _ _ h3; cases h3
        · rename_i hr
          split at h
          · rename_i hw
            injection h with h1 h2 h3
            injection h3 with h4 h5 h6
            subst h1 h2 h4 h5 h6
            refine ⟨rfl, hf, rfl, by simp [hw], ?_, c2, key, pair, hh, by simpa using hz,
              by simpa using hr, rfl⟩
            intro _
            simp [mem_createdInsert]
          · rename_i hw
            injection h with h1 h2 h3
            injection h3 with h4 h5 h6
            subst h1 h2 h4 h5 h6
            refine ⟨rfl, hf, rfl, by simpa using hw, by simp, c2, key, pair, hh,
              by simpa using hz, by simpa using hr, rfl⟩

theorem loop_emission_zero (clock : Nat → Time) (t : PublicKey) (facts : List Info) :
    ∀ (i : Nat) (c : PairCollector) (chans : List PairChan), t ∈ c.createdPairs →
      (loop clock i c chans facts).trace.countP (emittedFor t) = 0 := by
  induction facts with
  | nil => intro i c chans _; simp [loop]
  | cons f rest ih =>
    intro i c chans ht
    simp only [loop]
    split
    · simp
    · rename_i c1 chans1 ev hstep
      have hrest := ih (i + 1) c1 chans1 (step_created_mono _ _ _ _ _ _ _ hstep t ht)
      have hev : emittedFor t (f, ev) = false := by
        cases ev with
        | emitted k p b =>
          have hk := step_emitted _ _ _ _ _ _ _ _ _ hstep
          have : k ≠ t := fun e => hk.2.1 (e ▸ ht)
          simp [emittedFor, this]
        | _ => simp [emittedFor]
      simp [List.countP_cons, hrest, hev]

theorem loop_emission_le_one (clock : Nat → Time) (t : PublicKey) (hw : t ≠ WrappedSol)
    (facts : List Info) :
    ∀ (i : Nat) (c : PairCollector) (chans : List PairChan),
      (loop clock i c chans facts).trace.countP (emittedFor t) ≤ 1 := by
  induction facts with
  | nil => intro i c chans; simp [loop]
  | cons f rest ih =>
    intro i c chans
    simp only [loop]
    split
    · simp
    · rename_i c1 chans1 ev hstep
      by_cases hev : emittedFor t (f, ev) = true
      · cases ev with
        | emitted k p b =>
          have hk := step_emitted _ _ _ _ _ _ _ _ _ hstep
          have hkt : k = t := by simpa [emittedFor] using hev
          subst hkt
          have hmem : k ∈ c1.createdPairs := hk.2.2.2.2.1 (hk.2.2.2.1.mpr hw)
          have hrest := loop_emission_zero clock k rest (i + 1) c1 chans1 hmem
          simp [List.countP_cons, hrest, hev]
        | _ => simp [emittedFor] at hev
      · have hrest := ih (i + 1) c1 chans1
        simp only [Bool.not_eq_true] at hev
        simp [List.countP_cons, hev]
        exact hrest

/-- Claim C2. For a token `t` other than the wrapped-native mint, over any finite sequence
of facts the emission step (readiness set, `t` inserted into `createdPairs`) is executed
for `t` at most once; and in any state with `t` in `createdPairs` a fact whose
`TokenAddress()` is `t` is dropped before the handlers, leaving the collector (`pairs` and
`createdPairs`) and the senders as they were. -/
theorem emitted_at_most_once (clock : Nat → Time) (pairPublishC : List PairChan)
    (facts : List Info) (t : PublicKey) (hw : t ≠ WrappedSol) :
    (Start clock pairPublishC facts).trace.countP (emittedFor t) ≤ 1 ∧
    ∀ (now : Time) (c : PairCollector) (chans : List PairChan) (f : Info),
      t ∈ c.createdPairs → f.TokenAddress = t →
      step now c chans f = .next c chans (.alreadyCreated t) := by
  refine ⟨loop_emission_le_one clock t hw facts 0 NewPairCollector pairPublishC, ?_⟩
  intro now c chans f ht hf
  simp [step, hf, ht]

/-- Witness of C2 on the happy path followed by a repeated token fact. -/
theorem emitted_at_most_once_witness :
    exToken ≠ WrappedSol ∧
    (Start exClock [] (exFacts ++ [.token exTokenInfo])).trace.countP (emittedFor exToken) ≤ 1 ∧
    step (exClock 4) { pairs := [], createdPairs := [exToken] } [] (.token exTokenInfo) =
      .next { pairs := [], createdPairs := [exToken] } [] (.alreadyCreated exToken) := by
  have h := emitted_at_most_once exClock [] (exFacts ++ [.token exTokenInfo]) exToken
    (by decide)
  exact ⟨by decide, h.1, h.2 (exClock 4) { pairs := [], createdPairs := [exToken] } []
    (.token exTokenInfo) (by decide) rfl⟩

/-! ## The join loop: emitted records are ready -/

theorem loop_trace_emitted (clock : Nat → Time) (facts : List Info) :
    ∀ (i : Nat) (c : PairCollector) (chans : List PairChan) (e : Info × LoopEvent)
      (k : PublicKey) (p : PairInfo) (b : Bool),
      e ∈ (loop clock i c chans facts).trace → e.2 = .emitted k p b →
      ∃ (j : Nat) (c0 c1 : PairCollector) (ch0 ch1 : List PairChan),
        step (clock j) c0 ch0 e.1 = .next c1 ch1 (.emitted k p b) := by
  induction facts with
  | nil => intro i c chans e k p b he; simp [loop] at he
  | cons f rest ih =>
    intro i c chans e k p b he hev
    simp only [loop] at he
    split at he
    · simp at he
    · rename_i c1 chans1 ev hstep
      simp only [List.mem_cons] at he
      rcases he with he | he
      · subst he
        simp only at hev
        subst hev
        exact ⟨i, c, c1, chans, chans1, hstep⟩
      · exact ih (i + 1) c1 chans1 e k p b he hev

/-- Claim C3. Over any finite sequence of facts, every record that reaches the emission
step satisfies `PairInfo.Ready()`: its MarketInfo, its observed AmmInfo and its TokenInfo
are each `Ready()`. -/
theorem emitted_record_ready (clock : Nat → Time) (pairPublishC : List PairChan)
    (facts : List Info) (e : Info × LoopEvent) (k : PublicKey) (p : PairInfo) (b : Bool)
    (he : e ∈ (Start clock pairPublishC facts).trace) (hev : e.2 = .emitted k p b) :
    p.Ready = true ∧ p.MarketInfo.Ready = true ∧ p.AmmInfo.Ready = true ∧
    p.TokenInfo.Ready = true := by
  obtain ⟨j, c0, c1, ch0, ch1, hstep⟩ :=
    loop_trace_emitted clock facts 0 NewPairCollector pairPublishC e k p b he hev
  obtain ⟨_, _, _, _, _, c2, key, pair, _, _, hr, hp⟩ := step_emitted _ _ _ _ _ _ _ _ _ hstep
  subst hp
  have hr2 : PairInfo.Ready { pair with Readiness := clock j } = true := hr
  refine ⟨hr2, ?_⟩
  simpa [PairInfo.Ready, Bool.and_eq_true, and_assoc] using hr

/-- Witness of C3 on the happy path: the emitted record is ready. -/
theorem emitted_record_ready_witness :
    (Info.amm exObserved, LoopEvent.emitted exToken exEmitted true) ∈
      (Start exClock [] exFacts).trace ∧
    exEmitted.Ready = true ∧ exEmitted.MarketInfo.Ready = true ∧
    exEmitted.AmmInfo.Ready = true ∧ exEmitted.TokenInfo.Ready = true :=
  ⟨by decide,
   emitted_record_ready exClock [] exFacts (Info.amm exObserved, LoopEvent.emitted exToken exEmitted true)
     exToken exEmitted true (by decide) rfl⟩

/-! ## The join loop: vault reconciliation -/

theorem handleAmmInfo_observed_ok (c c1 : PairCollector) (a : AmmInfo) (key : PublicKey)
    (pair : PairInfo) (hcalc : a.Calculated = false)
    (h : handleAmmInfo c a = .ok c1 key pair) :
    key = (if ammSwappedOf a then a.CurrencyAddress else a.TokenAddress) ∧
    ∃ pair0, PairMap.get c.pairs key = some pair0 ∧
      pair = reconcileVaults { pair0 with AmmInfo := a.oriented } ∧
      c1 = { c with pairs := c.pairs.set key pair } := by
  simp only [handleAmmInfo, hcalc, Bool.false_eq_true, ↓reduceIte] at h
  split at h
  · cases h
  · rename_i pair0 hget
    injection h with h1 h2 h3
    subst h1 h2 h3
    exact ⟨rfl, pair0, hget, rfl, rfl⟩

theorem reconcileVaults_calc (p : PairInfo) :
    (reconcileVaults p).CalculatedAmmInfo = p.CalculatedAmmInfo := by
  unfold reconcileVaults; split <;> rfl

theorem reconcileVaults_coin (p : PairInfo) :
    (reconcileVaults p).AmmInfo.PoolCoinTokenAccount =
      p.CalculatedAmmInfo.PoolCoinTokenAccount := by
  unfold reconcileVaults
  split
  · rfl
  · rename_i h
    simpa using h

theorem reconcileVaults_pc (p : PairInfo)
    (h : p.AmmInfo.PoolCoinTokenAccount ≠ p.CalculatedAmmInfo.PoolCoinTokenAccount ∨
      p.AmmInfo.PoolPcTokenAccount = p.CalculatedAmmInfo.PoolPcTokenAccount) :
    (reconcileVaults p).AmmInfo.PoolPcTokenAccount =
      p.CalculatedAmmInfo.PoolPcTokenAccount := by
  unfold reconcileVaults
  split
  · rfl
  · rename_i hc
    rcases h with h | h
    · exact absurd h hc
    · exact h

/-- The record a handler returns, by the kind of fact: a market fact gives a new record
without an observed AMM fact; a derived AMM fact and a token fact write one field of the
record stored under the fact's token address; an observed AMM fact leaves the coin vault
reconciled. -/
theorem handleInfo_shape (c c1 : PairCollector) (f : Info) (chans : List PairChan)
    (key : PublicKey) (pair : PairInfo) (h : handleInfo c f chans = .ok c1 key pair) :
    (∀ m, f = .market m → key = m.TokenAddress ∧ pair = PairInfo.ofMarket m) ∧
    (∀ a, f = .amm a → a.Calculated = true →
      key = a.TokenAddress ∧
        ∃ p0, PairMap.get c.pairs key = some p0 ∧ pair = { p0 with CalculatedAmmInfo := a }) ∧
    (∀ a, f = .amm a → a.Calculated = false →
      pair.AmmInfo.PoolCoinTokenAccount = pair.CalculatedAmmInfo.PoolCoinTokenAccount) ∧
    (∀ t, f = .token t →
      key = t.TokenAddress ∧
        ∃ p0, PairMap.get c.pairs key = some p0 ∧ pair = { p0 with TokenInfo := t }) := by
  refine ⟨?_, ?_, ?_, ?_⟩
  · intro m hf
    subst hf
    simp only [handleInfo, handleMarketInfo] at h
    split at h
    · cases h
    · injection h with h1 h2 h3
      exact ⟨h2.symm, h3.symm⟩
  · intro a hf hcalc
    subst hf
    simp only [handleInfo, handleAmmInfo, hcalc, ↓reduceIte] at h
    split at h
    · cases h
    · rename_i p0 hget
      injection h with h1 h2 h3
      subst h2 h3
      exact ⟨rfl, p0, hget, rfl⟩
  · intro a hf hcalc
    subst hf
    obtain ⟨_, pair0, _, hpair, _⟩ := handleAmmInfo_observed_ok c c1 a key pair hcalc h
    rw [hpair, reconcileVaults_coin, reconcileVaults_calc]
  · intro t hf
    subst hf
    simp only [handleInfo, handleTokenInfo] at h
    split at h
    · cases h
    · rename_i p0 hget
      injection h with h1 h2 h3
      subst h2 h3
      exact ⟨rfl, p0, hget, rfl⟩

/-- A handler returns a record stored under the fact's own token address, or one with the
coin vault reconciled. -/
theorem handleInfo_key_or_coin (c c1 : PairCollector) (f : Info) (chans : List PairChan)
    (key : PublicKey) (pair : PairInfo) (h : handleInfo c f chans = .ok c1 key pair) :
    key = f.TokenAddress ∨
      pair.AmmInfo.PoolCoinTokenAccount = pair.CalculatedAmmInfo.PoolCoinTokenAccount := by
  obtain ⟨h1, h2, h3, h4⟩ := handleInfo_shape c c1 f chans key pair h
  cases f with
  | market m => exact Or.inl (h1 m rfl).1
  | amm a =>
    by_cases hcalc : a.Calculated = true
    · exact Or.inl (h2 a rfl hcalc).1
    · exact Or.inr (h3 a rfl (by simpa using hcalc))
  | token t => exact Or.inl (h4 t rfl).1

theorem step_coinSettled (now : Time) (c c1 : PairCollector) (chans chans1 : List PairChan)
    (f : Info) (ev : LoopEvent) (hc : CoinSettled c)
    (h : step now c chans f = .next c1 chans1 ev) : CoinSettled c1 := by
  simp only [step] at h
  split at h
  · injection h with h1 _ _
    subst h1; exact hc
  · split at h
    · cases h
    · injection h with h1 _ _
      subst h1; exact hc
    · rename_i c2 key pair hh
      obtain ⟨_, hget, hother, _⟩ := handleInfo_ok c c2 f chans key pair hh
      have hkc := handleInfo_key_or_coin c c2 f chans key pair hh
      split at h
      · rename_i hz
        injection h with h1 _ _
        subst h1
        intro k p hk hg htx
        by_cases hkk : k = key
        · subst hkk
          rw [hget] at hg
          injection hg with hg
          subst hg
          rw [hz] at htx
          cases htx
        · rw [hother k hkk] at hg
          exact hc k p hk hg htx
      · have hrest : ∀ k p, k ≠ WrappedSol → k ≠ f.TokenAddress →
            PairMap.get c2.pairs k = some p → p.AmmInfo.TxID.IsZero = false →
            p.AmmInfo.PoolCoinTokenAccount = p.CalculatedAmmInfo.PoolCoinTokenAccount := by
          intro k p hk hkt hg htx
          by_cases hkk : k = key
          · subst hkk
            rw [hget] at hg
            injection hg with hg
            subst hg
            rcases hkc with hkc | hkc
            · exact absurd hkc hkt
            · exact hkc
          · rw [hother k hkk] at hg
            exact hc k p hk hg htx
        split at h
        · injection h with h1 _ _
          subst h1
          intro k p hk hg htx
          by_cases hkt : k = f.TokenAddress
          · subst hkt
            rw [PairMap.get_delete_self] at hg
            cases hg
          · rw [PairMap.get_delete_ne _ _ _ (Ne.symm hkt)] at hg
            exact hrest k p hk hkt hg htx
        · have hset : ∀ k p, k ≠ WrappedSol → k ≠ f.TokenAddress →
              PairMap.get (PairMap.set c2.pairs key { pair with Readiness := now }) k = some p →
              p.AmmInfo.TxID.IsZero = false →
              p.AmmInfo.PoolCoinTokenAccount = p.CalculatedAmmInfo.PoolCoinTokenAccount := by
            intro k p hk hkt hg htx
            by_cases hkk : key = k
            · subst hkk
              rw [PairMap.get_set_self] at hg
              injection hg with hg
              subst hg
              exact hrest key pair hk hkt hget htx
            · rw [PairMap.get_set_ne _ _ _ _ hkk] at hg
              exact hrest k p hk hkt hg htx
          split at h
          · injection h with h1 _ _
            subst h1
            intro k p hk hg htx
            by_cases hkt : k = f.TokenAddress
            · subst hkt
              rw [PairMap.get_delete_self] at hg
              cases hg
            · rw [PairMap.get_delete_ne _ _ _ (Ne.symm hkt)] at hg
              exact hset k p hk hkt hg htx
          · rename_i hw
            have hw2 : f.TokenAddress = WrappedSol := by simpa using hw
            injection h with h1 _ _
            subst h1
            intro k p hk hg htx
            exact hset k p hk (hw2 ▸ hk) hg htx

/-- Every emission event of a run from a settled state was produced by an iteration that
started in a settled state. -/
theorem loop_trace_emitted_settled (clock : Nat → Time) (facts : List Info) :
    ∀ (i : Nat) (c : PairCollector) (chans : List PairChan) (e : Info × LoopEvent)
      (k : PublicKey) (p : PairInfo) (b : Bool), CoinSettled c →
      e ∈ (loop clock i c chans facts).trace → e.2 = .emitted k p b →
      ∃ (j : Nat) (c0 c1 : PairCollector) (ch0 ch1 : List PairChan), CoinSettled c0 ∧
        step (clock j) c0 ch0 e.1 = .next c1 ch1 (.emitted k p b) := by
  induction facts with
  | nil => intro i c chans e k p b _ he; simp [loop] at he
  | cons f rest ih =>
    intro i c chans e k p b hc he hev
    simp only [loop] at he
    split at he
    · simp at he
    · rename_i c1 chans1 ev hstep
      simp only [List.mem_cons] at he
      rcases he with he | he
      · subst he
        simp only at hev
        subst hev
        exact ⟨i, c, c1, chans, chans1, hc, hstep⟩
      · exact ih (i + 1) c1 chans1 e k p b (step_coinSettled _ _ _ _ _ _ _ hc hstep) he hev

/-- Claim C4, amended. Over any finite sequence of facts, every record that reaches the
emission step in an iteration that handles an observed AmmInfo (`Calculated = false`), or
a TokenInfo for a token other than the wrapped-native mint, has its observed
`PoolCoinTokenAccount` equal to the derived one; no iteration that handles a MarketInfo
reaches the emission step. In an iteration that handles an observed AmmInfo the observed
`PoolPcTokenAccount` of the record equals the derived one exactly when the fact's coin
vault (after the orientation swap) differed from the derived coin vault, or the fact's pc
vault already equalled the derived pc vault. -/
theorem emitted_vaults_reconciled (clock : Nat → Time) (pairPublishC : List PairChan)
    (facts : List Info) (e : Info × LoopEvent) (k : PublicKey) (p : PairInfo) (b : Bool)
    (he : e ∈ (Start clock pairPublishC facts).trace) (hev : e.2 = .emitted k p b)
    (hd : ∀ a, e.1 = .amm a → a.Calculated = false)
    (ht : ∀ t, e.1 = .token t → t.Address ≠ WrappedSol) :
    p.AmmInfo.PoolCoinTokenAccount = p.CalculatedAmmInfo.PoolCoinTokenAccount ∧
    (∀ m, e.1 ≠ .market m) ∧
    (∀ a, e.1 = .amm a →
      (p.AmmInfo.PoolPcTokenAccount = p.CalculatedAmmInfo.PoolPcTokenAccount ↔
        a.oriented.PoolCoinTokenAccount ≠ p.CalculatedAmmInfo.PoolCoinTokenAccount ∨
          a.oriented.PoolPcTokenAccount = p.CalculatedAmmInfo.PoolPcTokenAccount)) := by
  have hinit : CoinSettled NewPairCollector := by
    intro k p _ hg; simp [NewPairCollector, PairMap.get] at hg
  obtain ⟨j, c0, c1, ch0, ch1, hc0, hstep⟩ :=
    loop_trace_emitted_settled clock facts 0 NewPairCollector pairPublishC e k p b hinit he hev
  obtain ⟨hk, _, _, _, _, c2, key, pair, hh, htx, _, hp⟩ :=
    step_emitted _ _ _ _ _ _ _ _ _ hstep
  obtain ⟨h1, _, h3, h4⟩ := handleInfo_shape c0 c2 e.1 ch0 key pair hh
  have hmk : ∀ m, e.1 ≠ .market m := by
    intro m hf
    have hpm := (h1 m hf).2
    rw [hpm] at htx
    simp [PairInfo.ofMarket, AmmInfo.zero, Signature.IsZero, Signature.zero] at htx
  subst hp
  refine ⟨?_, hmk, ?_⟩
  · show pair.AmmInfo.PoolCoinTokenAccount = pair.CalculatedAmmInfo.PoolCoinTokenAccount
    cases hf : e.1 with
    | market m => exact absurd hf (hmk m)
    | amm a => exact h3 a hf (hd a hf)
    | token t =>
      obtain ⟨hkey, p0, hget, hpair⟩ := h4 t hf
      subst hpair
      have hne : key ≠ WrappedSol := by
        rw [hkey]; exact ht t hf
      exact hc0 key p0 hne hget htx
  · intro a hf
    rw [hf] at hh
    obtain ⟨_, pair0, _, hpair, _⟩ :=
      handleAmmInfo_observed_ok c0 c2 a key pair (hd a hf) hh
    subst hpair
    show (reconcileVaults _).AmmInfo.PoolPcTokenAccount =
        (reconcileVaults _).CalculatedAmmInfo.PoolPcTokenAccount ↔
      a.oriented.PoolCoinTokenAccount ≠ (reconcileVaults _).CalculatedAmmInfo.PoolCoinTokenAccount ∨
        a.oriented.PoolPcTokenAccount = (reconcileVaults _).CalculatedAmmInfo.PoolPcTokenAccount
    rw [reconcileVaults_calc]
    unfold reconcileVaults
    split
    · rename_i hne
      simp only [true_iff]
      exact Or.inl hne
    · rename_i heq
      have heq2 : a.oriented.PoolCoinTokenAccount =
          pair0.CalculatedAmmInfo.PoolCoinTokenAccount := by simpa using heq
      simp [heq2]

/-- Witness of the amended C4: a token fact that completes a record kept in flight by a
swapped observed fact emits it with the coin vault reconciled; and an observed fact with
both vaults off is emitted with the derived vaults. -/
theorem emitted_vaults_reconciled_witness :
    ((Info.token exTokenInfo, LoopEvent.emitted exToken exEmitted true) ∈
       (Start exClock [] [.market exMarket, .amm exDerived, .amm exObserved.swappedOrientation,
         .token exTokenInfo]).trace ∧
     exTokenInfo.Address ≠ WrappedSol ∧
     exEmitted.AmmInfo.PoolCoinTokenAccount = exEmitted.CalculatedAmmInfo.PoolCoinTokenAccount) ∧
    ((Info.amm exObservedOff, LoopEvent.emitted exToken exEmitted true) ∈
       (Start exClock [] [.market exMarket, .amm exDerived, .token exTokenInfo,
         .amm exObservedOff]).trace ∧
     exObservedOff.Calculated = false ∧
     exEmitted.AmmInfo.PoolCoinTokenAccount = exEmitted.CalculatedAmmInfo.PoolCoinTokenAccount ∧
     exEmitted.AmmInfo.PoolPcTokenAccount = exEmitted.CalculatedAmmInfo.PoolPcTokenAccount) := by
  have h1 := emitted_vaults_reconciled exClock []
    [.market exMarket, .amm exDerived, .amm exObserved.swappedOrientation, .token exTokenInfo]
    (Info.token exTokenInfo, LoopEvent.emitted exToken exEmitted true) exToken exEmitted true
    (by decide!) rfl (by intro a h; cases h) (by intro t h; cases h; decide)
  have h2 := emitted_vaults_reconciled exClock []
    [.market exMarket, .amm exDerived, .token exTokenInfo, .amm exObservedOff]
    (Info.amm exObservedOff, LoopEvent.emitted exToken exEmitted true) exToken exEmitted true
    (by decide) rfl (by intro a h; cases h; rfl) (by intro t h; cases h)
  exact ⟨⟨by decide!, by decide, h1.1⟩,
    ⟨by decide, rfl, h2.1, (h2.2.2 exObservedOff rfl).mpr (Or.inl (by decide))⟩⟩

/-- Claim C4 as stated fails, and where. An observed fact whose coin vault matches the
derived one and whose pc vault does not is emitted with the unmatched pc vault, in the
iteration of the observed fact and also, when the fact came in swapped orientation before
the token fact, in the iteration of the token fact. A record kept in flight by a swapped
observed fact is emitted, when a second derived fact arrives, with a coin vault that
differs from the derived one. And a record under the wrapped-native mint, which is never
removed, is emitted with that differing coin vault again when a token fact for the
wrapped-native mint arrives. -/
theorem emitted_vaults_counterexample :
    ((Info.amm exObservedPcOff, LoopEvent.emitted exToken exEmittedPcOff true) ∈
      (Start exClock [] [.market exMarket, .amm exDerived, .token exTokenInfo,
        .amm exObservedPcOff]).trace ∧
     (Info.token exTokenInfo, LoopEvent.emitted exToken exEmittedPcOff true) ∈
      (Start exClock [] [.market exMarket, .amm exDerived,
        .amm exObservedPcOff.swappedOrientation, .token exTokenInfo]).trace ∧
     exEmittedPcOff.AmmInfo.PoolPcTokenAccount ≠
       exEmittedPcOff.CalculatedAmmInfo.PoolPcTokenAccount) ∧
    ((Info.amm exDerived2, LoopEvent.emitted exToken exEmittedLate true) ∈
      (Start exClock [] [.market exMarket, .amm exDerived, .token exTokenInfo,
        .amm exObserved.swappedOrientation, .amm exDerived2]).trace ∧
     exDerived2.Calculated = true ∧
     exEmittedLate.AmmInfo.PoolCoinTokenAccount ≠
       exEmittedLate.CalculatedAmmInfo.PoolCoinTokenAccount) ∧
    ((Info.token exTokenInfoSol, LoopEvent.emitted WrappedSol exEmittedSol false) ∈
      (Start exClock [] [.market exMarketBothSol, .amm exDerivedSol, .token exTokenInfoSol,
        .amm exObservedSol, .amm exDerivedSol2, .token exTokenInfoSol]).trace ∧
     exTokenInfoSol.Address = WrappedSol ∧
     exEmittedSol.AmmInfo.PoolCoinTokenAccount ≠
       exEmittedSol.CalculatedAmmInfo.PoolCoinTokenAccount) := by
  refine ⟨by decide!, by decide!, by decide!⟩

/-! ## Single iterations on known states -/

theorem reconcileVaults_market (p : PairInfo) :
    (reconcileVaults p).MarketInfo = p.MarketInfo := by
  unfold reconcileVaults; split <;> rfl

theorem reconcileVaults_token (p : PairInfo) :
    (reconcileVaults p).TokenInfo = p.TokenInfo := by
  unfold reconcileVaults; split <;> rfl

theorem reconcileVaults_txid (p : PairInfo) :
    (reconcileVaults p).AmmInfo.TxID = p.AmmInfo.TxID := by
  unfold reconcileVaults; split <;> rfl

/-- A market fact for a token with no record and not yet created opens a record and
waits. -/
theorem step_market_new (now : Time) (c : PairCollector) (chans : List PairChan)
    (m : MarketInfo) (hc : m.BaseMint ∉ c.createdPairs)
    (hg : PairMap.get c.pairs m.BaseMint = none) :
    step now c chans (.market m) =
      .next { c with pairs := c.pairs.set m.BaseMint (PairInfo.ofMarket m) } chans .waiting := by
  simp [step, handleInfo, handleMarketInfo, Info.TokenAddress, MarketInfo.TokenAddress, hc, hg,
    PairInfo.ofMarket, AmmInfo.zero, Signature.IsZero]

/-- A derived AMM fact is stored on the record; with no observed AMM yet the loop waits. -/
theorem step_derived_wait (now : Time) (c : PairCollector) (chans : List PairChan)
    (d : AmmInfo) (p : PairInfo) (hcalc : d.Calculated = true)
    (hc : d.TokenMintAddress ∉ c.createdPairs)
    (hg : PairMap.get c.pairs d.TokenMintAddress = some p)
    (hz : p.AmmInfo.TxID = Signature.zero) :
    step now c chans (.amm d) =
      .next { c with pairs := c.pairs.set d.TokenMintAddress { p with CalculatedAmmInfo := d } }
        chans .waiting := by
  simp [step, handleInfo, handleAmmInfo, Info.TokenAddress, AmmInfo.TokenAddress, hc, hg, hcalc,
    hz, Signature.IsZero]

/-- A token fact is stored on the record; with no observed AMM yet the loop waits. -/
theorem step_token_wait (now : Time) (c : PairCollector) (chans : List PairChan)
    (t : TokenInfo) (p : PairInfo) (hc : t.Address ∉ c.createdPairs)
    (hg : PairMap.get c.pairs t.Address = some p) (hz : p.AmmInfo.TxID = Signature.zero) :
    step now c chans (.token t) =
      .next { c with pairs := c.pairs.set t.Address { p with TokenInfo := t } } chans .waiting := by
  simp [step, handleInfo, handleTokenInfo, Info.TokenAddress, TokenInfo.TokenAddress, hc, hg, hz,
    Signature.IsZero]

/-- A fact other than a calculated AMM for a token with no record (and, for an observed AMM
in swapped orientation, no record under its currency address) is dropped with an error. -/
theorem step_observed_no_pair (now : Time) (c : PairCollector) (chans : List PairChan)
    (a : AmmInfo) (hcalc : a.Calculated = false) (hw : a.TokenMintAddress ≠ WrappedSol)
    (hc : a.TokenMintAddress ∉ c.createdPairs)
    (hg : PairMap.get c.pairs a.TokenMintAddress = none) :
    step now c chans (.amm a) =
      .next c chans (.handleError (.ammNoPair a.TokenMintAddress)) := by
  simp [step, handleInfo, handleAmmInfo, Info.TokenAddress, AmmInfo.TokenAddress, hc, hg, hcalc,
    hw]

theorem step_token_no_pair (now : Time) (c : PairCollector) (chans : List PairChan)
    (t : TokenInfo) (hc : t.Address ∉ c.createdPairs)
    (hg : PairMap.get c.pairs t.Address = none) :
    step now c chans (.token t) = .next c chans (.handleError (.tokenNoPair t.Address)) := by
  simp [step, handleInfo, handleTokenInfo, Info.TokenAddress, TokenInfo.TokenAddress, hc, hg]

/-- An observed AMM fact in the market's orientation that completes a ready record: the
emission step runs, the token is created and the record leaves the map. -/
theorem step_observed_emit (now : Time) (c : PairCollector) (chans : List PairChan)
    (a : AmmInfo) (p : PairInfo) (hcalc : a.Calculated = false)
    (hw : a.TokenMintAddress ≠ WrappedSol) (hc : a.TokenMintAddress ∉ c.createdPairs)
    (hg : PairMap.get c.pairs a.TokenMintAddress = some p) (htx : a.TxID ≠ Signature.zero)
    (hr : (reconcileVaults { p with AmmInfo := a.UpdateSwap false }).Ready = true) :
    step now c chans (.amm a) =
      .next
        { pairs := PairMap.delete
            (PairMap.set (PairMap.set c.pairs a.TokenMintAddress
                (reconcileVaults { p with AmmInfo := a.UpdateSwap false }))
              a.TokenMintAddress
              { reconcileVaults { p with AmmInfo := a.UpdateSwap false } with Readiness := now })
            a.TokenMintAddress,
          createdPairs := createdInsert c.createdPairs a.TokenMintAddress }
        chans
        (.emitted a.TokenMintAddress
          { reconcileVaults { p with AmmInfo := a.UpdateSwap false } with Readiness := now } true) := by
  have htx2 : (reconcileVaults { p with AmmInfo := a.UpdateSwap false }).AmmInfo.TxID ≠
      Signature.zero := by
    rw [reconcileVaults_txid]
    simpa [AmmInfo.UpdateSwap, AmmInfo.initializeCurrent] using htx
  simp [step, handleInfo, handleAmmInfo, Info.TokenAddress, AmmInfo.TokenAddress, hc, hg, hcalc,
    hw, Signature.IsZero, htx2, hr]

/-- An observed AMM fact in the market's orientation that leaves the record not ready:
the record is deleted. -/
theorem step_observed_not_ready (now : Time) (c : PairCollector) (chans : List PairChan)
    (a : AmmInfo) (p : PairInfo) (hcalc : a.Calculated = false)
    (hw : a.TokenMintAddress ≠ WrappedSol) (hc : a.TokenMintAddress ∉ c.createdPairs)
    (hg : PairMap.get c.pairs a.TokenMintAddress = some p) (htx : a.TxID ≠ Signature.zero)
    (hr : (reconcileVaults { p with AmmInfo := a.UpdateSwap false }).Ready = false) :
    step now c chans (.amm a) =
      .next
        { c with
          pairs := (PairMap.delete
            (PairMap.set c.pairs a.TokenMintAddress
              (reconcileVaults { p with AmmInfo := a.UpdateSwap false }))
            a.TokenMintAddress) }
        chans
        (.notReady a.TokenMintAddress
          (reconcileVaults { p with AmmInfo := a.UpdateSwap false })) := by
  have htx2 : (reconcileVaults { p with AmmInfo := a.UpdateSwap false }).AmmInfo.TxID ≠
      Signature.zero := by
    rw [reconcileVaults_txid]
    simpa [AmmInfo.UpdateSwap, AmmInfo.initializeCurrent] using htx
  simp [step, handleInfo, handleAmmInfo, Info.TokenAddress, AmmInfo.TokenAddress, hc, hg, hcalc,
    hw, Signature.IsZero, htx2, hr]

/-! ## The position of the observed AMM fact -/

/-- The fields `DeriveAmmInfoFromMarket` copies from the market and the flag it sets. -/
theorem DeriveAmmInfoFromMarket_ok
    (findProgramAddress : List (List Nat) → PublicKey → Option (PublicKey × Nat))
    (m : MarketInfo) (d : AmmInfo) (h : DeriveAmmInfoFromMarket findProgramAddress m = .ok d) :
    d.TokenMintAddress = m.BaseMint ∧ d.CurrencyAddress = m.QuoteMint ∧ d.Calculated = true ∧
    d.TxID = m.TxID ∧ d.TxTime = m.TxTime := by
  unfold DeriveAmmInfoFromMarket at h
  split at h
  · cases h
  · split at h
    · cases h
    · split at h
      · cases h
      · split at h
        · cases h
        · split at h
          · cases h
          · split at h
            · cases h
            · injection h with h
              subst h
              exact ⟨rfl, rfl, rfl, rfl, rfl⟩

/-- A ready observed fact stays ready through `UpdateSwap(false)`. -/
theorem UpdateSwap_false_ready (a : AmmInfo) (ha : a.Ready = true) :
    (a.UpdateSwap false).Ready = true := by
  simp only [AmmInfo.Ready, Bool.and_eq_true] at ha ⊢
  simp only [AmmInfo.UpdateSwap, AmmInfo.initializeCurrent]
  simp_all

/-- After the reconciliation against non-zero derived vaults a ready fact is still
ready. -/
theorem reconcileVaults_ready (p : PairInfo) (ha : p.AmmInfo.Ready = true)
    (hc : p.CalculatedAmmInfo.PoolCoinTokenAccount ≠ PublicKey.zero)
    (hp : p.CalculatedAmmInfo.PoolPcTokenAccount ≠ PublicKey.zero) :
    (reconcileVaults p).AmmInfo.Ready = true := by
  unfold reconcileVaults
  split
  · simp only [AmmInfo.Ready, Bool.and_eq_true] at ha ⊢
    simp_all
  · exact ha

theorem ready_txid (a : AmmInfo) (ha : a.Ready = true) : a.TxID ≠ Signature.zero := by
  simp only [AmmInfo.Ready, Bool.and_eq_true, decide_eq_true_eq] at ha
  exact ha.1.1.1.1.1.2

/-- Claim C5, amended. Let `m` be a ready market for a token `T` other than the
wrapped-native mint, `d` the AMM fact derived from `m` (with non-zero vault addresses),
`t` a ready token fact for `T` and `a` a ready observed AMM fact for `T`. When `a` arrives
after `[m, d, t]` the join loop completes without a fault and emits `T` exactly once
(`T` in `createdPairs`, nothing in flight). When `a` arrives before `m` the loop completes
without a fault, `a` is dropped with an error, the record stays in flight and `T` is never
emitted. When `a` arrives between `d` and `t` the loop completes without a fault, the
record is dropped as not ready and `T` is never emitted. -/
theorem observed_position_outcomes (clock : Nat → Time) (chans : List PairChan)
    (findProgramAddress : List (List Nat) → PublicKey → Option (PublicKey × Nat))
    (m : MarketInfo) (d : AmmInfo) (t : TokenInfo) (a : AmmInfo)
    (hm : m.Ready = true) (hw : m.BaseMint ≠ WrappedSol)
    (hd : DeriveAmmInfoFromMarket findProgramAddress m = .ok d)
    (hdc : d.PoolCoinTokenAccount ≠ PublicKey.zero) (hdp : d.PoolPcTokenAccount ≠ PublicKey.zero)
    (ht : t.Ready = true) (htT : t.Address = m.BaseMint)
    (ha : a.Ready = true) (hac : a.Calculated = false) (haT : a.TokenMintAddress = m.BaseMint) :
    ((Start clock chans [.market m, .amm d, .token t, .amm a]).crashed = false ∧
     (Start clock chans [.market m, .amm d, .token t, .amm a]).final =
       { pairs := [], createdPairs := [m.BaseMint] } ∧
     (Start clock chans [.market m, .amm d, .token t, .amm a]).trace.countP
       (emittedFor m.BaseMint) = 1) ∧
    ((Start clock chans [.amm a, .market m, .amm d, .token t]).crashed = false ∧
     (Start clock chans [.amm a, .market m, .amm d, .token t]).final =
       { pairs := [(m.BaseMint, { PairInfo.ofMarket m with CalculatedAmmInfo := d, TokenInfo := t })],
         createdPairs := [] } ∧
     (Start clock chans [.amm a, .market m, .amm d, .token t]).trace.countP
       (emittedFor m.BaseMint) = 0) ∧
    ((Start clock chans [.market m, .amm d, .amm a, .token t]).crashed = false ∧
     (Start clock chans [.market m, .amm d, .amm a, .token t]).final =
       { pairs := [], createdPairs := [] } ∧
     (Start clock chans [.market m, .amm d, .amm a, .token t]).trace.countP
       (emittedFor m.BaseMint) = 0) := by
  obtain ⟨hdT, _, hdcalc, _, _⟩ := DeriveAmmInfoFromMarket_ok findProgramAddress m d hd
  have hwa : a.TokenMintAddress ≠ WrappedSol := haT ▸ hw
  have mk : ∀ now, step now { pairs := [], createdPairs := [] } chans (.market m) =
      .next { pairs := [(m.BaseMint, PairInfo.ofMarket m)], createdPairs := [] } chans .waiting := by
    intro now
    have h := step_market_new now { pairs := [], createdPairs := [] } chans m (by simp)
      (by simp [PairMap.get])
    simpa only [PairMap.set] using h
  have dv : ∀ now, step now { pairs := [(m.BaseMint, PairInfo.ofMarket m)], createdPairs := [] }
      chans (.amm d) =
      .next { pairs := [(m.BaseMint, { PairInfo.ofMarket m with CalculatedAmmInfo := d })],
              createdPairs := [] } chans .waiting := by
    intro now
    have h := step_derived_wait now
      { pairs := [(m.BaseMint, PairInfo.ofMarket m)], createdPairs := [] } chans d
      (PairInfo.ofMarket m) hdcalc (by simp) (by simp [hdT, PairMap.get]) rfl
    simpa only [hdT, PairMap.set, ↓reduceIte] using h
  have tk : ∀ now, step now
      { pairs := [(m.BaseMint, { PairInfo.ofMarket m with CalculatedAmmInfo := d })],
        createdPairs := [] } chans (.token t) =
      .next { pairs := [(m.BaseMint,
                { PairInfo.ofMarket m with CalculatedAmmInfo := d, TokenInfo := t })],
              createdPairs := [] } chans .waiting := by
    intro now
    have h := step_token_wait now
      { pairs := [(m.BaseMint, { PairInfo.ofMarket m with CalculatedAmmInfo := d })],
        createdPairs := [] } chans t { PairInfo.ofMarket m with CalculatedAmmInfo := d }
      (by simp) (by simp [htT, PairMap.get]) rfl
    simpa only [htT, PairMap.set, ↓reduceIte] using h
  refine ⟨?_, ?_, ?_⟩
  · have hr : (reconcileVaults
        { ({ PairInfo.ofMarket m with CalculatedAmmInfo := d, TokenInfo := t } : PairInfo) with
          AmmInfo := a.UpdateSwap false }).Ready = true := by
      simp only [PairInfo.Ready, Bool.and_eq_true, reconcileVaults_market, reconcileVaults_token]
      exact ⟨⟨hm, reconcileVaults_ready _ (UpdateSwap_false_ready a ha) hdc hdp⟩, ht⟩
    have s4 := step_observed_emit (clock 3)
      { pairs := [(m.BaseMint,
          { PairInfo.ofMarket m with CalculatedAmmInfo := d, TokenInfo := t })],
        createdPairs := [] }
      chans a _ hac hwa (by simp) (by simp [haT, PairMap.get]) (ready_txid a ha) hr
    simp only [haT, PairMap.set, PairMap.delete, ↓reduceIte, createdInsert,
      List.not_mem_nil] at s4
    simp only [Start, loop, NewPairCollector, mk, dv, tk, s4]
    simp [emittedFor]
  · have s1 := step_observed_no_pair (clock 0) { pairs := [], createdPairs := [] } chans a hac
      hwa (by simp) (by simp [PairMap.get])
    simp only [Start, loop, NewPairCollector, mk, dv, tk, s1]
    simp [emittedFor]
  · have hr : (reconcileVaults
        { ({ PairInfo.ofMarket m with CalculatedAmmInfo := d } : PairInfo) with
          AmmInfo := a.UpdateSwap false }).Ready = false := by
      simp [PairInfo.Ready, reconcileVaults_token, PairInfo.ofMarket, TokenInfo.Ready,
        TokenInfo.zero]
    have s3 := step_observed_not_ready (clock 2)
      { pairs := [(m.BaseMint, { PairInfo.ofMarket m with CalculatedAmmInfo := d })],
        createdPairs := [] }
      chans a _ hac hwa (by simp) (by simp [haT, PairMap.get]) (ready_txid a ha) hr
    simp only [haT, PairMap.set, PairMap.delete, ↓reduceIte] at s3
    have s4 := step_token_no_pair (clock 3) { pairs := [], createdPairs := [] } chans t
      (by simp) (by simp [PairMap.get])
    simp only [Start, loop, NewPairCollector, mk, dv, s3, s4]
    simp [emittedFor]

/-- Witness of the amended C5 on the concrete facts. -/
theorem observed_position_outcomes_witness :
    (Start exClock [] [.market exMarket, .amm exDerived, .token exTokenInfo,
      .amm exObserved]).final = { pairs := [], createdPairs := [exToken] } ∧
    (Start exClock [] [.market exMarket, .amm exDerived, .token exTokenInfo,
      .amm exObserved]).trace.countP (emittedFor exToken) = 1 ∧
    (Start exClock [] [.amm exObserved, .market exMarket, .amm exDerived,
      .token exTokenInfo]).trace.countP (emittedFor exToken) = 0 ∧
    (Start exClock [] [.market exMarket, .amm exDerived, .amm exObserved,
      .token exTokenInfo]).final = { pairs := [], createdPairs := [] } := by
  have h := observed_position_outcomes exClock [] exFindProgramAddress exMarket exDerived
    exTokenInfo exObserved (by decide) (by decide) (by decide) (by decide) (by decide)
    (by decide) rfl (by decide) rfl rfl
  exact ⟨h.1.2.1, h.1.2.2, h.2.1.2.2, h.2.2.2.1⟩

/-- Claim C5 as stated fails. With the observed AMM fact between the derived AMM fact and
the token fact, the record is dropped as not ready and the token is never emitted. -/
theorem observed_between_counterexample :
    exMarket.Ready = true ∧ exMarket.BaseMint = exToken ∧ exToken ≠ WrappedSol ∧
    DeriveAmmInfoFromMarket exFindProgramAddress exMarket = .ok exDerived ∧
    exTokenInfo.Ready = true ∧ exTokenInfo.Address = exToken ∧
    exObserved.Ready = true ∧ exObserved.Calculated = false ∧
    exObserved.TokenAddress = exToken ∧
    exToken ∉ (Start exClock [] [.market exMarket, .amm exDerived, .amm exObserved,
      .token exTokenInfo]).final.createdPairs ∧
    (Start exClock [] [.market exMarket, .amm exDerived, .amm exObserved,
      .token exTokenInfo]).trace.countP (emittedFor exToken) = 0 := by
  decide

/-! ## The observed AMM fact in swapped orientation -/

/-- The float64 constant `0` is positive zero. -/
theorem Float64.zero_def : (0 : Float64) = Float64.finite 0 := by
  show Float64.finite ((0 : Nat) : ℚ) = Float64.finite 0
  simp

/-- The comparison `x != 0` holds for every value but the two zeros. -/
theorem Float64.ne_zero_iff (x : Float64) :
    x.ne 0 = true ↔ x ≠ 0 ∧ x ≠ Float64.negZero := by
  rw [Float64.zero_def]
  cases x <;> simp [Float64.ne, Float64.eq, Float64.isNaN, Float64.isZero]

/-- Undoing the swapped orientation: `UpdateSwap(true)` on the swapped fact is
`UpdateSwap(false)` on the fact with its price inverted twice. -/
theorem swappedOrientation_UpdateSwap (a : AmmInfo) :
    a.swappedOrientation.UpdateSwap true = a.reinverted.UpdateSwap false := by
  simp [AmmInfo.UpdateSwap, AmmInfo.swappedOrientation, AmmInfo.initializeCurrent,
    AmmInfo.reinverted]

/-- An observed AMM fact in swapped orientation that completes a ready record: the record
is found under the currency address, the emission step runs with the wrapped-native mint
as token address, so the token is not created and the record stays in the map. -/
theorem step_observed_swapped_emit (now : Time) (c : PairCollector) (chans : List PairChan)
    (a : AmmInfo) (p : PairInfo) (hcalc : a.Calculated = false)
    (hsw : a.TokenMintAddress = WrappedSol) (hc : WrappedSol ∉ c.createdPairs)
    (hg : PairMap.get c.pairs a.CurrencyAddress = some p) (htx : a.TxID ≠ Signature.zero)
    (hr : (reconcileVaults { p with AmmInfo := a.UpdateSwap true }).Ready = true) :
    step now c chans (.amm a) =
      .next
        { c with
          pairs := (PairMap.set
            (PairMap.set c.pairs a.CurrencyAddress
              (reconcileVaults { p with AmmInfo := a.UpdateSwap true }))
            a.CurrencyAddress
            { reconcileVaults { p with AmmInfo := a.UpdateSwap true } with Readiness := now }) }
        chans
        (.emitted WrappedSol
          { reconcileVaults { p with AmmInfo := a.UpdateSwap true } with Readiness := now }
          false) := by
  have htx2 : (reconcileVaults { p with AmmInfo := a.UpdateSwap true }).AmmInfo.TxID ≠
      Signature.zero := by
    rw [reconcileVaults_txid]
    simpa [AmmInfo.UpdateSwap, AmmInfo.initializeCurrent] using htx
  simp [step, handleInfo, handleAmmInfo, Info.TokenAddress, AmmInfo.TokenAddress, hc, hg, hcalc,
    hsw, Signature.IsZero, htx2, hr]

/-- An observed AMM fact in swapped orientation that leaves the record not ready: the
record is found under the currency address and written to; the loop then deletes the key
of the fact's token address, the wrapped-native mint. -/
theorem step_observed_swapped_not_ready (now : Time) (c : PairCollector)
    (chans : List PairChan) (a : AmmInfo) (p : PairInfo) (hcalc : a.Calculated = false)
    (hsw : a.TokenMintAddress = WrappedSol) (hc : WrappedSol ∉ c.createdPairs)
    (hg : PairMap.get c.pairs a.CurrencyAddress = some p) (htx : a.TxID ≠ Signature.zero)
    (hr : (reconcileVaults { p with AmmInfo := a.UpdateSwap true }).Ready = false) :
    step now c chans (.amm a) =
      .next
        { c with
          pairs := PairMap.delete
            (PairMap.set c.pairs a.CurrencyAddress
              (reconcileVaults { p with AmmInfo := a.UpdateSwap true }))
            WrappedSol }
        chans
        (.notReady WrappedSol (reconcileVaults { p with AmmInfo := a.UpdateSwap true })) := by
  have htx2 : (reconcileVaults { p with AmmInfo := a.UpdateSwap true }).AmmInfo.TxID ≠
      Signature.zero := by
    rw [reconcileVaults_txid]
    simpa [AmmInfo.UpdateSwap, AmmInfo.initializeCurrent] using htx
  simp [step, handleInfo, handleAmmInfo, Info.TokenAddress, AmmInfo.TokenAddress, hc, hg, hcalc,
    hsw, Signature.IsZero, htx2, hr]

/-- The record joined from the fact with its price inverted twice has the market, token
and derived-AMM contents of the record joined from the fact itself, and its observed-AMM
contents differ at most in the price of the two live infos. -/
theorem joined_reinverted (m : MarketInfo) (d : AmmInfo) (t : TokenInfo) (a : AmmInfo) :
    (joined m d t a.reinverted).MarketInfo = (joined m d t a).MarketInfo ∧
    (joined m d t a.reinverted).TokenInfo = (joined m d t a).TokenInfo ∧
    (joined m d t a.reinverted).CalculatedAmmInfo = (joined m d t a).CalculatedAmmInfo ∧
    (joined m d t a.reinverted).AmmInfo =
      { (joined m d t a).AmmInfo with
        InitialLiveInfo :=
          { a.InitialLiveInfo with Price := 1 / (1 / a.InitialLiveInfo.Price) }
        CurrentLiveInfo :=
          { a.InitialLiveInfo with Price := 1 / (1 / a.InitialLiveInfo.Price) } } ∧
    (1 / (1 / a.InitialLiveInfo.Price) = a.InitialLiveInfo.Price →
      joined m d t a.reinverted = joined m d t a) := by
  refine ⟨?_, ?_, ?_, ?_, ?_⟩
  · simp [joined, reconcileVaults_market]
  · simp [joined, reconcileVaults_token]
  · simp [joined, reconcileVaults_calc]
  · by_cases hc : a.PoolCoinTokenAccount = d.PoolCoinTokenAccount
    · simp [joined, reconcileVaults, AmmInfo.reinverted, AmmInfo.UpdateSwap,
        AmmInfo.initializeCurrent, hc]
    · simp [joined, reconcileVaults, AmmInfo.reinverted, AmmInfo.UpdateSwap,
        AmmInfo.initializeCurrent, hc]
  · intro h
    have hre : a.reinverted = a := by
      simp only [AmmInfo.reinverted, h]
    rw [hre]

/-- Readiness of the record joined from the fact with its price inverted twice: it is
ready exactly when the twice inverted price is not a zero. -/
theorem joined_reinverted_ready (m : MarketInfo) (d : AmmInfo) (t : TokenInfo) (a : AmmInfo)
    (hm : m.Ready = true) (ht : t.Ready = true) (ha : a.Ready = true)
    (hdc : d.PoolCoinTokenAccount ≠ PublicKey.zero)
    (hdp : d.PoolPcTokenAccount ≠ PublicKey.zero) :
    (joined m d t a.reinverted).Ready = (1 / (1 / a.InitialLiveInfo.Price)).ne 0 := by
  have hl : a.InitialLiveInfo.Ready = true := by
    simp only [AmmInfo.Ready, Bool.and_eq_true] at ha
    exact ha.1.2
  simp only [AmmLiveInfo.Ready, Bool.and_eq_true] at hl
  by_cases hz : (1 / (1 / a.InitialLiveInfo.Price)).ne 0 = true
  · rw [hz]
    have har : (a.reinverted.UpdateSwap false).Ready = true := by
      simp only [AmmInfo.Ready, Bool.and_eq_true] at ha ⊢
      simp only [AmmInfo.UpdateSwap, AmmInfo.initializeCurrent, AmmInfo.reinverted,
        AmmLiveInfo.Ready, Bool.and_eq_true]
      simp_all
    simp only [joined, PairInfo.Ready, Bool.and_eq_true, reconcileVaults_market,
      reconcileVaults_token]
    exact ⟨⟨hm, reconcileVaults_ready _ har hdc hdp⟩, ht⟩
  · have hz2 : (1 / (1 / a.InitialLiveInfo.Price)).ne 0 = false := by simpa using hz
    rw [hz2]
    have hp := (joined_reinverted m d t a).2.2.2.1
    simp only [PairInfo.Ready, hp, AmmInfo.Ready, AmmLiveInfo.Ready, hz2, Bool.and_false,
      Bool.false_and]

/-- Claim C6, amended. For a ready market `m`, a derived AMM fact `d` (non-zero vaults)
and a ready token fact `t` for a token `T` other than the wrapped-native mint, and a ready
observed AMM fact `a` for `T` against the wrapped-native mint with price `p`, let `a'` be
`a` in swapped orientation and `r` the float64 value `1.0 / (1.0 / p)`. The run on
`[m, d, t, a]` emits `T`: the token is inserted into `createdPairs` and the record removed
from `pairs`. The run on `[m, d, t, a']` stores `a` with the price `r` in place of `p`.
When `r` is not a zero, the emission step is reached with a record whose market, token and
derived-AMM contents are those of the run on `[m, d, t, a]` and whose observed-AMM contents
differ at most in the price (they are the same when `r = p`); when `r` is a zero the
record is not ready and no iteration reaches the emission step. In both cases the fact's
token address is the wrapped-native mint, so `T` is not inserted into `createdPairs` and
the record stays in `pairs`. Neither run faults. -/
theorem swapped_observed_outcome (clock : Nat → Time) (chans : List PairChan)
    (m : MarketInfo) (d : AmmInfo) (t : TokenInfo) (a : AmmInfo)
    (hm : m.Ready = true) (hw : m.BaseMint ≠ WrappedSol)
    (hdcalc : d.Calculated = true) (hdT : d.TokenMintAddress = m.BaseMint)
    (hdc : d.PoolCoinTokenAccount ≠ PublicKey.zero) (hdp : d.PoolPcTokenAccount ≠ PublicKey.zero)
    (ht : t.Ready = true) (htT : t.Address = m.BaseMint)
    (ha : a.Ready = true) (hac : a.Calculated = false) (haT : a.TokenMintAddress = m.BaseMint)
    (haC : a.CurrencyAddress = WrappedSol) :
    ((Start clock chans [.market m, .amm d, .token t, .amm a]).trace.getLast? =
       some (.amm a, .emitted m.BaseMint { joined m d t a with Readiness := clock 3 } true) ∧
     (Start clock chans [.market m, .amm d, .token t, .amm a]).final =
       { pairs := [], createdPairs := [m.BaseMint] } ∧
     (Start clock chans [.market m, .amm d, .token t, .amm a]).crashed = false) ∧
    ((1 / (1 / a.InitialLiveInfo.Price)).ne 0 = true →
      (Start clock chans [.market m, .amm d, .token t, .amm a.swappedOrientation]).trace.getLast? =
        some (.amm a.swappedOrientation,
          .emitted WrappedSol { joined m d t a.reinverted with Readiness := clock 3 } false) ∧
      (Start clock chans [.market m, .amm d, .token t, .amm a.swappedOrientation]).final =
        { pairs := [(m.BaseMint, { joined m d t a.reinverted with Readiness := clock 3 })],
          createdPairs := [] } ∧
      (Start clock chans [.market m, .amm d, .token t, .amm a.swappedOrientation]).crashed =
        false) ∧
    ((1 / (1 / a.InitialLiveInfo.Price)).ne 0 = false →
      (Start clock chans [.market m, .amm d, .token t, .amm a.swappedOrientation]).trace.map
          Prod.snd =
        [.waiting, .waiting, .waiting, .notReady WrappedSol (joined m d t a.reinverted)] ∧
      (Start clock chans [.market m, .amm d, .token t, .amm a.swappedOrientation]).final =
        { pairs := [(m.BaseMint, joined m d t a.reinverted)], createdPairs := [] } ∧
      (Start clock chans [.market m, .amm d, .token t, .amm a.swappedOrientation]).crashed =
        false) ∧
    ((joined m d t a.reinverted).MarketInfo = (joined m d t a).MarketInfo ∧
     (joined m d t a.reinverted).TokenInfo = (joined m d t a).TokenInfo ∧
     (joined m d t a.reinverted).CalculatedAmmInfo = (joined m d t a).CalculatedAmmInfo ∧
     (joined m d t a.reinverted).AmmInfo =
       { (joined m d t a).AmmInfo with
         InitialLiveInfo :=
           { a.InitialLiveInfo with Price := 1 / (1 / a.InitialLiveInfo.Price) }
         CurrentLiveInfo :=
           { a.InitialLiveInfo with Price := 1 / (1 / a.InitialLiveInfo.Price) } } ∧
     (1 / (1 / a.InitialLiveInfo.Price) = a.InitialLiveInfo.Price →
       joined m d t a.reinverted = joined m d t a)) := by
  have hwa : a.TokenMintAddress ≠ WrappedSol := haT ▸ hw
  have mk : ∀ now, step now { pairs := [], createdPairs := [] } chans (.market m) =
      .next { pairs := [(m.BaseMint, PairInfo.ofMarket m)], createdPairs := [] } chans .waiting := by
    intro now
    have h := step_market_new now { pairs := [], createdPairs := [] } chans m (by simp)
      (by simp [PairMap.get])
    simpa only [PairMap.set] using h
  have dv : ∀ now, step now { pairs := [(m.BaseMint, PairInfo.ofMarket m)], createdPairs := [] }
      chans (.amm d) =
      .next { pairs := [(m.BaseMint, { PairInfo.ofMarket m with CalculatedAmmInfo := d })],
              createdPairs := [] } chans .waiting := by
    intro now
    have h := step_derived_wait now
      { pairs := [(m.BaseMint, PairInfo.ofMarket m)], createdPairs := [] } chans d
      (PairInfo.ofMarket m) hdcalc (by simp) (by simp [hdT, PairMap.get]) rfl
    simpa only [hdT, PairMap.set, ↓reduceIte] using h
  have tk : ∀ now, step now
      { pairs := [(m.BaseMint, { PairInfo.ofMarket m with CalculatedAmmInfo := d })],
        createdPairs := [] } chans (.token t) =
      .next { pairs := [(m.BaseMint,
                { PairInfo.ofMarket m with CalculatedAmmInfo := d, TokenInfo := t })],
              createdPairs := [] } chans .waiting := by
    intro now
    have h := step_token_wait now
      { pairs := [(m.BaseMint, { PairInfo.ofMarket m with CalculatedAmmInfo := d })],
        createdPairs := [] } chans t { PairInfo.ofMarket m with CalculatedAmmInfo := d }
      (by simp) (by simp [htT, PairMap.get]) rfl
    simpa only [htT, PairMap.set, ↓reduceIte] using h
  have hj : ∀ x : AmmInfo, reconcileVaults
      { ({ PairInfo.ofMarket m with CalculatedAmmInfo := d, TokenInfo := t } : PairInfo) with
        AmmInfo := x.UpdateSwap false } = joined m d t x := fun _ => rfl
  have hr : (joined m d t a).Ready = true := by
    rw [← hj]
    simp only [PairInfo.Ready, Bool.and_eq_true, reconcileVaults_market, reconcileVaults_token]
    exact ⟨⟨hm, reconcileVaults_ready _ (UpdateSwap_false_ready a ha) hdc hdp⟩, ht⟩
  have hsT : a.swappedOrientation.TokenMintAddress = WrappedSol := haC
  have hsC : a.swappedOrientation.CurrencyAddress = m.BaseMint := haT
  have hrr := joined_reinverted_ready m d t a hm ht ha hdc hdp
  refine ⟨?_, ?_, ?_, joined_reinverted m d t a⟩
  · have s4 := step_observed_emit (clock 3)
      { pairs := [(m.BaseMint,
          { PairInfo.ofMarket m with CalculatedAmmInfo := d, TokenInfo := t })],
        createdPairs := [] }
      chans a _ hac hwa (by simp) (by simp [haT, PairMap.get]) (ready_txid a ha) (hj a ▸ hr)
    rw [hj] at s4
    simp only [haT, PairMap.set, PairMap.delete, ↓reduceIte, createdInsert,
      List.not_mem_nil] at s4
    simp only [Start, loop, NewPairCollector, mk, dv, tk, s4]
    simp
  · intro hz
    have s4s := step_observed_swapped_emit (clock 3)
      { pairs := [(m.BaseMint,
          { PairInfo.ofMarket m with CalculatedAmmInfo := d, TokenInfo := t })],
        createdPairs := [] }
      chans a.swappedOrientation
      { PairInfo.ofMarket m with CalculatedAmmInfo := d, TokenInfo := t }
      hac hsT (by simp) (by simp [hsC, PairMap.get]) (ready_txid a ha)
      (by rw [swappedOrientation_UpdateSwap, hj, hrr]; exact hz)
    rw [swappedOrientation_UpdateSwap, hj] at s4s
    simp only [hsC, PairMap.set, ↓reduceIte] at s4s
    simp only [Start, loop, NewPairCollector, mk, dv, tk, s4s]
    simp
  · intro hz
    have s4s := step_observed_swapped_not_ready (clock 3)
      { pairs := [(m.BaseMint,
          { PairInfo.ofMarket m with CalculatedAmmInfo := d, TokenInfo := t })],
        createdPairs := [] }
      chans a.swappedOrientation
      { PairInfo.ofMarket m with CalculatedAmmInfo := d, TokenInfo := t }
      hac hsT (by simp) (by simp [hsC, PairMap.get]) (ready_txid a ha)
      (by rw [swappedOrientation_UpdateSwap, hj, hrr]; exact hz)
    rw [swappedOrientation_UpdateSwap, hj] at s4s
    simp only [hsC, PairMap.set, PairMap.delete, hw, ↓reduceIte] at s4s
    simp only [Start, loop, NewPairCollector, mk, dv, tk, s4s]
    simp

/-- Witness of the amended C6 on the concrete facts, price 500: the twice inverted price
is 500 again, the swapped run reaches the emission step with the record of the run in the
market's orientation, and leaves it in `pairs`. -/
theorem swapped_observed_outcome_witness :
    (1 / (1 / exObserved.InitialLiveInfo.Price) : Float64) = 500 ∧
    (Start exClock [] [.market exMarket, .amm exDerived, .token exTokenInfo,
      .amm exObserved]).final = { pairs := [], createdPairs := [exToken] } ∧
    (Start exClock [] [.market exMarket, .amm exDerived, .token exTokenInfo,
      .amm exObserved.swappedOrientation]).trace.getLast? =
      some (.amm exObserved.swappedOrientation,
        .emitted WrappedSol
          { joined exMarket exDerived exTokenInfo exObserved.reinverted with
            Readiness := exClock 3 } false) ∧
    (Start exClock [] [.market exMarket, .amm exDerived, .token exTokenInfo,
      .amm exObserved.swappedOrientation]).final =
      { pairs := [(exToken,
          { joined exMarket exDerived exTokenInfo exObserved.reinverted with
            Readiness := exClock 3 })],
        createdPairs := [] } ∧
    joined exMarket exDerived exTokenInfo exObserved.reinverted =
      joined exMarket exDerived exTokenInfo exObserved := by
  have h := swapped_observed_outcome exClock [] exMarket exDerived exTokenInfo exObserved
    (by decide) (by decide) rfl rfl (by decide) (by decide) (by decide) rfl (by decide) rfl rfl
    rfl
  have h500 : (1 / (1 / exObserved.InitialLiveInfo.Price) : Float64) = 500 := by decide!
  have hne : ((1 / (1 / exObserved.InitialLiveInfo.Price) : Float64)).ne 0 = true := by
    rw [h500]; decide
  exact ⟨h500, h.1.2.1, (h.2.1 hne).1, (h.2.1 hne).2.1, h.2.2.2.2.2.2.2 h500⟩

/-- Claim C6 as stated fails, in three ways. With price 500 the run with the observed AMM
fact in swapped orientation does not end as the run with the fact in the market's
orientation: the token is not in `createdPairs` and its record is still in `pairs`. With
price 49 the record that reaches the emission step carries the price `49.00000000000001`.
With the smallest positive price the inverse is infinite and its inverse is zero: the
record is not ready and the swapped run reaches no emission step, while the run in the
market's orientation emits the token. -/
theorem swapped_observed_counterexample :
    (exObserved.swappedOrientation.TokenMintAddress = WrappedSol ∧
     exObserved.swappedOrientation.CurrencyAddress = exToken ∧
     (Start exClock [] [.market exMarket, .amm exDerived, .token exTokenInfo,
       .amm exObserved]).final = { pairs := [], createdPairs := [exToken] } ∧
     exToken ∉ (Start exClock [] [.market exMarket, .amm exDerived, .token exTokenInfo,
       .amm exObserved.swappedOrientation]).final.createdPairs ∧
     PairMap.get (Start exClock [] [.market exMarket, .amm exDerived, .token exTokenInfo,
       .amm exObserved.swappedOrientation]).final.pairs exToken ≠ none) ∧
    (exObserved49.Ready = true ∧
     (Start exClock [] [.market exMarket, .amm exDerived, .token exTokenInfo,
       .amm exObserved49]).trace.getLast? =
       some (.amm exObserved49, .emitted exToken
         { exEmitted with AmmInfo := exObserved49 } true) ∧
     (Start exClock [] [.market exMarket, .amm exDerived, .token exTokenInfo,
       .amm exObserved49.swappedOrientation]).trace.getLast? =
       some (.amm exObserved49.swappedOrientation, .emitted WrappedSol
         { exEmitted with
           AmmInfo :=
             { exObserved49 with
               InitialLiveInfo := { exLive49 with Price := exPrice49Up }
               CurrentLiveInfo := { exLive49 with Price := exPrice49Up } } } false) ∧
     exPrice49Up ≠ 49) ∧
    (exObservedTiny.Ready = true ∧
     (1 / exObservedTiny.InitialLiveInfo.Price : Float64) = Float64.posInf ∧
     (1 / (1 / exObservedTiny.InitialLiveInfo.Price) : Float64) = 0 ∧
     (Start exClock [] [.market exMarket, .amm exDerived, .token exTokenInfo,
       .amm exObservedTiny]).final = { pairs := [], createdPairs := [exToken] } ∧
     (Start exClock [] [.market exMarket, .amm exDerived, .token exTokenInfo,
       .amm exObservedTiny.swappedOrientation]).trace.map Prod.snd =
       [.waiting, .waiting, .waiting,
        .notReady WrappedSol
          { exEmitted with
            AmmInfo :=
              { exObservedTiny with
                InitialLiveInfo := { exLiveTiny with Price := 0 }
                CurrentLiveInfo := { exLiveTiny with Price := 0 } }
            Readiness := Time.zero }]) := by
  refine ⟨by decide!, by decide!, by decide!⟩

/-! ## The downstream senders -/

/-- An iteration never writes to a sender. -/
theorem step_senders (now : Time) (c c1 : PairCollector) (chans chans1 : List PairChan)
    (f : Info) (ev : LoopEvent) (h : step now c chans f = .next c1 chans1 ev) :
    chans1 = chans := by
  simp only [step] at h
  split at h
  · injection h with _ h2 _; exact h2.symm
  · split at h
    · cases h
    · injection h with _ h2 _; exact h2.symm
    · split at h
      · injection h with _ h2 _; exact h2.symm
      · split at h
        · injection h with _ h2 _; exact h2.symm
        · split at h
          · injection h with _ h2 _; exact h2.symm
          · injection h with _ h2 _; exact h2.symm

theorem loop_senders (clock : Nat → Time) (facts : List Info) :
    ∀ (i : Nat) (c : PairCollector) (chans : List PairChan),
      (loop clock i c chans facts).published = chans := by
  induction facts with
  | nil => intro i c chans; simp [loop]
  | cons f rest ih =>
    intro i c chans
    simp only [loop]
    split
    · rfl
    · rename_i c1 chans1 ev hstep
      have := step_senders _ _ _ _ _ _ _ hstep
      subst this
      exact ih (i + 1) c1 chans1

/-- The emission step with the token let into `createdPairs` removes the token's key from
`pairs`. -/
theorem step_emitted_removed (now : Time) (c c1 : PairCollector) (chans chans1 : List PairChan)
    (f : Info) (k : PublicKey) (p : PairInfo)
    (h : step now c chans f = .next c1 chans1 (.emitted k p true)) :
    PairMap.get c1.pairs k = none := by
  simp only [step] at h
  split at h
  · injection h with _ _ h3; cases h3
  · split at h
    · cases h
    · injection h with _ _ h3; cases h3
    · split at h
      · injection h with _ _ h3; cases h3
      · split at h
        · injection h with _ _ h3; cases h3
        · split at h
          · injection h with h1 h2 h3
            injection h3 with h4 h5 h6
            subst h1 h4
            exact PairMap.get_delete_self _ _
          · injection h with h1 h2 h3
            injection h3 with h4 h5 h6
            cases h6

/-- Claim C7, amended. For every list of downstream senders passed to `Start` and every
finite sequence of facts, the join loop sends nothing: the senders end as they began (the
list is handed to `handleInfo`, which does not use it). In the step in which a record
becomes ready with a token other than the wrapped-native mint, the token is inserted into
`createdPairs`, the record is removed from `pairs`, and the senders are left as they
were. -/
theorem senders_never_written (clock : Nat → Time) (pairPublishC : List PairChan)
    (facts : List Info) :
    (Start clock pairPublishC facts).published = pairPublishC ∧
    ∀ (now : Time) (c c1 : PairCollector) (chans chans1 : List PairChan) (f : Info)
      (k : PublicKey) (p : PairInfo) (b : Bool),
      step now c chans f = .next c1 chans1 (.emitted k p b) → k ≠ WrappedSol →
      chans1 = chans ∧ b = true ∧ k ∈ c1.createdPairs ∧ PairMap.get c1.pairs k = none ∧
      p.Ready = true ∧ p.Readiness = now := by
  refine ⟨loop_senders clock facts 0 NewPairCollector pairPublishC, ?_⟩
  intro now c c1 chans chans1 f k p b h hk
  obtain ⟨_, _, hch, hb, hmem, c2, key, pair, _, _, hr, hp⟩ :=
    step_emitted _ _ _ _ _ _ _ _ _ h
  have hb1 : b = true := hb.mpr hk
  subst hb1
  subst hp
  exact ⟨hch, rfl, hmem rfl, step_emitted_removed _ _ _ _ _ _ _ _ h, hr, rfl⟩

/-- Witness of the amended C7: the happy path with one sender, and its last step. -/
theorem senders_never_written_witness :
    (Start exClock [[]] exFacts).published = [[]] ∧
    step (exClock 3) exInFlight [[]] (.amm exObserved) =
      .next exCreated [[]] (.emitted exToken exEmitted true) ∧
    exToken ≠ WrappedSol ∧ exToken ∈ exCreated.createdPairs ∧
    PairMap.get exCreated.pairs exToken = none ∧ exEmitted.Ready = true := by
  have h := senders_never_written exClock [[]] exFacts
  have h2 := h.2 (exClock 3) exInFlight exCreated [[]] [[]] (.amm exObserved) exToken exEmitted
    true (by decide) (by decide)
  exact ⟨h.1, by decide, by decide, h2.2.2.1, h2.2.2.2.1, h2.2.2.2.2.1⟩

/-- Claim C7 as stated fails. With one downstream sender the happy path makes the record
ready and creates the token, and the sender has received nothing. -/
theorem senders_counterexample :
    (Info.amm exObserved, LoopEvent.emitted exToken exEmitted true) ∈
      (Start exClock [[]] exFacts).trace ∧
    exToken ≠ WrappedSol ∧
    exToken ∈ (Start exClock [[]] exFacts).final.createdPairs ∧
    (Start exClock [[]] exFacts).published = [[]] := by
  decide

/-! ## Facts without an in-flight record, and a market sent twice -/

/-- Claim C8 fails on the code. A derived AMM fact (`Calculated = true`) for a token with
no in-flight record does not return an error: `handleAmmInfo` writes through the nil
record pointer and the goroutine faults. The pipeline can deliver this: an observed AMM
fact between a market and its derived fact makes the loop drop the record, and the derived
fact that follows faults. A token fact and an observed AMM fact with no record do return
an error and leave the collector as it was. -/
theorem calculated_without_record_faults :
    exDerived.Calculated = true ∧
    PairMap.get NewPairCollector.pairs exDerived.TokenAddress = none ∧
    handleAmmInfo NewPairCollector exDerived = .fault ∧
    step (exClock 0) NewPairCollector [] (.amm exDerived) = .crash ∧
    (Start exClock [] [.market exMarket, .amm exObserved, .amm exDerived,
      .token exTokenInfo]).crashed = true ∧
    step (exClock 0) NewPairCollector [] (.token exTokenInfo) =
      .next NewPairCollector [] (.handleError (.tokenNoPair exToken)) ∧
    step (exClock 0) NewPairCollector [] (.amm exObserved) =
      .next NewPairCollector [] (.handleError (.ammNoPair exToken)) := by
  decide

/-- Claim C9. In a state in which token `k` has an in-flight record, `handleMarketInfo` on
any market whose `TokenAddress()` is `k` returns the error "pair already exists" and the
iteration leaves the collector (`pairs` with the stored record, `createdPairs`) and the
senders as they were; and the same market sent twice from the empty state yields the
state it yields sent once. -/
theorem market_twice_dropped (c : PairCollector) (m : MarketInfo) (p : PairInfo)
    (h : PairMap.get c.pairs m.TokenAddress = some p) :
    handleMarketInfo c m = .err (.pairAlreadyExists m.TokenAddress) ∧
    (∀ (now : Time) (chans : List PairChan),
      step now c chans (.market m) =
        .next c chans
          (if m.TokenAddress ∈ c.createdPairs then .alreadyCreated m.TokenAddress
           else .handleError (.pairAlreadyExists m.TokenAddress))) ∧
    ∀ (clock : Nat → Time) (chans : List PairChan),
      (Start clock chans [.market m, .market m]).final =
        (Start clock chans [.market m]).final ∧
      (Start clock chans [.market m, .market m]).final =
        { pairs := [(m.TokenAddress, PairInfo.ofMarket m)], createdPairs := [] } ∧
      (Start clock chans [.market m, .market m]).trace =
        [(.market m, .waiting),
         (.market m, .handleError (.pairAlreadyExists m.TokenAddress))] := by
  refine ⟨by simp [handleMarketInfo, h], ?_, ?_⟩
  · intro now chans
    by_cases hc : m.TokenAddress ∈ c.createdPairs
    · simp [step, Info.TokenAddress, hc]
    · simp [step, Info.TokenAddress, hc, handleInfo, handleMarketInfo, h]
  · intro clock chans
    have s1 := step_market_new (clock 0) { pairs := [], createdPairs := [] } chans m (by simp)
      (by simp [PairMap.get])
    simp only [PairMap.set] at s1
    have s2 : step (clock 1)
        { pairs := [(m.BaseMint, PairInfo.ofMarket m)], createdPairs := [] } chans (.market m) =
        .next { pairs := [(m.BaseMint, PairInfo.ofMarket m)], createdPairs := [] } chans
          (.handleError (.pairAlreadyExists m.BaseMint)) := by
      simp [step, Info.TokenAddress, handleInfo, handleMarketInfo, MarketInfo.TokenAddress,
        PairMap.get]
    simp only [Start, loop, NewPairCollector, s1, s2, MarketInfo.TokenAddress]
    simp

/-- Witness of C9: the state after one market fact, and the same market again. -/
theorem market_twice_dropped_witness :
    PairMap.get (Start exClock [] [.market exMarket]).final.pairs exMarket.TokenAddress =
      some (PairInfo.ofMarket exMarket) ∧
    handleMarketInfo (Start exClock [] [.market exMarket]).final exMarket =
      .err (.pairAlreadyExists exToken) ∧
    (Start exClock [] [.market exMarket, .market exMarket]).final =
      (Start exClock [] [.market exMarket]).final :=
  ⟨by decide,
   (market_twice_dropped (Start exClock [] [.market exMarket]).final exMarket
     (PairInfo.ofMarket exMarket) (by decide)).1,
   ((market_twice_dropped (Start exClock [] [.market exMarket]).final exMarket
     (PairInfo.ofMarket exMarket) (by decide)).2.2 exClock []).1⟩

/-! ## Market extraction: the mints -/

/-- The loop of `MarketInfoFromTransaction` is decided by the first qualifying
instruction. -/
theorem marketInfoLoop_eq
    (createProgramAddress : List (List Nat) → PublicKey → Option PublicKey) (now : Time)
    (rpcTx : GetTransactionResult) (tx : Transaction) (instrs : List CompiledInstruction) :
    marketInfoLoop createProgramAddress now rpcTx tx instrs =
      match instrs.find? (qualifies tx) with
      | none => .err "no InitializeMarket instruction found"
      | some instr => marketInfoFromInstruction createProgramAddress now rpcTx tx instr := by
  induction instrs with
  | nil => simp [marketInfoLoop]
  | cons instr rest ih =>
    simp only [marketInfoLoop, List.find?_cons, qualifies]
    cases hp : tx.Message.Program instr.ProgramIDIndex with
    | none => simpa using ih
    | some program =>
      by_cases h1 : program = OpenBookDex
      · by_cases h2 : instr.Accounts.length < 10
        · have h3 : ¬ 10 ≤ instr.Accounts.length := by omega
          simpa [h1, h2, h3] using ih
        · have h3 : 10 ≤ instr.Accounts.length := by omega
          simp [h1, h2, h3]
      · simpa [h1] using ih

/-- The mints of a market read off one instruction: the quote mint is the wrapped-native
mint, and the base mint is it too exactly when both mint accounts are. -/
theorem marketInfoFromInstruction_mints
    (createProgramAddress : List (List Nat) → PublicKey → Option PublicKey) (now : Time)
    (rpcTx : GetTransactionResult) (tx : Transaction) (instr : CompiledInstruction)
    (mi : MarketInfo)
    (h : marketInfoFromInstruction createProgramAddress now rpcTx tx instr = .ok mi) :
    mi.QuoteMint = WrappedSol ∧
    (mi.BaseMint = WrappedSol ↔
      safeIndex tx (instr.account 7) = WrappedSol ∧
      safeIndex tx (instr.account 8) = WrappedSol) := by
  unfold marketInfoFromInstruction at h
  split at h
  · cases h
  · rename_i hguard
    by_cases h7 : safeIndex tx (instr.account 7) = WrappedSol
    · simp only [h7, ↓reduceIte] at h
      split at h
      · cases h
      · split at h
        · cases h
        · split at h
          · cases h
          · split at h
            · cases h
            · split at h
              · cases h
              · split at h
                · cases h
                · injection h with h
                  subst h
                  simp [h7]
    · have h8 : safeIndex tx (instr.account 8) = WrappedSol := by
        by_contra h8
        exact hguard ⟨h8, h7⟩
      simp only [h7, ↓reduceIte] at h
      split at h
      · cases h
      · split at h
        · cases h
        · split at h
          · cases h
          · split at h
            · cases h
            · split at h
              · cases h
              · split at h
                · cases h
                · injection h with h
                  subst h
                  simp [h7, h8]

/-- Claim C10, amended. For every transaction on which `MarketInfoFromTransaction`
succeeds, the returned MarketInfo has `QuoteMint` equal to the wrapped-native mint, and
`BaseMint` differs from the wrapped-native mint unless both mint accounts (positions 7 and
8) of the first qualifying instruction are the wrapped-native mint, in which case
`BaseMint` is the wrapped-native mint as well: at least one of the two mints is the
wrapped-native mint, not exactly one. -/
theorem market_mints_normalised
    (createProgramAddress : List (List Nat) → PublicKey → Option PublicKey) (now : Time)
    (rpcTx : GetTransactionResult) (tx : Transaction) (mi : MarketInfo)
    (h : MarketInfoFromTransaction createProgramAddress now rpcTx tx = .ok mi) :
    ∃ instr, tx.Message.Instructions.find? (qualifies tx) = some instr ∧
      mi.QuoteMint = WrappedSol ∧
      (mi.BaseMint = WrappedSol ↔
        safeIndex tx (instr.account 7) = WrappedSol ∧
        safeIndex tx (instr.account 8) = WrappedSol) := by
  unfold MarketInfoFromTransaction at h
  rw [marketInfoLoop_eq] at h
  split at h
  · cases h
  · rename_i instr hfind
    exact ⟨instr, hfind, marketInfoFromInstruction_mints _ _ _ _ _ _ h⟩

/-- Witness of the amended C10: the concrete transaction yields `exMarket`. -/
theorem market_mints_normalised_witness :
    MarketInfoFromTransaction exCreateProgramAddress (Time.Unix 101) exRpcTx exTx =
      .ok exMarket ∧
    ∃ instr, exTx.Message.Instructions.find? (qualifies exTx) = some instr ∧
      exMarket.QuoteMint = WrappedSol ∧
      (exMarket.BaseMint = WrappedSol ↔
        safeIndex exTx (instr.account 7) = WrappedSol ∧
        safeIndex exTx (instr.account 8) = WrappedSol) :=
  ⟨by decide,
   market_mints_normalised exCreateProgramAddress (Time.Unix 101) exRpcTx exTx exMarket
     (by decide)⟩

/-- Claim C10 as stated fails. An instruction that names the wrapped-native mint in both
mint positions passes the currency test, and the extraction succeeds with `BaseMint` equal
to the wrapped-native mint. -/
theorem market_mints_counterexample :
    MarketInfoFromTransaction exCreateProgramAddress (Time.Unix 101) exRpcTx exTxBothSol =
      .ok exMarketBothSol ∧
    exMarketBothSol.QuoteMint = WrappedSol ∧ exMarketBothSol.BaseMint = WrappedSol := by
  decide

/-! ## Market extraction: faults -/

/-- Claim C11 fails on the code. The transactions have an account key and a signature and
their first qualifying instruction passes the currency test. With five bytes of
instruction data and no spare capacity, `instr.Data[23:31]` is out of range and the
extraction faults instead of returning an error. With the same five bytes sliced out of a
longer buffer the slice expression reads past the length and the extraction succeeds
instead of returning an error. With enough data and a nil block time,
`rpcTx.BlockTime.Time()` dereferences nil and the extraction faults. -/
theorem short_instruction_data_faults :
    exTxShortData.Message.AccountKeys ≠ [] ∧ exTxShortData.Signatures ≠ [] ∧
    exTxShortData.Message.Instructions.find? (qualifies exTxShortData) =
      some { ProgramIDIndex := 11, Accounts := [1, 2, 3, 4, 5, 6, 7, 8, 9, 10],
             Data := { elems := [0, 0, 0, 0, 0], spare := [] } } ∧
    MarketInfoFromTransaction exCreateProgramAddress (Time.Unix 101) exRpcTx exTxShortData =
      .fault ∧
    MarketInfoFromTransaction exCreateProgramAddress (Time.Unix 101) exRpcTx
      exTxShortDataSpare = .ok exMarket ∧
    MarketInfoFromTransaction exCreateProgramAddress (Time.Unix 101) exRpcTxNoBlockTime exTx =
      .fault := by
  decide

/-! ## The derived AMM fact -/

/-- Claim C12. For every MarketInfo `m` on which `DeriveAmmInfoFromMarket` succeeds, the
derived AmmInfo `a` has `TokenMintAddress = m.BaseMint`, `CurrencyAddress = m.QuoteMint`,
`Calculated = true`, `TxID = m.TxID` and `TxTime = m.TxTime`; hence
`a.TokenAddress() = m.TokenAddress()`, and in a collector that holds a record under the
market's token address `handleAmmInfo` stores `a` as the `CalculatedAmmInfo` of that
record. -/
theorem derived_fact_joins_market
    (findProgramAddress : List (List Nat) → PublicKey → Option (PublicKey × Nat))
    (m : MarketInfo) (a : AmmInfo)
    (h : DeriveAmmInfoFromMarket findProgramAddress m = .ok a) :
    a.TokenMintAddress = m.BaseMint ∧ a.CurrencyAddress = m.QuoteMint ∧
    a.Calculated = true ∧ a.TxID = m.TxID ∧ a.TxTime = m.TxTime ∧
    a.TokenAddress = m.TokenAddress ∧
    ∀ (c : PairCollector) (p : PairInfo), PairMap.get c.pairs m.TokenAddress = some p →
      handleAmmInfo c a =
        .ok { c with pairs := c.pairs.set m.TokenAddress { p with CalculatedAmmInfo := a } }
          m.TokenAddress { p with CalculatedAmmInfo := a } := by
  obtain ⟨h1, h2, h3, h4, h5⟩ := DeriveAmmInfoFromMarket_ok findProgramAddress m a h
  refine ⟨h1, h2, h3, h4, h5, h1, ?_⟩
  intro c p hg
  have hg2 : PairMap.get c.pairs m.BaseMint = some p := hg
  simp [handleAmmInfo, h3, AmmInfo.TokenAddress, MarketInfo.TokenAddress, hg2, h1]

/-- Witness of C12: the derivation of `exDerived` from `exMarket`, and the record opened
by `exMarket`. -/
theorem derived_fact_joins_market_witness :
    DeriveAmmInfoFromMarket exFindProgramAddress exMarket = .ok exDerived ∧
    exDerived.TokenMintAddress = exMarket.BaseMint ∧
    exDerived.CurrencyAddress = exMarket.QuoteMint ∧ exDerived.Calculated = true ∧
    exDerived.TxID = exMarket.TxID ∧ exDerived.TxTime = exMarket.TxTime ∧
    exDerived.TokenAddress = exMarket.TokenAddress ∧
    handleAmmInfo { pairs := [(exToken, PairInfo.ofMarket exMarket)], createdPairs := [] }
      exDerived =
      .ok { pairs := [(exToken, { PairInfo.ofMarket exMarket with
                                  CalculatedAmmInfo := exDerived })],
            createdPairs := [] }
        exToken { PairInfo.ofMarket exMarket with CalculatedAmmInfo := exDerived } := by
  have h := derived_fact_joins_market exFindProgramAddress exMarket exDerived (by decide)
  exact ⟨by decide, h.1, h.2.1, h.2.2.1, h.2.2.2.1, h.2.2.2.2.1, h.2.2.2.2.2.1,
    h.2.2.2.2.2.2 { pairs := [(exToken, PairInfo.ofMarket exMarket)], createdPairs := [] }
      (PairInfo.ofMarket exMarket) (by decide)⟩

/-! ## The orientation swap and the readiness of a live info -/

/-- Claim C13, amended. For every AmmInfo, applying `UpdateSwap(true)` twice restores
`TokenMintAddress`, `CurrencyAddress`, `PoolCoinTokenAccount`, `PoolPcTokenAccount`,
`InitialLiveInfo.PooledToken` and `InitialLiveInfo.PooledLamports`, and leaves
`InitialLiveInfo.Price` at the float64 value `1.0 / (1.0 / p)` of the original price `p`;
that value is `p` again whenever `p` is a zero, an infinity or NaN. -/
theorem UpdateSwap_twice (a : AmmInfo) :
    ((a.UpdateSwap true).UpdateSwap true).TokenMintAddress = a.TokenMintAddress ∧
    ((a.UpdateSwap true).UpdateSwap true).CurrencyAddress = a.CurrencyAddress ∧
    ((a.UpdateSwap true).UpdateSwap true).PoolCoinTokenAccount = a.PoolCoinTokenAccount ∧
    ((a.UpdateSwap true).UpdateSwap true).PoolPcTokenAccount = a.PoolPcTokenAccount ∧
    ((a.UpdateSwap true).UpdateSwap true).InitialLiveInfo.PooledToken =
      a.InitialLiveInfo.PooledToken ∧
    ((a.UpdateSwap true).UpdateSwap true).InitialLiveInfo.PooledLamports =
      a.InitialLiveInfo.PooledLamports ∧
    ((a.UpdateSwap true).UpdateSwap true).InitialLiveInfo.Price =
      1 / (1 / a.InitialLiveInfo.Price) ∧
    (a.InitialLiveInfo.Price.isZero = true ∨ a.InitialLiveInfo.Price.isInf = true ∨
        a.InitialLiveInfo.Price.isNaN = true →
      ((a.UpdateSwap true).UpdateSwap true).InitialLiveInfo.Price =
        a.InitialLiveInfo.Price) := by
  refine ⟨rfl, rfl, rfl, rfl, rfl, rfl, rfl, ?_⟩
  intro h
  show (1 : Float64) / (1 / a.InitialLiveInfo.Price) = a.InitialLiveInfo.Price
  generalize a.InitialLiveInfo.Price = p at h
  cases p with
  | finite q =>
    have hq : q = 0 := by simpa [Float64.isZero, Float64.isInf, Float64.isNaN] using h
    subst hq
    decide
  | negZero => decide
  | posInf => decide
  | negInf => decide
  | nan => decide

/-- Claim C13 as stated fails. The observed fact with price 49 is ready, its price is not
zero, and two applications of `UpdateSwap(true)` leave the price `49.00000000000001`; with
price 500 the price is restored. -/
theorem UpdateSwap_twice_counterexample :
    exObserved49.Ready = true ∧ exObserved49.InitialLiveInfo.Price = 49 ∧
    (1 / exObserved49.InitialLiveInfo.Price : Float64) =
      .finite (5882252574524729 / 288230376151711744) ∧
    ((exObserved49.UpdateSwap true).UpdateSwap true).InitialLiveInfo.Price = exPrice49Up ∧
    ((exObserved49.UpdateSwap true).UpdateSwap true).InitialLiveInfo.Price ≠
      exObserved49.InitialLiveInfo.Price ∧
    ((exObserved.UpdateSwap true).UpdateSwap true).InitialLiveInfo.Price =
      exObserved.InitialLiveInfo.Price := by
  decide!

/-- Claim C14, amended. `AmmLiveInfo.Ready()` returns true exactly when `UpdateTime`
differs from the zero value `time.Time{}` and `PooledLamports`, `PooledToken` and `Price`
are each different from zero, positive or negative; the sign is not looked at. -/
theorem AmmLiveInfo_Ready_iff (a : AmmLiveInfo) :
    a.Ready = true ↔
      a.UpdateTime ≠ Time.zero ∧ (a.PooledLamports ≠ 0 ∧ a.PooledLamports ≠ Float64.negZero) ∧
      (a.PooledToken ≠ 0 ∧ a.PooledToken ≠ Float64.negZero) ∧
      (a.Price ≠ 0 ∧ a.Price ≠ Float64.negZero) := by
  simp only [AmmLiveInfo.Ready, Bool.and_eq_true, decide_eq_true_eq, Float64.ne_zero_iff,
    and_assoc]

/-- Claim C14 as stated fails. A live info with a negative pooled native amount and a
negative price is ready. -/
theorem AmmLiveInfo_Ready_counterexample :
    exLiveNegative.PooledLamports = Float64.finite (-1000) ∧
    exLiveNegative.Price = Float64.finite (-500) ∧
    exLiveNegative.PooledLamports.signbit = true ∧ exLiveNegative.Price.signbit = true ∧
    exLiveNegative.Ready = true := by
  decide

/-! ## The order-book log classifier -/

/-- The meaning of `strContains`: the second string is a contiguous part of the first. -/
theorem strContains_iff (s substr : GoString) :
    strContains s substr = true ↔ substr <:+: s := by
  induction s with
  | nil =>
    cases substr <;> simp [strContains]
  | cons c s ih =>
    simp only [strContains, Bool.or_eq_true, ih, List.isPrefixOf_iff_prefix]
    constructor
    · rintro (h | h)
      · exact h.isInfix
      · exact h.trans (List.suffix_cons c s).isInfix
    · intro h
      rcases List.infix_cons_iff.mp h with h | h
      · exact Or.inl h
      · exact Or.inr h

/-- The loop of `analyzeOpenBookLogs` sends the candidate exactly when a system program
success line is directly followed by an order-book invoke line. -/
theorem openBookLoop_iff (lines : List GoString) :
    openBookLoop lines = true ↔ openBookHit lines := by
  induction lines with
  | nil => simp [openBookLoop, openBookHit]
  | cons curLog rest ih =>
    have hshift : openBookHit rest →
        openBookHit (curLog :: rest) := by
      rintro ⟨i, l1, l2, h1, h2, h3, h4⟩
      exact ⟨i + 1, l1, l2, by simpa using h1, h2, by simpa using h3, h4⟩
    have hback : ∀ (i : Nat) (l1 l2 : GoString), (curLog :: rest)[i + 1]? = some l1 →
        strContains l1 systemProgramSuccess = true → (curLog :: rest)[i + 1 + 1]? = some l2 →
        strContains l2 openBookInvoke = true → openBookHit rest := by
      intro i l1 l2 h1 h2 h3 h4
      exact ⟨i, l1, l2, by simpa using h1, h2, by simpa using h3, h4⟩
    by_cases hc : strContains curLog systemProgramSuccess = true
    · cases rest with
      | nil =>
        simp only [openBookLoop, hc, Bool.not_true, Bool.false_eq_true, ↓reduceIte]
        constructor
        · intro h; cases h
        · rintro ⟨i, l1, l2, _, _, h3, _⟩
          simp at h3
      | cons nextLog rest2 =>
        by_cases hn : strContains nextLog openBookInvoke = true
        · simp only [openBookLoop, hc, hn, Bool.not_true, Bool.false_eq_true, ↓reduceIte,
            true_iff]
          exact ⟨0, curLog, nextLog, by simp, hc, by simp, hn⟩
        · have hl : openBookLoop (curLog :: nextLog :: rest2) =
              openBookLoop (nextLog :: rest2) := by
            simp [openBookLoop, hc, hn]
          rw [hl, ih]
          constructor
          · exact hshift
          · rintro ⟨i, l1, l2, h1, h2, h3, h4⟩
            cases i with
            | zero =>
              simp at h3
              rw [h3] at hn
              exact absurd h4 hn
            | succ j => exact hback j l1 l2 h1 h2 h3 h4
    · have hl : openBookLoop (curLog :: rest) = openBookLoop rest := by
        simp [openBookLoop, hc]
      rw [hl, ih]
      constructor
      · exact hshift
      · rintro ⟨i, l1, l2, h1, h2, h3, h4⟩
        cases i with
        | zero =>
          simp at h1
          rw [h1] at hc
          exact absurd h2 hc
        | succ j => exact hback j l1 l2 h1 h2 h3 h4

/-- Claim C15. For every list of log lines `analyzeOpenBookLogs` sends at most one
TxCandidate, and it sends one, with the record's signature, the observer's connection name
and no payload, if and only if some line contains
"Program 11111111111111111111111111111111 success" and the line right after it exists and
contains "Program srmqPvymJeFKQ4zGQed1GFppgkRHL9kaELCbyksJtPX invoke [1]". -/
theorem openbook_classifier (connName : String) (log : LogResult) (st : ObserverState) :
    ((analyzeOpenBookLogs connName log st).txCandidatePublishC = st.txCandidatePublishC ∨
     (analyzeOpenBookLogs connName log st).txCandidatePublishC =
       st.txCandidatePublishC ++
         [{ Signature := log.Signature, clientName := connName, Metadata := none }]) ∧
    ((analyzeOpenBookLogs connName log st).txCandidatePublishC =
       st.txCandidatePublishC ++
         [{ Signature := log.Signature, clientName := connName, Metadata := none }] ↔
     openBookHit log.lines) := by
  by_cases h : openBookLoop log.lines = true
  · have hh := (openBookLoop_iff log.lines).mp h
    simp [analyzeOpenBookLogs, h, hh]
  · have hh : ¬ openBookHit log.lines := fun hh => h ((openBookLoop_iff log.lines).mpr hh)
    simp [analyzeOpenBookLogs, h, hh]

/-- Two evaluations of C15: a record with the two lines in sequence sends its candidate,
a record whose success line is the last line sends nothing. -/
theorem openbook_classifier_witness :
    (analyzeOpenBookLogs "node" exOpenBookLog exObserverState).txCandidatePublishC =
      [{ Signature := ⟨18⟩, clientName := "node", Metadata := none }] ∧
    openBookHit exOpenBookLog.lines ∧
    (analyzeOpenBookLogs "node" exOpenBookLogLast exObserverState).txCandidatePublishC = [] ∧
    ¬ openBookHit exOpenBookLogLast.lines := by
  have h1 := (openbook_classifier "node" exOpenBookLog exObserverState).2
  have h2 := (openbook_classifier "node" exOpenBookLogLast exObserverState).2
  have e1 : (analyzeOpenBookLogs "node" exOpenBookLog exObserverState).txCandidatePublishC =
      [{ Signature := ⟨18⟩, clientName := "node", Metadata := none }] := by decide
  have e2 : (analyzeOpenBookLogs "node" exOpenBookLogLast exObserverState).txCandidatePublishC =
      [] := by decide
  refine ⟨e1, h1.mp e1, e2, ?_⟩
  intro hh
  have := h2.mpr hh
  rw [e2] at this
  exact absurd this (by decide)

/-! ## The AMM log classifier -/

/-- The meaning of `stringsCut`: the text is split at the first occurrence of the
separator. -/
theorem stringsCut_some (s sep after : GoString) (h : stringsCut s sep = some after) :
    ∃ before, s = before ++ sep ++ after ∧
      ∀ b2 a2, s = b2 ++ sep ++ a2 → before.length ≤ b2.length := by
  induction s with
  | nil =>
    simp only [stringsCut] at h
    split at h
    · rename_i hs
      injection h with h
      subst h
      have : sep = [] := by simpa using hs
      subst this
      exact ⟨[], by simp, fun b2 a2 _ => Nat.zero_le _⟩
    · cases h
  | cons c s ih =>
    simp only [stringsCut] at h
    split at h
    · rename_i hp
      injection h with h
      subst h
      refine ⟨[], ?_, fun b2 a2 _ => Nat.zero_le _⟩
      have hp2 : sep <+: c :: s := List.isPrefixOf_iff_prefix.mp hp
      obtain ⟨t, ht⟩ := hp2
      rw [← ht]
      simp
    · rename_i hp
      obtain ⟨before, hb, hmin⟩ := ih h
      refine ⟨c :: before, by simp [hb], ?_⟩
      intro b2 a2 h2
      cases b2 with
      | nil =>
        exfalso
        apply hp
        apply List.isPrefixOf_iff_prefix.mpr
        exact ⟨a2, by simpa using h2.symm⟩
      | cons c2 b2 =>
        simp only [List.cons_append, List.cons.injEq] at h2
        have := hmin b2 a2 (by simpa using h2.2)
        simp only [List.length_cons]
        omega

/-- The loop of `analyzeRaydiumLogs` stops at the first line that passes its test. -/
theorem raydiumLoop_eq (jsonValid : GoString → Bool) (lines : List GoString) :
    raydiumLoop jsonValid lines =
      (lines.find? (raydiumQualifies jsonValid)).map fun line =>
        rewriteMetadata ((stringsCut line initializeInstruction2).getD []) := by
  induction lines with
  | nil => simp [raydiumLoop]
  | cons curLog rest ih =>
    simp only [raydiumLoop, List.find?_cons, raydiumQualifies]
    cases hc : stringsCut curLog initializeInstruction2 with
    | none => simpa using ih
    | some after =>
      by_cases hv : jsonValid (rewriteMetadata after) = true
      · simp [hv, hc]
      · simp only [Bool.not_eq_true] at hv
        simpa [hv] using ih

/-- A piece that ends in a colon contains a colon. -/
theorem strContains_colon_of_getLast (s : GoString) (h : s.getLast? = some ':') :
    strContains s [':'] = true := by
  rw [strContains_iff]
  have hs : [':'] <:+ s := by
    obtain ⟨l, hl⟩ : ∃ l, s = l ++ [':'] := by
      rcases List.eq_nil_or_concat s with h0 | ⟨l, b, hb⟩
      · subst h0; simp at h
      · subst hb
        simp at h
        exact ⟨l, by rw [h]; simp⟩
    exact ⟨l, hl.symm⟩
  exact hs.isInfix

/-- On a piece whose colons, if any, include its last byte, the loop body does what the
specification says of key tokens. -/
theorem quoteKey_eq_spec (s : GoString)
    (h : strContains s [':'] = true → s.getLast? = some ':') :
    quoteKey s = specQuoteKey s := by
  unfold quoteKey specQuoteKey
  by_cases hc : strContains s [':'] = true
  · simp [hc, h hc]
  · have hl : ¬ s.getLast? = some ':' := fun hl => hc (strContains_colon_of_getLast s hl)
    simp [hc, hl]

/-- Claim C16, amended. For every list of log lines `analyzeRaydiumLogs` sends at most
one TxCandidate: none when no line passes the test, and otherwise one whose payload is the
rewrite of the text after the first " InitializeInstruction2 " of the first line whose
rewrite is valid JSON. The rewrite splits on single spaces, replaces each piece that
contains a colon by the piece without its last byte, in double quotes, followed by a
colon, leaves every other piece as it is, and joins the pieces with single spaces; where
every piece that contains a colon ends in one, this is the rewrite of key tokens `k:` to
`"k":`. For the line suffix of the specification the payload is the one the
specification gives. -/
theorem raydium_classifier (jsonValid : GoString → Bool) (connName : String)
    (log : LogResult) (st : ObserverState) :
    (analyzeRaydiumLogs jsonValid connName log st).txCandidatePublishC =
      (match log.lines.find? (raydiumQualifies jsonValid) with
       | none => st.txCandidatePublishC
       | some line =>
         st.txCandidatePublishC ++
           [{ Signature := log.Signature, clientName := connName,
              Metadata := some
                (rewriteMetadata ((stringsCut line initializeInstruction2).getD [])) }]) ∧
    (analyzeRaydiumLogs jsonValid connName log st).txCandidatePublishC.length ≤
      st.txCandidatePublishC.length + 1 ∧
    rewriteMetadata exIdoSuffix = exIdoPayload ∧
    ∀ after : GoString,
      (∀ piece ∈ stringsSplit ' ' after,
        strContains piece [':'] = true → piece.getLast? = some ':') →
      rewriteMetadata after = specRewrite after := by
  have h1 : (analyzeRaydiumLogs jsonValid connName log st).txCandidatePublishC =
      (match log.lines.find? (raydiumQualifies jsonValid) with
       | none => st.txCandidatePublishC
       | some line =>
         st.txCandidatePublishC ++
           [{ Signature := log.Signature, clientName := connName,
              Metadata := some
                (rewriteMetadata ((stringsCut line initializeInstruction2).getD [])) }]) := by
    simp only [analyzeRaydiumLogs, raydiumLoop_eq]
    cases log.lines.find? (raydiumQualifies jsonValid) <;> rfl
  refine ⟨h1, ?_, by decide, ?_⟩
  · rw [h1]
    cases log.lines.find? (raydiumQualifies jsonValid) <;> simp
  · intro after h
    unfold rewriteMetadata specRewrite
    congr 1
    apply List.map_congr_left
    intro piece hp
    exact quoteKey_eq_spec piece (h piece hp)

/-- Witness of the amended C16: the pool initialisation log of the specification. -/
theorem raydium_classifier_witness :
    (analyzeRaydiumLogs exJsonValid "node" exRaydiumLog exObserverState).txCandidatePublishC =
      [{ Signature := ⟨28⟩, clientName := "node", Metadata := some exIdoPayload }] ∧
    (∀ piece ∈ stringsSplit ' ' exIdoSuffix,
      strContains piece [':'] = true → piece.getLast? = some ':') ∧
    rewriteMetadata exIdoSuffix = specRewrite exIdoSuffix := by
  have h := raydium_classifier exJsonValid "node" exRaydiumLog exObserverState
  have hp : ∀ piece ∈ stringsSplit ' ' exIdoSuffix,
      strContains piece [':'] = true → piece.getLast? = some ':' := by decide
  refine ⟨?_, hp, h.2.2.2 exIdoSuffix hp⟩
  rw [h.1]
  decide

/-- Claim C16 as stated fails. A piece with a colon that is not its last byte is not a key
token `k:`, yet the loop body rewrites it: the line suffix `{ a:b 1 }` is sent with the
payload `{ "a:": 1 }`, which is not the rewrite of key tokens (that leaves the suffix as
it is, and it is not valid JSON). -/
theorem raydium_classifier_counterexample :
    (analyzeRaydiumLogs exJsonValid "node" exRaydiumLogColon exObserverState).txCandidatePublishC =
      [{ Signature := ⟨48⟩, clientName := "node", Metadata := some exColonPayload }] ∧
    stringsCut ("Program log: initialize2: InitializeInstruction2 ".toList ++ exColonSuffix)
      initializeInstruction2 = some exColonSuffix ∧
    specRewrite exColonSuffix = exColonSuffix ∧ exColonPayload ≠ specRewrite exColonSuffix ∧
    exJsonValid (specRewrite exColonSuffix) = false := by
  decide

/-! ## The dispatch loop of the analyzer -/

/-- What the dispatch loop does from any set of seen signatures: the workers are in
delivery order, carry signatures not seen before and pairwise different, cover every
delivered signature that was not seen before, and each worker is the first delivered
candidate with its signature. -/
theorem dispatchLoop_spec (candidates : List TxCandidate) :
    ∀ a : TxAnalyzer,
      List.Sublist (dispatchLoop a candidates).2 candidates ∧
      (∀ w ∈ (dispatchLoop a candidates).2, w.Signature ∉ a.gotCandidates) ∧
      ((dispatchLoop a candidates).2.map TxCandidate.Signature).Nodup ∧
      (∀ c ∈ candidates, c.Signature ∈ a.gotCandidates ∨
        c.Signature ∈ (dispatchLoop a candidates).2.map TxCandidate.Signature) ∧
      (∀ w ∈ (dispatchLoop a candidates).2,
        candidates.find? (fun c => decide (c.Signature = w.Signature)) = some w) := by
  induction candidates with
  | nil => intro a; simp [dispatchLoop]
  | cons c rest ih =>
    intro a
    by_cases hc : c.Signature ∈ a.gotCandidates
    · obtain ⟨h1, h2, h3, h4, h5⟩ := ih a
      have hl : dispatchLoop a (c :: rest) = dispatchLoop a rest := by
        simp [dispatchLoop, hc]
      rw [hl]
      refine ⟨h1.cons c, h2, h3, ?_, ?_⟩
      · intro x hx
        rcases List.mem_cons.mp hx with hx | hx
        · subst hx; exact Or.inl hc
        · exact h4 x hx
      · intro w hw
        have hne : ¬ c.Signature = w.Signature := fun e => h2 w hw (e ▸ hc)
        simp only [List.find?_cons, hne, decide_False]
        exact h5 w hw
    · obtain ⟨h1, h2, h3, h4, h5⟩ := ih { gotCandidates := c.Signature :: a.gotCandidates }
      have hl : (dispatchLoop a (c :: rest)).2 =
          c :: (dispatchLoop { gotCandidates := c.Signature :: a.gotCandidates } rest).2 := by
        simp [dispatchLoop, hc]
      rw [hl]
      refine ⟨h1.cons₂ c, ?_, ?_, ?_, ?_⟩
      · intro w hw
        rcases List.mem_cons.mp hw with hw | hw
        · subst hw; exact hc
        · intro hin
          exact h2 w hw (List.mem_cons_of_mem _ hin)
      · simp only [List.map_cons, List.nodup_cons]
        refine ⟨?_, h3⟩
        intro hin
        obtain ⟨w, hw, hws⟩ := List.mem_map.mp hin
        exact h2 w hw (by rw [hws]; exact List.mem_cons_self _ _)
      · intro x hx
        rcases List.mem_cons.mp hx with hx | hx
        · subst hx; right; simp
        · rcases h4 x hx with h | h
          · rcases List.mem_cons.mp h with h | h
            · right; simp [h]
            · exact Or.inl h
          · right
            simp only [List.map_cons, List.mem_cons]
            exact Or.inr h
      · intro w hw
        rcases List.mem_cons.mp hw with hw | hw
        · subst hw; simp
        · have hne : ¬ c.Signature = w.Signature := by
            intro e
            exact h2 w hw (by rw [← e]; exact List.mem_cons_self _ _)
          simp only [List.find?_cons, hne, decide_False]
          exact h5 w hw

/-- The dispatch loop spawns the first occurrences, whatever was delivered before, as long
as the set of seen signatures is the set of signatures delivered before. -/
theorem dispatchLoop_firstOccurrences (candidates : List TxCandidate) :
    ∀ (a : TxAnalyzer) (earlier : List TxCandidate),
      (∀ s, s ∈ a.gotCandidates ↔ s ∈ earlier.map TxCandidate.Signature) →
      (dispatchLoop a candidates).2 = firstOccurrencesFrom earlier candidates := by
  induction candidates with
  | nil => intro a earlier _; simp [dispatchLoop, firstOccurrencesFrom]
  | cons c rest ih =>
    intro a earlier hseen
    have hany : (earlier.any fun e => decide (e.Signature = c.Signature)) = true ↔
        c.Signature ∈ a.gotCandidates := by
      rw [hseen]
      simp only [List.any_eq_true, decide_eq_true_eq, List.mem_map]
    by_cases hc : c.Signature ∈ a.gotCandidates
    · have hseen2 : ∀ s, s ∈ a.gotCandidates ↔
          s ∈ (earlier ++ [c]).map TxCandidate.Signature := by
        intro s
        rw [hseen]
        simp only [List.map_append, List.map_cons, List.map_nil, List.mem_append,
          List.mem_singleton]
        constructor
        · exact Or.inl
        · rintro (h | h)
          · exact h
          · rw [h]; exact (hseen _).mp hc
      simp only [dispatchLoop, hc, ↓reduceIte, firstOccurrencesFrom, hany.mpr hc]
      exact ih a (earlier ++ [c]) hseen2
    · have hseen2 : ∀ s, s ∈ c.Signature :: a.gotCandidates ↔
          s ∈ (earlier ++ [c]).map TxCandidate.Signature := by
        intro s
        have hs := hseen s
        simp only [List.mem_cons, List.map_append, List.map_cons, List.map_nil,
          List.mem_append, List.mem_singleton, List.not_mem_nil, or_false]
        rw [hs]
        exact Or.comm
      have hany2 : (earlier.any fun e => decide (e.Signature = c.Signature)) = false := by
        cases h : (earlier.any fun e => decide (e.Signature = c.Signature)) with
        | true => exact absurd (hany.mp h) hc
        | false => rfl
      simp only [dispatchLoop, hc, ↓reduceIte, firstOccurrencesFrom, hany2,
        Bool.false_eq_true]
      exact congrArg (c :: ·)
        (ih { gotCandidates := c.Signature :: a.gotCandidates } (earlier ++ [c]) hseen2)

/-- Claim C17. For every finite sequence of TxCandidates delivered to the dispatch loop
of a new analyzer, the workers spawned are exactly the candidates that are the first
occurrence of their signature, in delivery order: they form a subsequence of the
deliveries, no two workers share a signature, every delivered signature has a worker, and
each worker is the first delivered candidate with its signature, whatever its observer
and payload. -/
theorem one_worker_per_signature (candidates : List TxCandidate) :
    spawnedWorkers candidates = firstOccurrences candidates ∧
    List.Sublist (spawnedWorkers candidates) candidates ∧
    ((spawnedWorkers candidates).map TxCandidate.Signature).Nodup ∧
    (∀ c ∈ candidates, c.Signature ∈ (spawnedWorkers candidates).map TxCandidate.Signature) ∧
    (∀ w ∈ spawnedWorkers candidates,
      candidates.find? (fun c => decide (c.Signature = w.Signature)) = some w) := by
  obtain ⟨h1, _, h3, h4, h5⟩ := dispatchLoop_spec candidates NewTxAnalyzer
  refine ⟨dispatchLoop_firstOccurrences candidates NewTxAnalyzer [] (by simp [NewTxAnalyzer]),
    h1, h3, ?_, h5⟩
  intro c hc
  rcases h4 c hc with h | h
  · simp [NewTxAnalyzer] at h
  · exact h

/-- Witness of C17: five deliveries with two signatures spawn two workers, the first
delivery of each signature. -/
theorem one_worker_per_signature_witness :
    spawnedWorkers exCandidates =
      [{ Signature := ⟨18⟩, clientName := "node-a", Metadata := none },
       { Signature := ⟨28⟩, clientName := "node-a", Metadata := some exIdoPayload }] ∧
    spawnedWorkers exCandidates = firstOccurrences exCandidates ∧
    ((spawnedWorkers exCandidates).map TxCandidate.Signature).Nodup := by
  have h := one_worker_per_signature exCandidates
  exact ⟨by decide, h.1, h.2.2.1⟩

/-! ## The token fact of the market-init path -/

/-- Claim C18 fails on the code. When `getSignaturesForAddress` answers with an empty list
and no error, `TokenInfoFromMarket` returns `TokenInfo{}` with the nil error it was given,
for every market and whatever the supply call would answer; `analyzeInitMarket` then sees
no error and sends the zero TokenInfo on the fact channel after the market and the derived
AMM fact. With an error from the signatures call the same statement does return it and
no TokenInfo is sent. -/
theorem empty_signatures_return_nil_error :
    (∀ (market : MarketInfo) (supply : Option GetTokenSupplyResult)
        (supplyErr : Option String),
      TokenInfoFromMarket
        { sigs := [], sigsErr := none, supply := supply, supplyErr := supplyErr } market =
        .ok TokenInfo.zero) ∧
    analyzeInitMarket exCreateProgramAddress exFindProgramAddress (Time.Unix 101)
      exTokenRpcEmpty exRpcTx exTx [] =
      { infoPublishC := [.market exMarket, .amm exDerived, .token TokenInfo.zero],
        result := .ok () } ∧
    analyzeInitMarket exCreateProgramAddress exFindProgramAddress (Time.Unix 101)
      { exTokenRpcEmpty with sigsErr := some "rpc failed" } exRpcTx exTx [] =
      { infoPublishC := [.market exMarket, .amm exDerived],
        result := .err "error getting token info from market: rpc failed" } := by
  refine ⟨?_, by decide, by decide⟩
  intro market supply supplyErr
  simp [TokenInfoFromMarket]

/-! ## The round-robin client selection -/

theorem succ_mod_mod (a n : Nat) : (a % n + 1) % n = (a + 1) % n := by
  rw [Nat.add_mod, Nat.mod_mod, ← Nat.add_mod]

/-- Every index of the pool is reached from the current index by an offset below the pool
size. -/
theorem exists_offset (c idx n : Nat) (hc : c < n) (hi : idx < n) :
    ∃ j, j < n ∧ (c + j) % n = idx := by
  by_cases h : c ≤ idx
  · refine ⟨idx - c, by omega, ?_⟩
    have : c + (idx - c) = idx := by omega
    rw [this]
    exact Nat.mod_eq_of_lt hi
  · refine ⟨idx + n - c, by omega, ?_⟩
    have : c + (idx + n - c) = idx + n := by omega
    rw [this, Nat.add_mod_right]
    exact Nat.mod_eq_of_lt hi

/-- Offsets below the pool size reach different indices. -/
theorem offset_injective (c n x y : Nat) (hx : x < n) (hy : y < n)
    (h : (c + x) % n = (c + y) % n) : x = y := by
  have h1 : Nat.ModEq n (c + x) (c + y) := h
  have h2 : Nat.ModEq n x y := Nat.ModEq.add_left_cancel' c h1
  have h3 : x % n = y % n := h2
  rwa [Nat.mod_eq_of_lt hx, Nat.mod_eq_of_lt hy] at h3

/-- The loop of `Client` at a fixed clock reading, started `m` steps past the current
index with `d` more connections in cooldown ahead of a free one: it stops at the free
connection without sleeping. -/
theorem clientLoop_run (now : Time) (conns : List Connection) (c : Nat) :
    ∀ (d m : Nat),
      (∀ i, m ≤ i → i < m + d → inCooldown now conns ((c + i) % conns.length) = true) →
      inCooldown now conns ((c + (m + d)) % conns.length) = false →
      m + d < conns.length →
      ∀ (fuel : Nat), d < fuel → ∀ k : Nat,
        clientLoop (fun _ => now) conns fuel ((c + m) % conns.length) m k 0 =
          some (.ok ((c + (m + d)) % conns.length, 0)) := by
  intro d
  induction d with
  | zero =>
    intro m _ hfree hlt fuel hfuel k
    obtain ⟨f, rfl⟩ : ∃ f, fuel = f + 1 := ⟨fuel - 1, by omega⟩
    have hidx : (c + m) % conns.length < conns.length := Nat.mod_lt _ (by omega)
    simp only [Nat.add_zero] at hfree ⊢
    simp only [inCooldown, List.getElem?_eq_getElem hidx] at hfree
    simp [clientLoop, List.getElem?_eq_getElem hidx, hfree]
  | succ d ih =>
    intro m hcool hfree hlt fuel hfuel k
    obtain ⟨f, rfl⟩ : ∃ f, fuel = f + 1 := ⟨fuel - 1, by omega⟩
    have hidx : (c + m) % conns.length < conns.length := Nat.mod_lt _ (by omega)
    have hm := hcool m (Nat.le_refl m) (by omega)
    simp only [inCooldown, List.getElem?_eq_getElem hidx] at hm
    have hne : ¬ m = conns.length := by omega
    have hnext : ((c + m) % conns.length + 1) % conns.length = (c + (m + 1)) % conns.length := by
      rw [succ_mod_mod]; rfl
    have hrec := ih (m + 1)
      (fun i h1 h2 => hcool i (by omega) (by omega))
      (by
        have : m + 1 + d = m + (d + 1) := by omega
        rw [this]; exact hfree)
      (by omega) f (by omega) (k + 1)
    have hsum : m + 1 + d = m + (d + 1) := by omega
    rw [hsum] at hrec
    simp only [clientLoop, List.getElem?_eq_getElem hidx, hm, ↓reduceIte, hne, hnext]
    exact hrec

/-- With no connection in cooldown a call hands out the current connection and advances
the index by one. -/
theorem Client_free (now : Time) (r : RPCPool) (hc : r.CurrentIdx < r.Connections.length)
    (hfree : inCooldown now r.Connections r.CurrentIdx = false) (fuel : Nat) (hfuel : 1 ≤ fuel) :
    ∃ conn, r.Connections[r.CurrentIdx]? = some conn ∧
      r.Client (fun _ => now) fuel =
        some (.ok { pool := { r with CurrentIdx := (r.CurrentIdx + 1) % r.Connections.length },
                    index := r.CurrentIdx, client := conn.RPCClient, sleeps := 0 }) := by
  have hrun := clientLoop_run now r.Connections r.CurrentIdx 0 0 (fun i h1 h2 => by omega)
    (by simpa [Nat.mod_eq_of_lt hc] using hfree) (by omega) fuel (by omega) 0
  simp only [Nat.add_zero, Nat.mod_eq_of_lt hc] at hrun
  refine ⟨r.Connections[r.CurrentIdx], List.getElem?_eq_getElem hc, ?_⟩
  simp [RPCPool.Client, hrun, List.getElem?_eq_getElem hc]

/-- With no connection in cooldown, successive calls walk the pool cyclically from the
current index. -/
theorem clientCalls_free (now : Time) (fuel : Nat) (hfuel : 1 ≤ fuel) (count : Nat) :
    ∀ r : RPCPool, r.CurrentIdx < r.Connections.length →
      (∀ idx, idx < r.Connections.length → inCooldown now r.Connections idx = false) →
      clientCalls now fuel count r =
        some ((List.range count).map (fun i => (r.CurrentIdx + i) % r.Connections.length),
              { r with CurrentIdx := (r.CurrentIdx + count) % r.Connections.length }) := by
  induction count with
  | zero =>
    intro r hc _
    simp [clientCalls, Nat.mod_eq_of_lt hc]
  | succ count ih =>
    intro r hc hfree
    obtain ⟨conn, _, hcall⟩ := Client_free now r hc (hfree _ hc) fuel hfuel
    have hc2 : (r.CurrentIdx + 1) % r.Connections.length < r.Connections.length :=
      Nat.mod_lt _ (by omega)
    have hrec := ih { r with CurrentIdx := (r.CurrentIdx + 1) % r.Connections.length } hc2 hfree
    simp only [clientCalls, hcall, hrec]
    simp only [List.range_succ_eq_map, List.map_cons, List.map_map, Nat.add_zero,
      Nat.mod_eq_of_lt hc, Option.some.injEq, Prod.mk.injEq, List.cons.injEq, true_and]
    constructor
    · apply List.map_congr_left
      intro i _
      simp only [Function.comp]
      rw [Nat.mod_add_mod]
      congr 1
      omega
    · congr 1
      rw [Nat.mod_add_mod]
      congr 1
      omega

/-- Claim C19. For every pool of `n >= 1` endpoints, every `CurrentIdx = c < n` and every
fixed clock reading at which some endpoint is not in cooldown, there is a least offset
`j < n` whose endpoint `(c + j) mod n` is not in cooldown, and with fuel for `n` tests of
the loop condition `Client` returns: it hands out the endpoint at index `(c + j) mod n`,
whose `CooldownUntil` is not after the clock reading, sets `CurrentIdx` to
`(c + j + 1) mod n`, and never sleeps. With no endpoint in cooldown, `n` successive calls
hand out the indices `c, c + 1, ...` modulo `n`, each endpoint exactly once, and leave
`CurrentIdx` at `c`. -/
theorem client_round_robin (now : Time) (r : RPCPool) (hn : 1 ≤ r.Connections.length)
    (hc : r.CurrentIdx < r.Connections.length)
    (hfree : ∃ idx, idx < r.Connections.length ∧ inCooldown now r.Connections idx = false) :
    (∃ j, j < r.Connections.length ∧
      (∀ i, i < j →
        inCooldown now r.Connections ((r.CurrentIdx + i) % r.Connections.length) = true) ∧
      inCooldown now r.Connections ((r.CurrentIdx + j) % r.Connections.length) = false ∧
      ∀ fuel, r.Connections.length ≤ fuel →
        ∃ conn, r.Connections[(r.CurrentIdx + j) % r.Connections.length]? = some conn ∧
          conn.CooldownUntil.After now = false ∧
          r.Client (fun _ => now) fuel =
            some (.ok { pool := { r with
                                  CurrentIdx := (r.CurrentIdx + j + 1) % r.Connections.length },
                        index := (r.CurrentIdx + j) % r.Connections.length,
                        client := conn.RPCClient, sleeps := 0 })) ∧
    ((∀ idx, idx < r.Connections.length → inCooldown now r.Connections idx = false) →
      ∀ fuel, 1 ≤ fuel →
        clientCalls now fuel r.Connections.length r =
          some ((List.range r.Connections.length).map
                  (fun i => (r.CurrentIdx + i) % r.Connections.length), r) ∧
        ((List.range r.Connections.length).map
          (fun i => (r.CurrentIdx + i) % r.Connections.length)).Nodup ∧
        ∀ idx, idx < r.Connections.length →
          idx ∈ (List.range r.Connections.length).map
            (fun i => (r.CurrentIdx + i) % r.Connections.length)) := by
  constructor
  · obtain ⟨idx, hidx, hidxfree⟩ := hfree
    obtain ⟨j1, hj1, hj1eq⟩ := exists_offset r.CurrentIdx idx r.Connections.length hc hidx
    have hex : ∃ j, inCooldown now r.Connections
        ((r.CurrentIdx + j) % r.Connections.length) = false := ⟨j1, by rw [hj1eq]; exact hidxfree⟩
    refine ⟨Nat.find hex, ?_, ?_, Nat.find_spec hex, ?_⟩
    · exact lt_of_le_of_lt (Nat.find_min' hex (by rw [hj1eq]; exact hidxfree)) hj1
    · intro i hi
      have := Nat.find_min hex hi
      simpa using this
    · intro fuel hfuel
      have hjlt : Nat.find hex < r.Connections.length :=
        lt_of_le_of_lt (Nat.find_min' hex (by rw [hj1eq]; exact hidxfree)) hj1
      have hrun := clientLoop_run now r.Connections r.CurrentIdx (Nat.find hex) 0
        (fun i _ h2 => by
          have := Nat.find_min hex (show i < Nat.find hex by omega)
          simpa using this)
        (by simpa using Nat.find_spec hex) (by omega) fuel (by omega) 0
      simp only [Nat.add_zero, Nat.zero_add, Nat.mod_eq_of_lt hc] at hrun
      have hlt : (r.CurrentIdx + Nat.find hex) % r.Connections.length < r.Connections.length :=
        Nat.mod_lt _ (by omega)
      refine ⟨r.Connections[(r.CurrentIdx + Nat.find hex) % r.Connections.length],
        List.getElem?_eq_getElem hlt, ?_, ?_⟩
      · have := Nat.find_spec hex
        simpa [inCooldown, List.getElem?_eq_getElem hlt] using this
      · simp [RPCPool.Client, hrun, List.getElem?_eq_getElem hlt, succ_mod_mod]
  · intro hall fuel hfuel
    refine ⟨?_, ?_, ?_⟩
    · rw [clientCalls_free now fuel hfuel r.Connections.length r hc hall]
      simp [Nat.mod_eq_of_lt hc]
    · apply List.Nodup.map_on
      · intro x hx y hy h
        exact offset_injective r.CurrentIdx r.Connections.length x y
          (List.mem_range.mp hx) (List.mem_range.mp hy) h
      · exact List.nodup_range _
    · intro idx hidx
      obtain ⟨j, hj, hjeq⟩ := exists_offset r.CurrentIdx idx r.Connections.length hc hidx
      exact List.mem_map.mpr ⟨j, List.mem_range.mpr hj, hjeq⟩

/-- Witness of C19: three endpoints, the current one in cooldown, clock at Unix second
400; and the same endpoints with none in cooldown, called three times. -/
theorem client_round_robin_witness :
    exPool.Client (fun _ => Time.Unix 400) 3 =
      some (.ok { pool := { exPool with CurrentIdx := 0 }, index := 2, client := "http://c",
                  sleeps := 0 }) ∧
    inCooldown (Time.Unix 400) exPool.Connections 1 = true ∧
    inCooldown (Time.Unix 400) exPool.Connections 2 = false ∧
    clientCalls (Time.Unix 400) 1 3 exPoolFree = some ([1, 2, 0], exPoolFree) ∧
    (∃ j, j < exPool.Connections.length ∧
      inCooldown (Time.Unix 400) exPool.Connections
        ((exPool.CurrentIdx + j) % exPool.Connections.length) = false) := by
  have h := client_round_robin (Time.Unix 400) exPool (by decide) (by decide)
    ⟨2, by decide, by decide⟩
  have h2 := (client_round_robin (Time.Unix 400) exPoolFree (by decide) (by decide)
    ⟨0, by decide, by decide⟩).2 (by decide) 1 (by decide)
  obtain ⟨j, hj, _, hfree, _⟩ := h.1
  exact ⟨by decide, by decide, by decide, h2.1, j, hj, hfree⟩

/-! ## The construction of the pool -/

/-- When every probe either fails with an error or answers "ok", the loop of
`NewRPCClientPool` appends the healthy nodes in iteration order. -/
theorem newPoolLoop_healthy (probe : String → RPCNode → HealthProbe)
    (nodes : List (String × RPCNode)) :
    ∀ conns : List Connection,
      (∀ kv ∈ nodes, ∀ health, probe kv.1 kv.2 = .answered health → health = "ok") →
      newPoolLoop probe nodes conns =
        .ok (conns ++ (nodes.filter (answeredOk probe)).map healthyConnection) := by
  induction nodes with
  | nil => intro conns _; simp [newPoolLoop]
  | cons kv rest ih =>
    intro conns h
    obtain ⟨k, v⟩ := kv
    have hrest : ∀ kv ∈ rest, ∀ health, probe kv.1 kv.2 = .answered health → health = "ok" :=
      fun kv hkv => h kv (List.mem_cons_of_mem _ hkv)
    cases hp : probe k v with
    | failed reason =>
      simp only [newPoolLoop, hp, List.filter_cons, answeredOk]
      rw [ih conns hrest]
      simp [answeredOk]
    | answered health =>
      have hok : health = "ok" := h (k, v) (List.mem_cons_self _ _) health hp
      subst hok
      simp only [newPoolLoop, hp, List.filter_cons, answeredOk]
      rw [ih _ hrest]
      simp [answeredOk, healthyConnection]

/-- When every probe either fails with an error or answers "ok", `NewRPCClientPool`
returns the pool of the healthy nodes, or an error when there is none. -/
theorem NewRPCClientPool_healthy (probe : String → RPCNode → HealthProbe)
    (nodes : List (String × RPCNode))
    (h : ∀ kv ∈ nodes, ∀ health, probe kv.1 kv.2 = .answered health → health = "ok") :
    NewRPCClientPool probe nodes =
      if nodes.filter (answeredOk probe) = [] then .err "No healthy connections found!"
      else .ok { Connections := (nodes.filter (answeredOk probe)).map healthyConnection,
                 CurrentIdx := 0 } := by
  simp only [NewRPCClientPool, newPoolLoop_healthy probe nodes [] h, List.nil_append,
    List.length_map]
  by_cases he : nodes.filter (answeredOk probe) = []
  · simp [he]
  · have : (nodes.filter (answeredOk probe)).length ≠ 0 := by
      intro hl
      exact he (List.length_eq_zero.mp hl)
    simp [he, this]

/-- Claim C20 fails on the code. A node whose probe returns the string "behind" with a nil
error enters the branch for unhealthy nodes, whose first statement `reason := err.Error()`
dereferences the nil error: `NewRPCClientPool` faults instead of removing the node. When
the same node fails with an error it is removed and the pool holds the node that answered
"ok", named by its map key; when every probe fails with an error the result is the
error. -/
theorem unhealthy_answer_faults :
    exProbeBehind "b"
      { Name := "", RPCEndpoint := "http://b", WSEndpoint := "ws://b", Observer := false } =
      .answered "behind" ∧
    NewRPCClientPool exProbeBehind exNodes = .fault ∧
    NewRPCClientPool exProbeError exNodes =
      .ok { Connections :=
              [{ ConnectionInfo := { Name := "a", RPCEndpoint := "http://a",
                                     WSEndpoint := "ws://a", Observer := true },
                 RPCClient := "http://a", CooldownUntil := Time.zero }],
            CurrentIdx := 0 } ∧
    NewRPCClientPool (fun _ _ => .failed "timeout") exNodes =
      .err "No healthy connections found!" := by
  decide

/-! ## Market extraction: the accounts -/

/-- A non-zero result of `safeIndex` is the account key at the index. -/
theorem safeIndex_ne_zero (tx : Transaction) (idx : Nat)
    (h : safeIndex tx idx ≠ PublicKey.zero) :
    tx.Message.AccountKeys.get? idx = some (safeIndex tx idx) := by
  unfold safeIndex at h ⊢
  split at h
  · exact absurd rfl h
  · rename_i hlt
    rw [if_neg hlt]
    cases hg : tx.Message.AccountKeys.get? idx with
    | none => rw [hg] at h; exact absurd rfl h
    | some k => rfl

/-- In an instruction with more than `i` accounts, `account i` is the index in position
`i`. -/
theorem account_of_lt (instr : CompiledInstruction) (i : Nat) (h : i < instr.Accounts.length) :
    instr.Accounts.get? i = some (instr.account i) := by
  unfold CompiledInstruction.account
  cases hg : instr.Accounts.get? i with
  | none =>
    rw [List.get?_eq_none] at hg
    omega
  | some k => rfl

/-- A non-zero result of `safeIndex` on the index in position `i` is the account key the
instruction names there. -/
theorem accountKey_of_safeIndex (tx : Transaction) (instr : CompiledInstruction) (i : Nat)
    (hlen : i < instr.Accounts.length)
    (h : safeIndex tx (instr.account i) ≠ PublicKey.zero) :
    accountKey tx instr i = some (safeIndex tx (instr.account i)) := by
  unfold accountKey
  rw [account_of_lt instr i hlen]
  exact safeIndex_ne_zero tx _ h

/-- The fields of a market read off one instruction, in terms of the results of
`safeIndex`; the market is ready. -/
theorem marketInfoFromInstruction_fields
    (createProgramAddress : List (List Nat) → PublicKey → Option PublicKey) (now : Time)
    (rpcTx : GetTransactionResult) (tx : Transaction) (instr : CompiledInstruction)
    (mi : MarketInfo)
    (h : marketInfoFromInstruction createProgramAddress now rpcTx tx instr = .ok mi) :
    mi.Ready = true ∧
    mi.Market = safeIndex tx (instr.account 0) ∧
    mi.EventQueue = safeIndex tx (instr.account 2) ∧
    mi.Bids = safeIndex tx (instr.account 3) ∧
    mi.Asks = safeIndex tx (instr.account 4) ∧
    (mi.Swapped = true ↔ safeIndex tx (instr.account 7) = WrappedSol) ∧
    (mi.Swapped = true →
      mi.BaseMint = safeIndex tx (instr.account 8) ∧
      mi.QuoteMint = safeIndex tx (instr.account 7) ∧
      mi.BaseVault = safeIndex tx (instr.account 6) ∧
      mi.QuoteVault = safeIndex tx (instr.account 5)) ∧
    (mi.Swapped = false →
      mi.BaseMint = safeIndex tx (instr.account 7) ∧
      mi.QuoteMint = safeIndex tx (instr.account 8) ∧
      mi.BaseVault = safeIndex tx (instr.account 5) ∧
      mi.QuoteVault = safeIndex tx (instr.account 6)) := by
  unfold marketInfoFromInstruction at h
  split at h
  · cases h
  · by_cases h7 : safeIndex tx (instr.account 7) = WrappedSol
    · simp only [h7, ↓reduceIte] at h
      split at h
      · cases h
      · split at h
        · cases h
        · split at h
          · cases h
          · split at h
            · cases h
            · split at h
              · cases h
              · split at h
                · cases h
                · rename_i hready
                  injection h with h
                  subst h
                  refine ⟨by simpa using hready, ?_⟩
                  simp [h7]
    · simp only [h7, ↓reduceIte] at h
      split at h
      · cases h
      · split at h
        · cases h
        · split at h
          · cases h
          · split at h
            · cases h
            · split at h
              · cases h
              · split at h
                · cases h
                · rename_i hready
                  injection h with h
                  subst h
                  refine ⟨by simpa using hready, ?_⟩
                  simp [h7, NewMarketInfo, MarketInfo.zero]

/-- A qualifying instruction has at least ten accounts. -/
theorem qualifies_length (tx : Transaction) (instr : CompiledInstruction)
    (h : qualifies tx instr = true) : 10 ≤ instr.Accounts.length := by
  unfold qualifies at h
  split at h
  · cases h
  · simp only [Bool.and_eq_true, decide_eq_true_eq] at h
    exact h.2

/-- The parts of `MarketInfo.Ready` that say the account fields are not the zero key. -/
theorem MarketInfo_Ready_accounts (m : MarketInfo) (h : m.Ready = true) :
    m.Market ≠ PublicKey.zero ∧ m.EventQueue ≠ PublicKey.zero ∧ m.Bids ≠ PublicKey.zero ∧
    m.Asks ≠ PublicKey.zero ∧ m.BaseMint ≠ PublicKey.zero ∧ m.QuoteMint ≠ PublicKey.zero ∧
    m.BaseVault ≠ PublicKey.zero ∧ m.QuoteVault ≠ PublicKey.zero := by
  simp only [MarketInfo.Ready, Bool.and_eq_true, decide_eq_true_eq] at h
  obtain ⟨⟨⟨⟨⟨⟨⟨⟨⟨⟨⟨⟨⟨h1, h2⟩, h3⟩, h4⟩, h5⟩, h6⟩, h7⟩, h8⟩, _⟩, _⟩, _⟩, _⟩, _⟩, _⟩ := h
  exact ⟨h1, h2, h3, h4, h5, h6, h7, h8⟩

/-- Claim C21. For every transaction on which `MarketInfoFromTransaction` succeeds, with
`a0..a9` the account keys the first qualifying instruction names: `Market = a0`,
`EventQueue = a2`, `Bids = a3`, `Asks = a4`; `Swapped` is true if and only if `a7` is the
wrapped-native mint; when `Swapped`, `BaseMint = a8`, `QuoteMint = a7`, `BaseVault = a6`,
`QuoteVault = a5`; otherwise `BaseMint = a7`, `QuoteMint = a8`, `BaseVault = a5`,
`QuoteVault = a6`. -/
theorem market_accounts_mapped
    (createProgramAddress : List (List Nat) → PublicKey → Option PublicKey) (now : Time)
    (rpcTx : GetTransactionResult) (tx : Transaction) (mi : MarketInfo)
    (h : MarketInfoFromTransaction createProgramAddress now rpcTx tx = .ok mi) :
    ∃ instr, tx.Message.Instructions.find? (qualifies tx) = some instr ∧
      accountKey tx instr 0 = some mi.Market ∧
      accountKey tx instr 2 = some mi.EventQueue ∧
      accountKey tx instr 3 = some mi.Bids ∧
      accountKey tx instr 4 = some mi.Asks ∧
      (mi.Swapped = true ↔ accountKey tx instr 7 = some WrappedSol) ∧
      (mi.Swapped = true →
        accountKey tx instr 8 = some mi.BaseMint ∧
        accountKey tx instr 7 = some mi.QuoteMint ∧
        accountKey tx instr 6 = some mi.BaseVault ∧
        accountKey tx instr 5 = some mi.QuoteVault) ∧
      (mi.Swapped = false →
        accountKey tx instr 7 = some mi.BaseMint ∧
        accountKey tx instr 8 = some mi.QuoteMint ∧
        accountKey tx instr 5 = some mi.BaseVault ∧
        accountKey tx instr 6 = some mi.QuoteVault) := by
  unfold MarketInfoFromTransaction at h
  rw [marketInfoLoop_eq] at h
  split at h
  · cases h
  · rename_i instr hfind
    have hlen := qualifies_length tx instr (List.find?_some hfind)
    obtain ⟨hready, h0, h2, h3, h4, hsw, hswT, hswF⟩ :=
      marketInfoFromInstruction_fields _ _ _ _ _ _ h
    obtain ⟨n0, n2, n3, n4, nbm, nqm, nbv, nqv⟩ := MarketInfo_Ready_accounts mi hready
    have key : ∀ (i : Nat) (k : PublicKey), i < 10 → k ≠ PublicKey.zero →
        k = safeIndex tx (instr.account i) → accountKey tx instr i = some k := by
      intro i k hi hk he
      rw [he]
      exact accountKey_of_safeIndex tx instr i (by omega) (he ▸ hk)
    have h5678 : accountKey tx instr 5 = some (safeIndex tx (instr.account 5)) ∧
        accountKey tx instr 6 = some (safeIndex tx (instr.account 6)) ∧
        accountKey tx instr 7 = some (safeIndex tx (instr.account 7)) ∧
        accountKey tx instr 8 = some (safeIndex tx (instr.account 8)) := by
      cases hs : mi.Swapped with
      | true =>
        obtain ⟨e1, e2, e3, e4⟩ := hswT hs
        exact ⟨e4 ▸ key 5 _ (by omega) nqv e4, e3 ▸ key 6 _ (by omega) nbv e3,
          e2 ▸ key 7 _ (by omega) nqm e2, e1 ▸ key 8 _ (by omega) nbm e1⟩
      | false =>
        obtain ⟨e1, e2, e3, e4⟩ := hswF hs
        exact ⟨e3 ▸ key 5 _ (by omega) nbv e3, e4 ▸ key 6 _ (by omega) nqv e4,
          e1 ▸ key 7 _ (by omega) nbm e1, e2 ▸ key 8 _ (by omega) nqm e2⟩
    obtain ⟨k5, k6, k7, k8⟩ := h5678
    refine ⟨instr, hfind, key 0 _ (by omega) n0 h0, key 2 _ (by omega) n2 h2,
      key 3 _ (by omega) n3 h3, key 4 _ (by omega) n4 h4, ?_, ?_, ?_⟩
    · rw [hsw, k7]
      constructor
      · intro e; rw [e]
      · intro e; exact Option.some.inj e
    · intro hs
      obtain ⟨e1, e2, e3, e4⟩ := hswT hs
      exact ⟨by rw [k8, e1], by rw [k7, e2], by rw [k6, e3], by rw [k5, e4]⟩
    · intro hs
      obtain ⟨e1, e2, e3, e4⟩ := hswF hs
      exact ⟨by rw [k7, e1], by rw [k8, e2], by rw [k5, e3], by rw [k6, e4]⟩

/-- Witness of C21: the concrete transaction in canonical order yields `exMarket`, not
swapped; with the mints in reverse order it yields the same mints, the vaults exchanged
and `Swapped` set. -/
theorem market_accounts_mapped_witness :
    MarketInfoFromTransaction exCreateProgramAddress (Time.Unix 101) exRpcTx exTx =
      .ok exMarket ∧
    MarketInfoFromTransaction exCreateProgramAddress (Time.Unix 101) exRpcTx exTxSwapped =
      .ok exMarketSwapped ∧
    exMarketSwapped.Swapped = true ∧ exMarketSwapped.BaseMint = exToken ∧
    exMarketSwapped.QuoteMint = WrappedSol ∧
    (∃ instr, exTxSwapped.Message.Instructions.find? (qualifies exTxSwapped) = some instr ∧
      accountKey exTxSwapped instr 7 = some WrappedSol ∧
      accountKey exTxSwapped instr 8 = some exToken ∧
      accountKey exTxSwapped instr 6 = some exMarketSwapped.BaseVault ∧
      accountKey exTxSwapped instr 5 = some exMarketSwapped.QuoteVault) := by
  obtain ⟨instr, hfind, _, _, _, _, hsw, hswT, _⟩ :=
    market_accounts_mapped exCreateProgramAddress (Time.Unix 101) exRpcTx exTxSwapped
      exMarketSwapped (by decide)
  have hs : exMarketSwapped.Swapped = true := rfl
  obtain ⟨e1, _, e3, e4⟩ := hswT hs
  exact ⟨by decide, by decide, rfl, rfl, rfl, instr, hfind, hsw.mp hs, e1, e3, e4⟩

/-! ## The orientation swap: all pairs or none -/

/-- Claim C22. For every observed AmmInfo (`Calculated = false`): `UpdateSwap(false)`
leaves `TokenMintAddress`, `CurrencyAddress`, `PoolCoinTokenAccount`,
`PoolPcTokenAccount` and the pooled token and pooled native amounts of `InitialLiveInfo`
(and its price) as they are; `UpdateSwap(true)` exchanges all three pairs (token and
currency mint, coin and pc vault, pooled token and pooled native) and inverts the price;
so no call exchanges some pairs and not others. In both cases `CurrentLiveInfo` equals
`InitialLiveInfo` afterwards. The collector passes `ammSwapped = true` exactly when the
fact's token address is the wrapped-native mint, and stores the result on the record. -/
theorem UpdateSwap_all_or_none (a : AmmInfo) (hcalc : a.Calculated = false) :
    ((a.UpdateSwap false).TokenMintAddress = a.TokenMintAddress ∧
     (a.UpdateSwap false).CurrencyAddress = a.CurrencyAddress ∧
     (a.UpdateSwap false).PoolCoinTokenAccount = a.PoolCoinTokenAccount ∧
     (a.UpdateSwap false).PoolPcTokenAccount = a.PoolPcTokenAccount ∧
     (a.UpdateSwap false).InitialLiveInfo.PooledToken = a.InitialLiveInfo.PooledToken ∧
     (a.UpdateSwap false).InitialLiveInfo.PooledLamports = a.InitialLiveInfo.PooledLamports ∧
     (a.UpdateSwap false).InitialLiveInfo.Price = a.InitialLiveInfo.Price ∧
     (a.UpdateSwap false).CurrentLiveInfo = (a.UpdateSwap false).InitialLiveInfo) ∧
    ((a.UpdateSwap true).TokenMintAddress = a.CurrencyAddress ∧
     (a.UpdateSwap true).CurrencyAddress = a.TokenMintAddress ∧
     (a.UpdateSwap true).PoolCoinTokenAccount = a.PoolPcTokenAccount ∧
     (a.UpdateSwap true).PoolPcTokenAccount = a.PoolCoinTokenAccount ∧
     (a.UpdateSwap true).InitialLiveInfo.PooledToken = a.InitialLiveInfo.PooledLamports ∧
     (a.UpdateSwap true).InitialLiveInfo.PooledLamports = a.InitialLiveInfo.PooledToken ∧
     (a.UpdateSwap true).InitialLiveInfo.Price = 1 / a.InitialLiveInfo.Price ∧
     (a.UpdateSwap true).CurrentLiveInfo = (a.UpdateSwap true).InitialLiveInfo) ∧
    ∀ (c c1 : PairCollector) (key : PublicKey) (pair : PairInfo),
      handleAmmInfo c a = .ok c1 key pair →
      ∃ pair0, PairMap.get c.pairs key = some pair0 ∧
        pair = reconcileVaults
          { pair0 with AmmInfo := a.UpdateSwap (decide (a.TokenAddress = WrappedSol)) } ∧
        pair.AmmInfo.CurrentLiveInfo = pair.AmmInfo.InitialLiveInfo := by
  refine ⟨⟨rfl, rfl, rfl, rfl, rfl, rfl, rfl, rfl⟩, ⟨rfl, rfl, rfl, rfl, rfl, rfl, rfl, rfl⟩, ?_⟩
  intro c c1 key pair h
  obtain ⟨_, pair0, hget, hpair, _⟩ := handleAmmInfo_observed_ok c c1 a key pair hcalc h
  refine ⟨pair0, hget, hpair, ?_⟩
  subst hpair
  unfold reconcileVaults
  split
  · cases hb : ammSwappedOf a <;> simp [AmmInfo.oriented, hb, AmmInfo.UpdateSwap,
      AmmInfo.initializeCurrent]
  · cases hb : ammSwappedOf a <;> simp [AmmInfo.oriented, hb, AmmInfo.UpdateSwap,
      AmmInfo.initializeCurrent]

/-- Witness of C22: the observed fact of the examples in swapped orientation, handed to
the collector that holds the record of its token. -/
theorem UpdateSwap_all_or_none_witness :
    exObserved.swappedOrientation.Calculated = false ∧
    (exObserved.swappedOrientation.UpdateSwap true).TokenMintAddress = exToken ∧
    (exObserved.swappedOrientation.UpdateSwap true).CurrencyAddress = WrappedSol ∧
    (exObserved.swappedOrientation.UpdateSwap true).InitialLiveInfo.PooledToken = 500000 ∧
    (exObserved.swappedOrientation.UpdateSwap true).InitialLiveInfo.PooledLamports = 1000 ∧
    (exObserved.swappedOrientation.UpdateSwap true).CurrentLiveInfo =
      (exObserved.swappedOrientation.UpdateSwap true).InitialLiveInfo ∧
    (exObserved.UpdateSwap false).TokenMintAddress = exToken := by
  have h := UpdateSwap_all_or_none exObserved.swappedOrientation rfl
  have h2 := UpdateSwap_all_or_none exObserved rfl
  exact ⟨rfl, h.2.1.1, h.2.1.2.1, h.2.1.2.2.2.2.1, h.2.1.2.2.2.2.2.1, h.2.1.2.2.2.2.2.2.2,
    h2.1.1⟩

/-! ## The reconnect routines -/

/-- The retry loop of the order-book routine passes over any number of failures. -/
theorem reconnectOpenBookLoop_failures (sub : LogSubscription) (rest : List SubscribeOutcome)
    (k : Nat) :
    ∀ (err : String) (attempts sleeps : Nat),
      reconnectOpenBookLoop (.failed err)
        (List.replicate k (.failed "dial failed") ++ .subscribed sub :: rest) attempts sleeps =
        some { handle := sub, attempts := attempts + (k + 1), sleeps := sleeps + (k + 1) } := by
  induction k with
  | zero =>
    intro err attempts sleeps
    simp [reconnectOpenBookLoop]
  | succ k ih =>
    intro err attempts sleeps
    have h := ih "dial failed" (attempts + 1) (sleeps + 1)
    simp only [List.replicate_succ, List.cons_append, reconnectOpenBookLoop]
    refine Eq.trans h ?_
    congr 2 <;> omega

/-- The order-book routine on `k` failures followed by a success: `k + 1` attempts, the
handle replaced by the successful subscription. -/
theorem reconnectOpenBook_retries (k : Nat) (sub subID : LogSubscription) :
    reconnectOpenBookSubscription (failuresThenSuccess k sub) subID =
      some (.ok { handle := sub, attempts := k + 1, sleeps := k }) := by
  cases k with
  | zero => simp [reconnectOpenBookSubscription, failuresThenSuccess, reconnectOpenBookLoop]
  | succ k =>
    simp only [reconnectOpenBookSubscription, failuresThenSuccess, List.replicate_succ,
      List.cons_append]
    rw [reconnectOpenBookLoop_failures]
    simp
    omega

/-- The AMM routine on `k` failures followed by a success: fine up to one failure, a nil
dereference from two failures on. -/
theorem reconnecRaydium_retries (k : Nat) (sub subID : LogSubscription) :
    reconnecRaydiumSubscription (failuresThenSuccess k sub) subID =
      if k ≤ 1 then some (.ok { handle := sub, attempts := k + 1, sleeps := k })
      else some .fault := by
  match k with
  | 0 => simp [reconnecRaydiumSubscription, failuresThenSuccess]
  | 1 => simp [reconnecRaydiumSubscription, failuresThenSuccess]
  | k + 2 =>
    simp [reconnecRaydiumSubscription, failuresThenSuccess, List.replicate_succ]

/-- Claim C23 fails on the code. With two failures followed by a success, the order-book
routine makes three attempts and stores the successful subscription, while the AMM
routine, whose retry is an `if` and not a loop, makes two attempts and then dereferences
the nil subscription of the second failure. With at most one failure both routines do as
the claim says. -/
theorem raydium_reconnect_faults :
    reconnecRaydiumSubscription (failuresThenSuccess 2 ⟨9⟩) ⟨1⟩ = some .fault ∧
    reconnectOpenBookSubscription (failuresThenSuccess 2 ⟨9⟩) ⟨1⟩ =
      some (.ok { handle := ⟨9⟩, attempts := 3, sleeps := 2 }) ∧
    reconnecRaydiumSubscription (failuresThenSuccess 1 ⟨9⟩) ⟨1⟩ =
      some (.ok { handle := ⟨9⟩, attempts := 2, sleeps := 1 }) ∧
    reconnecRaydiumSubscription (failuresThenSuccess 0 ⟨9⟩) ⟨1⟩ =
      some (.ok { handle := ⟨9⟩, attempts := 1, sleeps := 0 }) := by
  decide

/-! ## The shared log set -/

/-- The map write puts the signature into the set and keeps what was there. -/
theorem logsetInsert_mem (s : List Signature) (sig x : Signature) :
    x ∈ logsetInsert s sig ↔ x = sig ∨ x ∈ s := by
  unfold logsetInsert
  split
  · rename_i h
    constructor
    · exact Or.inr
    · rintro (rfl | h2)
      · exact h
      · exact h2
  · simp

/-- Either classifier leaves the record's signature in the log set and removes none. -/
theorem analyze_logset (jsonValid : GoString → Bool) (r : Received) (st : ObserverState)
    (x : Signature) :
    x ∈ (r.analyze jsonValid st).logset ↔ x = r.log.Signature ∨ x ∈ st.logset := by
  unfold Received.analyze
  cases r.stream <;> simp [analyzeOpenBookLogs, analyzeRaydiumLogs, logsetInsert_mem]

/-- One turn of a consumer loop removes nothing from the log set. -/
theorem consumeStep_logset_mono (jsonValid : GoString → Bool) (r : Received)
    (st : ObserverState) (x : Signature) (hx : x ∈ st.logset) :
    x ∈ (consumeStep jsonValid r st).logset := by
  unfold consumeStep
  split
  · exact hx
  · split
    · exact hx
    · exact (analyze_logset jsonValid r st x).mpr (Or.inr hx)

/-- A sequential run removes nothing from the log set. -/
theorem consumeRun_logset_mono (jsonValid : GoString → Bool) (rs : List Received) :
    ∀ (st : ObserverState) (x : Signature), x ∈ st.logset →
      x ∈ (consumeRun jsonValid rs st).logset := by
  induction rs with
  | nil => intro st x hx; exact hx
  | cons r rest ih =>
    intro st x hx
    exact ih _ x (consumeStep_logset_mono jsonValid r st x hx)

/-- A record whose signature is in the log set is dropped: the state stays as it is. -/
theorem consumeStep_seen (jsonValid : GoString → Bool) (r : Received) (st : ObserverState)
    (h : r.log.Signature ∈ st.logset) : consumeStep jsonValid r st = st := by
  unfold consumeStep
  split
  · rfl
  · rfl

/-- Claim C24. After either classifier has scanned a record, on either stream and whether
or not it sent a candidate, the record's signature is in the shared log set; and after any
further sequential run of the consumer loops, a record with the same signature delivered
on either stream is dropped: the turn of the consumer loop leaves the state, and so the
channel of candidates, as it was. -/
theorem scanned_signature_dropped (jsonValid : GoString → Bool) (first later : Received)
    (st : ObserverState) (between : List Received)
    (hsig : later.log.Signature = first.log.Signature) :
    first.log.Signature ∈ (analyzeOpenBookLogs first.connName first.log st).logset ∧
    first.log.Signature ∈ (analyzeRaydiumLogs jsonValid first.connName first.log st).logset ∧
    first.log.Signature ∈ (first.analyze jsonValid st).logset ∧
    consumeStep jsonValid later (consumeRun jsonValid between (first.analyze jsonValid st)) =
      consumeRun jsonValid between (first.analyze jsonValid st) ∧
    (consumeStep jsonValid later
        (consumeRun jsonValid between (first.analyze jsonValid st))).txCandidatePublishC =
      (consumeRun jsonValid between (first.analyze jsonValid st)).txCandidatePublishC := by
  have hmem : first.log.Signature ∈ (first.analyze jsonValid st).logset :=
    (analyze_logset jsonValid first st _).mpr (Or.inl rfl)
  have hrun : later.log.Signature ∈
      (consumeRun jsonValid between (first.analyze jsonValid st)).logset := by
    rw [hsig]
    exact consumeRun_logset_mono jsonValid between _ _ hmem
  have hdrop := consumeStep_seen jsonValid later _ hrun
  refine ⟨?_, ?_, hmem, hdrop, by rw [hdrop]⟩
  · simp [analyzeOpenBookLogs, logsetInsert_mem]
  · simp [analyzeRaydiumLogs, logsetInsert_mem]

/-- Witness of C24: the pool initialisation record is first scanned by the order-book
classifier, which sends nothing; after another record has gone through, the same record
arrives on the AMM stream and is dropped, although the AMM classifier sends a candidate
for it from a state that has not seen its signature. -/
theorem scanned_signature_dropped_witness :
    (analyzeOpenBookLogs "node" exRaydiumLog exObserverState).txCandidatePublishC = [] ∧
    (consumeStep exJsonValid ⟨"node", .raydium, exRaydiumLog⟩
        exObserverState).txCandidatePublishC =
      [{ Signature := ⟨28⟩, clientName := "node", Metadata := some exIdoPayload }] ∧
    consumeStep exJsonValid ⟨"node", .raydium, exRaydiumLog⟩
        (consumeRun exJsonValid [⟨"node", .openBook, exOpenBookLog⟩]
          (Received.analyze exJsonValid ⟨"node", .openBook, exRaydiumLog⟩ exObserverState)) =
      consumeRun exJsonValid [⟨"node", .openBook, exOpenBookLog⟩]
        (Received.analyze exJsonValid ⟨"node", .openBook, exRaydiumLog⟩ exObserverState) ∧
    (consumeStep exJsonValid ⟨"node", .raydium, exRaydiumLog⟩
        (consumeRun exJsonValid [⟨"node", .openBook, exOpenBookLog⟩]
          (Received.analyze exJsonValid ⟨"node", .openBook, exRaydiumLog⟩
            exObserverState))).txCandidatePublishC =
      [{ Signature := ⟨18⟩, clientName := "node", Metadata := none }] := by
  have h := scanned_signature_dropped exJsonValid ⟨"node", .openBook, exRaydiumLog⟩
    ⟨"node", .raydium, exRaydiumLog⟩ exObserverState [⟨"node", .openBook, exOpenBookLog⟩] rfl
  refine ⟨by decide, by decide, h.2.2.2.1, ?_⟩
  rw [h.2.2.2.2]
  decide

end Rayscan
